import Mathlib

/-!
# suimeng: gesture recognizer and progress store

A verification development for `src/js/touch.js` (class `TouchHandler`) and
`src/js/storage.js` (class `GameStorage`).

## Modelling conventions

* Event handlers run to completion; a handler invocation is a pure function on
  an explicit state.
* Timers created by `setTimeout` live in an explicit queue of the world state;
  their expiry is an input event of its own, enabled only once the deadline is
  reached.
* Coordinates, timestamps and JSON numbers are integers; the values handed to
  the store may also be `NaN`.
* Visual feedback (`style`, `classList`) is not part of the state: it never
  influences control flow.
* Callbacks and listeners are observers: every invocation is appended to a log
  and they do not call back into the object that invokes them.
* Objects live in a heap and values hold references to them, so that the
  sharing created by `{ ...defaultProgress }` and by `target[key] = source[key]`
  is kept. Arrays have their indexed elements, their `length` and their other
  own properties. What an object does not have itself it inherits from the
  builtin prototype objects, which are constants (ECMAScript 2023): a run that
  would change one of them, or call a function other than the builtin the
  code expects, ends with `Err.outside`.
* A method that can raise returns the state it leaves behind together with
  either its result or the exception; a method whose body is a `try` block
  with a `catch` returns normally.
* `JSON.parse`, the text written by `JSON.stringify`, the depth of the call
  stack, the clock and the behaviour of `localStorage` are inputs.
-/

namespace Touch

/-- A contact point: `clientX`, `clientY`. -/
structure Pos where
  x : Int
  y : Int
deriving DecidableEq, Repr

/-- The `type` field of the object handed to a registered callback. -/
inductive Kind where
  | tap
  | longpress
deriving DecidableEq, Repr

/-- One invocation of `handler.callback`: `{type, element, position}`; `position`
is `handler.startPos` at the time of the call, which may be `null`. -/
structure Call where
  type : Kind
  position : Option Pos
deriving DecidableEq, Repr

/-- The `options` argument of `addLongPressListener`; `none` is an absent key. -/
structure Options where
  threshold : Option Nat
  moveThreshold : Option Int
deriving DecidableEq, Repr

/-- The `config` object of a handler. -/
structure Config where
  threshold : Nat
  moveThreshold : Int
deriving DecidableEq, Repr

/-- The fields `longPressThreshold` and `moveThreshold` set by the constructor. -/
def longPressThreshold : Nat := 600

/-- The default `moveThreshold` of the constructor (10px). -/
def defaultMoveThreshold : Int := 10

/-- The object literal
`{threshold: options.threshold || ..., moveThreshold: options.moveThreshold || ..., ...options}`:
the spread comes last, so a key present in `options` wins, also when it is `0`. -/
def mkConfig (o : Options) : Config :=
  { threshold := o.threshold.getD longPressThreshold
    moveThreshold := o.moveThreshold.getD defaultMoveThreshold }

/-- The `handler` record built by `addLongPressListener` (`element` and `callback`
are fixed per handler and not stored). `wasLongPress` is absent at first, which
reads as falsy. -/
structure Handler where
  config : Config
  timer : Option Nat
  startPos : Option Pos
  isActive : Bool
  wasLongPress : Bool
deriving DecidableEq, Repr

/-- A scheduled `setTimeout` that neither fired nor was cleared. -/
structure Timer where
  id : Nat
  deadline : Nat
deriving DecidableEq, Repr

/-- One registered handler together with the timers scheduled on its behalf
and the log of the calls made to its callback. -/
structure World where
  handler : Handler
  pending : List Timer
  nextId : Nat
  calls : List Call
deriving DecidableEq, Repr

/-- The state right after `addLongPressListener(element, callback, options)`.
Timer handles of a browser are positive integers. -/
def addLongPressListener (o : Options) : World :=
  { handler :=
      { config := mkConfig o, timer := none, startPos := none
        isActive := false, wasLongPress := false }
    pending := []
    nextId := 1
    calls := [] }

/-- Truthiness of `handler.timer`: `null` and the number `0` are falsy. -/
def timerTruthy : Option Nat → Bool
  | none => false
  | some n => n != 0

/-- The builtin `clearTimeout(id)`: unknown or expired handles are ignored. -/
def clearTimeout (w : World) (id : Option Nat) : World :=
  match id with
  | none => w
  | some i => { w with pending := w.pending.filter (fun tm => tm.id != i) }

/-- The method `startLongPress(handler)`, called at time `now`. -/
def startLongPress (now : Nat) (w : World) : World :=
  let w1 := if timerTruthy w.handler.timer then clearTimeout w w.handler.timer else w
  { w1 with
    handler := { w1.handler with timer := some w1.nextId }
    pending := w1.pending ++ [{ id := w1.nextId, deadline := now + w1.handler.config.threshold }]
    nextId := w1.nextId + 1 }

/-- The arrow function handed to `setTimeout` in `startLongPress`. -/
def onTimeout (w : World) : World :=
  if w.handler.isActive then
    { w with
      calls := w.calls ++ [{ type := Kind.longpress, position := w.handler.startPos }]
      handler := { w.handler with wasLongPress := true } }
  else w

/-- The method `cancelLongPress(handler)`. -/
def cancelLongPress (w : World) : World :=
  let w1 :=
    if timerTruthy w.handler.timer then
      let w0 := clearTimeout w w.handler.timer
      { w0 with handler := { w0.handler with timer := none } }
    else w
  { w1 with handler := { w1.handler with isActive := false } }

/-- The method `endInteraction(handler)`. -/
def endInteraction (w : World) : World :=
  let wasLongPress := w.handler.wasLongPress
  let w1 := cancelLongPress w
  let w2 :=
    if w1.handler.isActive && !wasLongPress then
      { w1 with calls := w1.calls ++ [{ type := Kind.tap, position := w1.handler.startPos }] }
    else w1
  { w2 with handler := { w2.handler with isActive := false, wasLongPress := false, startPos := none } }

/-- The method `handleMouseDown(e, handler)`. -/
def handleMouseDown (now : Nat) (p : Pos) (w : World) : World :=
  startLongPress now { w with handler := { w.handler with startPos := some p, isActive := true } }

/-- The method `handleTouchStart(e, handler)`; `touches` is `e.touches`. With an
empty list `e.touches[0].clientX` raises before any field is written. -/
def handleTouchStart (now : Nat) (touches : List Pos) (w : World) : World :=
  if touches.length > 1 then w
  else
    match touches.head? with
    | none => w
    | some touch => startLongPress now { w with handler := { w.handler with startPos := some touch, isActive := true } }

/-- The per-axis test of the move handlers: the point `p` is farther than `m`
from `s` on the x axis or on the y axis
(`deltaX > moveThreshold || deltaY > moveThreshold`). -/
def exceeds (m : Int) (s p : Pos) : Prop :=
  |p.x - s.x| > m ∨ |p.y - s.y| > m

instance (m : Int) (s p : Pos) : Decidable (exceeds m s p) := by
  unfold exceeds; infer_instance

/-- The method `handleMouseMove(e, handler)`; `p` is `(e.clientX, e.clientY)`. -/
def handleMouseMove (p : Pos) (w : World) : World :=
  if !w.handler.isActive || w.handler.startPos.isNone then w
  else
    match w.handler.startPos with
    | none => w
    | some s =>
      if exceeds w.handler.config.moveThreshold s p then cancelLongPress w else w

/-- The method `handleTouchMove(e, handler)`; with an empty `e.touches` the read
of `clientX` raises after the guard and nothing is written. -/
def handleTouchMove (touches : List Pos) (w : World) : World :=
  if !w.handler.isActive || w.handler.startPos.isNone then w
  else
    match touches.head?, w.handler.startPos with
    | some touch, some s =>
      if exceeds w.handler.config.moveThreshold s touch then cancelLongPress w else w
    | _, _ => w

/-- The inputs a handler can receive. -/
inductive Input where
  | touchstart (touches : List Pos)
  | touchmove (touches : List Pos)
  | touchend
  | touchcancel
  | mousedown (p : Pos)
  | mousemove (p : Pos)
  | mouseup
  | mouseleave
  | timeout (id : Nat)
deriving DecidableEq, Repr

/-- An input together with the time at which it is delivered. -/
structure Ev where
  t : Nat
  inp : Input
deriving DecidableEq, Repr

/-- The scheduler running the timer `id` at time `now`: only a timer that is
still pending and whose deadline has passed runs; it leaves the queue. -/
def fire (now : Nat) (id : Nat) (w : World) : World :=
  if w.pending.any (fun tm => tm.id == id && decide (tm.deadline ≤ now)) then
    onTimeout { w with pending := w.pending.filter (fun tm => tm.id != id) }
  else w

/-- Delivery of one input to the listeners that `addLongPressListener` attached. -/
def step (w : World) (e : Ev) : World :=
  match e.inp with
  | Input.touchstart ts => handleTouchStart e.t ts w
  | Input.touchmove ts => handleTouchMove ts w
  | Input.touchend => endInteraction w
  | Input.touchcancel => endInteraction w
  | Input.mousedown p => handleMouseDown e.t p w
  | Input.mousemove p => handleMouseMove p w
  | Input.mouseup => endInteraction w
  | Input.mouseleave => endInteraction w
  | Input.timeout id => fire e.t id w

/-- Delivery of a sequence of inputs, oldest first. -/
def run (w : World) (es : List Ev) : World :=
  es.foldl step w

/-- A press-start that opens an interaction: `mousedown`, or `touchstart` with
exactly one contact. -/
def Input.isPressStart : Input → Bool
  | Input.touchstart ts => ts.length == 1
  | Input.mousedown _ => true
  | _ => false

/-- The terminating inputs: all four are routed to `endInteraction`. -/
def Input.isPressEnd : Input → Bool
  | Input.touchend => true
  | Input.touchcancel => true
  | Input.mouseup => true
  | Input.mouseleave => true
  | _ => false

/-- A movement input (touch or mouse) whose point stays within `m` of `s` on
both axes. -/
def Input.isMoveWithin (m : Int) (s : Pos) : Input → Bool
  | Input.touchmove ts =>
    match ts.head? with
    | none => false
    | some p => decide (¬ exceeds m s p)
  | Input.mousemove p => decide (¬ exceeds m s p)
  | _ => false

/-- A movement input whose point exceeds `m` from `s` on some axis. -/
def Input.isMoveBeyond (m : Int) (s : Pos) : Input → Bool
  | Input.touchmove ts =>
    match ts.head? with
    | none => false
    | some p => decide (exceeds m s p)
  | Input.mousemove p => decide (exceeds m s p)
  | _ => false

/-- A pressed state: what a press-start at `p` establishes and within-threshold
moves preserve. -/
structure Pressed (cfg : Config) (p : Pos) (w : World) : Prop where
  cfg_eq : w.handler.config = cfg
  pos_eq : w.handler.startPos = some p
  active : w.handler.isActive = true

/-- One call of `addLongPressListener`: the element, the callback, and the
handler record with its timers, over which the eight listeners added to the
element close. A listener, once added, stays on its element: the class never
calls `removeEventListener`. -/
structure Registration where
  element : Nat
  callback : Nat
  world : World
deriving DecidableEq, Repr

/-- The `TouchHandler` instance together with the listeners it has added:
`registrations` in the order of the calls of `addLongPressListener`, and
`activeElements`, the `Map` from an element to its handler, given by the
position of the handler in `registrations`. -/
structure TouchHandler where
  registrations : List Registration
  activeElements : List (Nat × Nat)
deriving DecidableEq, Repr

/-- The constructor of `TouchHandler`: `activeElements = new Map()`. -/
def TouchHandler.create : TouchHandler :=
  { registrations := [], activeElements := [] }

/-- The builtin `Map.prototype.set`: a key that is present keeps its place and
gets the new value. -/
def mapSet (element handler : Nat) : List (Nat × Nat) → List (Nat × Nat)
  | [] => [(element, handler)]
  | (e, h) :: rest =>
    if e = element then (element, handler) :: rest else (e, h) :: mapSet element handler rest

/-- The method `addLongPressListener(element, callback, options)` on the
instance: a new handler is stored in the `Map` under `element` and its
listeners are added to `element`. -/
def TouchHandler.addLongPressListener (th : TouchHandler) (element callback : Nat)
    (options : Options) : TouchHandler :=
  { registrations :=
      th.registrations ++ [⟨element, callback, Touch.addLongPressListener options⟩]
    activeElements := mapSet element th.registrations.length th.activeElements }

/-- A touch or mouse event on `element`: every listener added to that element
runs, in the order of registration, each on the handler it closes over. -/
def TouchHandler.dispatch (th : TouchHandler) (element : Nat) (e : Ev) : TouchHandler :=
  match e.inp with
  | Input.timeout _ => th
  | _ =>
    { registrations := th.registrations.map
        (fun r => if r.element = element then { r with world := step r.world e } else r)
      activeElements := th.activeElements }

/-- The function `f` applied to the entry at position `i`. -/
def modifyAt (f : Registration → Registration) : Nat → List Registration → List Registration
  | _, [] => []
  | 0, r :: rs => f r :: rs
  | i + 1, r :: rs => r :: modifyAt f i rs

/-- The expiry at time `now` of the timer `id` that the handler at position `i`
scheduled. -/
def TouchHandler.expire (th : TouchHandler) (i now id : Nat) : TouchHandler :=
  { registrations :=
      modifyAt (fun r => { r with world := fire now id r.world }) i th.registrations
    activeElements := th.activeElements }

/-- The loop of `destroy()` over the entries of the `Map`: `clearTimeout` for
every handler of the `Map` whose `timer` is truthy. -/
def clearHandlers (active : List (Nat × Nat)) : Nat → List Registration → List Registration
  | _, [] => []
  | i, r :: rs =>
    (if active.any (fun entry => entry.2 == i) && timerTruthy r.world.handler.timer then
        { r with world := clearTimeout r.world r.world.handler.timer }
      else r) :: clearHandlers active (i + 1) rs

/-- The method `destroy()`. -/
def TouchHandler.destroy (th : TouchHandler) : TouchHandler :=
  { registrations := clearHandlers th.activeElements 0 th.registrations
    activeElements := [] }

/-- The calls made so far to the callback `callback`. -/
def TouchHandler.callsTo (th : TouchHandler) (callback : Nat) : List Call :=
  (th.registrations.filter (fun r => r.callback == callback)).flatMap (fun r => r.world.calls)

/-- A state of a handler in which the timer queue agrees with `handler.timer`:
at most one timer is pending, it is the one `handler.timer` names, and handles
are positive and below the next handle. -/
def World.TimerInv (w : World) : Prop :=
  w.nextId ≠ 0 ∧
  (w.pending = [] ∨
    ∃ tm, w.pending = [tm] ∧ w.handler.timer = some tm.id ∧ tm.id ≠ 0 ∧ tm.id < w.nextId)

instance (w : World) : Decidable w.TimerInv := by
  unfold World.TimerInv
  have : Decidable (∃ tm, w.pending = [tm] ∧ w.handler.timer = some tm.id ∧ tm.id ≠ 0 ∧
      tm.id < w.nextId) :=
    match hp : w.pending with
    | [tm] =>
      if h : w.handler.timer = some tm.id ∧ tm.id ≠ 0 ∧ tm.id < w.nextId then
        isTrue ⟨tm, rfl, h⟩
      else
        isFalse (fun ⟨tm', h1, h2⟩ => by
          have : tm' = tm := by simpa using h1.symm
          subst this
          exact h h2)
    | [] => isFalse (fun ⟨_, h1, _⟩ => by simp at h1)
    | _ :: _ :: _ => isFalse (fun ⟨_, h1, _⟩ => by simp at h1)
  infer_instance

/-- The method `preventDoubleTapZoom(e)`, run when `new Date().getTime()` is
`currentTime`: whether it calls `e.preventDefault()`, and the value its local
variable `lastTap` holds when it returns. `lastTap` is declared in the body,
so every run starts from `0`. -/
def preventDoubleTapZoom (currentTime : Int) : Bool × Int :=
  let lastTap : Int := 0
  let tapLength := currentTime - lastTap
  let prevented := decide (tapLength < 500) && decide (tapLength > 0)
  (prevented, currentTime)

/-- The `touchstart` events of the document, given by the clock value at each:
`init()` registers `preventDoubleTapZoom` on `document`, so the method runs once
per event. The result tells, event by event, whether `preventDefault` was
called. -/
def touchStarts (times : List Int) : List Bool :=
  times.map (fun currentTime => (preventDoubleTapZoom currentTime).1)

end Touch

namespace Store

/-- The builtin prototype objects a value of the document can inherit from:
`Object.prototype`, `Array.prototype`, `String.prototype`, `Number.prototype`
and `Boolean.prototype`. -/
inductive Proto where
  | object
  | array
  | string
  | number
  | boolean
deriving DecidableEq, Repr

/-- A JavaScript value of the document: primitives, a reference to an object
of the heap, a builtin function (named by the place where it is defined, as in
`Array.prototype.push`), or one of the builtin prototype objects. Objects are
compared by reference, as `===` does. Of the numbers that are not integers
only `NaN` is kept: it is the one value `===` does not take to be equal to
itself, while `includes` does. -/
inductive Val where
  | undefined
  | null
  | bool (b : Bool)
  | num (n : Int)
  | nan
  | str (s : String)
  | ref (a : Nat)
  | fn (name : String)
  | proto (p : Proto)
deriving DecidableEq, Repr

/-- The exceptions the modelled code can raise, and `outside`, which is not an
exception of the code: it ends a run at a step this development does not
describe (an assignment to a builtin prototype object or to a builtin
function, a change of the prototype of an object, a call of a function other
than the builtin the code expects, the conversion to a number of an object or
of a string that is not a plain decimal numeral). It is passed on like an
exception, also through a `catch` block; a statement about a call that can
take such a step excludes it in so many words. -/
inductive Err where
  | typeError
  | rangeError
  | syntaxError
  | storageError
  | outside
deriving DecidableEq, Repr

deriving instance DecidableEq for Except

/-- A heap object. A plain object keeps its own properties in `props`, in
insertion order, and has no `elems`. An array keeps its indexed elements in
`elems` (`none` is a hole) and its other own properties in `props`; its `length`
is the length of `elems`. The prototype of a plain object is
`Object.prototype`, that of an array is `Array.prototype`. -/
structure Obj where
  isArray : Bool
  elems : List (Option Val)
  props : List (String × Val)
deriving DecidableEq, Repr

/-- The heap: the object at address `a` is the `a`-th entry. -/
abbrev Heap := List Obj

/-- The literal `{}`. -/
def Obj.empty : Obj := { isArray := false, elems := [], props := [] }

/-- The object stored at `a`; an address that was never allocated reads as an
empty object. -/
def Heap.obj (h : Heap) (a : Nat) : Obj := h.getD a Obj.empty

/-- Allocation of a new object: it gets the next free address. -/
def Heap.alloc (h : Heap) (o : Obj) : Heap × Nat := (h ++ [o], h.length)

/-- Conversion to boolean (`!v`, `v || w`, `if (v)`). -/
def truthy : Val → Bool
  | Val.undefined => false
  | Val.null => false
  | Val.bool b => b
  | Val.num n => n != 0
  | Val.nan => false
  | Val.str s => s != ""
  | Val.ref _ => true
  | Val.fn _ => true
  | Val.proto _ => true

/-- The test `typeof v === 'object'`, which holds for `null` too, and not for
a function. -/
def typeofObject : Val → Bool
  | Val.null => true
  | Val.ref _ => true
  | Val.proto _ => true
  | _ => false

/-- Lookup in a property list. -/
def assocGet (k : String) : List (String × Val) → Option Val
  | [] => none
  | (k', v) :: rest => if k' = k then some v else assocGet k rest

/-- Update of a property list: an existing key keeps its place, a new key goes
last. -/
def assocSet (k : String) (v : Val) : List (String × Val) → List (String × Val)
  | [] => [(k, v)]
  | (k', v') :: rest => if k' = k then (k, v) :: rest else (k', v') :: assocSet k v rest

/-- The value of a decimal digit. -/
def digitVal (c : Char) : Option Nat :=
  if 48 ≤ c.toNat ∧ c.toNat ≤ 57 then some (c.toNat - 48) else none

/-- The number written by a list of decimal digits, after the digits already
read (`acc`). -/
def digitsVal : List Char → Nat → Option Nat
  | [], acc => some acc
  | c :: cs, acc =>
    match digitVal c with
    | none => none
    | some d => digitsVal cs (acc * 10 + d)

/-- The array index a property name denotes, if any: a canonical decimal
numeral (no leading zero) below `2^32 - 1`. -/
def arrayIndex (k : String) : Option Nat :=
  match k.data with
  | [] => none
  | c :: cs =>
    if c = '0' ∧ cs ≠ [] then none
    else
      match digitsVal (c :: cs) 0 with
      | none => none
      | some n => if n < 4294967295 then some n else none

/-- The names of the methods of `Object.prototype`. -/
def objectPrototypeNames : List String :=
  ["constructor", "__defineGetter__", "__defineSetter__", "hasOwnProperty",
    "__lookupGetter__", "__lookupSetter__", "isPrototypeOf", "propertyIsEnumerable",
    "toString", "valueOf", "toLocaleString"]

/-- The names of the methods of `Array.prototype`. -/
def arrayPrototypeNames : List String :=
  ["constructor", "at", "concat", "copyWithin", "fill", "find", "findIndex", "findLast",
    "findLastIndex", "lastIndexOf", "pop", "push", "reverse", "shift", "unshift", "slice",
    "sort", "splice", "includes", "indexOf", "join", "keys", "entries", "values", "forEach",
    "filter", "flat", "flatMap", "map", "every", "some", "reduce", "reduceRight",
    "toLocaleString", "toString", "toReversed", "toSorted", "toSpliced", "with"]

/-- The names of the methods of `String.prototype`, those of Annex B
included. -/
def stringPrototypeNames : List String :=
  ["constructor", "anchor", "at", "big", "blink", "bold", "charAt", "charCodeAt",
    "codePointAt", "concat", "endsWith", "fontcolor", "fontsize", "fixed", "includes",
    "indexOf", "italics", "lastIndexOf", "link", "localeCompare", "match", "matchAll",
    "normalize", "padEnd", "padStart", "repeat", "replace", "replaceAll", "search", "slice",
    "small", "split", "strike", "sub", "substr", "substring", "sup", "startsWith",
    "toString", "trim", "trimStart", "trimLeft", "trimEnd", "trimRight",
    "toLocaleLowerCase", "toLocaleUpperCase", "toLowerCase", "toUpperCase", "valueOf"]

/-- The names of the methods of `Number.prototype`. -/
def numberPrototypeNames : List String :=
  ["constructor", "toExponential", "toFixed", "toPrecision", "toString", "valueOf",
    "toLocaleString"]

/-- The names of the methods of `Boolean.prototype`. -/
def booleanPrototypeNames : List String :=
  ["constructor", "toString", "valueOf"]

/-- The name of a prototype object and of the constructor it belongs to. -/
def Proto.name : Proto → String
  | Proto.object => "Object"
  | Proto.array => "Array"
  | Proto.string => "String"
  | Proto.number => "Number"
  | Proto.boolean => "Boolean"

/-- The names of the methods of a prototype object. -/
def Proto.names : Proto → List String
  | Proto.object => objectPrototypeNames
  | Proto.array => arrayPrototypeNames
  | Proto.string => stringPrototypeNames
  | Proto.number => numberPrototypeNames
  | Proto.boolean => booleanPrototypeNames

/-- The own data properties of a prototype object: its methods, `constructor`
being the constructor itself, and the `length` of `Array.prototype` and of
`String.prototype`, which is 0. `trimLeft` and `trimRight` are the functions
`trimStart` and `trimEnd`. -/
def Proto.own (p : Proto) (k : String) : Option Val :=
  if k = "length" ∧ (p = Proto.array ∨ p = Proto.string) then some (Val.num 0)
  else if p.names.contains k then
    if k = "constructor" then some (Val.fn p.name)
    else if p = Proto.string ∧ k = "trimLeft" then some (Val.fn "String.prototype.trimStart")
    else if p = Proto.string ∧ k = "trimRight" then some (Val.fn "String.prototype.trimEnd")
    else some (Val.fn (p.name ++ ".prototype." ++ k))
  else none

/-- The data property found under `k` when the lookup starts at the prototype
object `p`: its own one, or that of `Object.prototype`, where every chain
ends. -/
def Proto.find (p : Proto) (k : String) : Option Val :=
  match p.own k with
  | some v => some v
  | none => if p = Proto.object then none else Proto.object.own k

/-- What an object whose prototype is `p` inherits under `k`: the getter of
`__proto__` returns the prototype of the object. -/
def inherited (p : Proto) (k : String) : Option Val :=
  if k = "__proto__" then some (Val.proto p) else p.find k

/-- The read `p[k]` on a prototype object itself, when the property exists: the
prototype of `Object.prototype` is `null`, that of the others is
`Object.prototype`. -/
def Proto.get (p : Proto) (k : String) : Option Val :=
  if k = "__proto__" then
    some (if p = Proto.object then Val.null else Val.proto Proto.object)
  else p.find k

/-- The prototype of a heap object. -/
def Obj.proto (o : Obj) : Proto := if o.isArray then Proto.array else Proto.object

/-- The own property `k` of a heap object, if it has one. -/
def Obj.own (o : Obj) (k : String) : Option Val :=
  if o.isArray then
    match arrayIndex k with
    | some i => o.elems.getD i none
    | none => if k = "length" then some (Val.num o.elems.length) else assocGet k o.props
  else assocGet k o.props

/-- The operator `k in o`: own properties, then the prototype chain. -/
def Obj.has (o : Obj) (k : String) : Bool :=
  (o.own k).isSome || (inherited o.proto k).isSome

/-- The read `o[k]`: the own property, else the inherited one, else
`undefined`. -/
def Obj.get (o : Obj) (k : String) : Val :=
  match o.own k with
  | some v => v
  | none => (inherited o.proto k).getD Val.undefined

/-- The number an assignment to the `length` of an array converts its
right-hand side to, when that number is a valid length; `RangeError` when it
is not. A string is converted when it is a plain decimal numeral (the empty
string is 0); the other strings, and objects and functions, whose conversion
calls their methods, are not described. -/
def toLength : Val → Except Err Nat
  | Val.undefined => Except.error Err.rangeError
  | Val.null => Except.ok 0
  | Val.bool b => Except.ok (if b then 1 else 0)
  | Val.num n => if 0 ≤ n ∧ n < 4294967296 then Except.ok n.toNat else Except.error Err.rangeError
  | Val.nan => Except.error Err.rangeError
  | Val.str s =>
    match digitsVal s.data 0 with
    | some n => if n < 4294967296 then Except.ok n else Except.error Err.rangeError
    | none => Except.error Err.outside
  | Val.ref _ => Except.error Err.outside
  | Val.fn _ => Except.error Err.outside
  | Val.proto _ => Except.error Err.outside

/-- Whether a value is a number that is a valid length of an array. -/
def isLength : Val → Bool
  | Val.num n => decide (0 ≤ n ∧ n < 4294967296)
  | _ => false

/-- The elements of an array after `length = n`. -/
def resize (n : Nat) (es : List (Option Val)) : List (Option Val) :=
  es.take n ++ List.replicate (n - es.length) none

/-- Whether the setter of `__proto__` ignores the value: it does so for every
value that is neither an object nor `null`. -/
def ignoredAsPrototype : Val → Bool
  | Val.undefined => true
  | Val.bool _ => true
  | Val.num _ => true
  | Val.nan => true
  | Val.str _ => true
  | _ => false

/-- The assignment `o[k] = v` on an extensible object with writable properties.
When `o` has no own property `__proto__`, the assignment `o['__proto__'] = v`
runs the inherited setter, which creates no property: it ignores a primitive
value and makes any other value the prototype of `o`. -/
def Obj.put (o : Obj) (k : String) (v : Val) : Except Err Obj :=
  if k = "__proto__" ∧ o.own k = none then
    if ignoredAsPrototype v then Except.ok o else Except.error Err.outside
  else if o.isArray then
    match arrayIndex k with
    | some i =>
      if i < o.elems.length then Except.ok { o with elems := o.elems.set i (some v) }
      else Except.ok { o with elems := o.elems ++ List.replicate (i - o.elems.length) none ++ [some v] }
    | none =>
      if k = "length" then
        match toLength v with
        | Except.ok n => Except.ok { o with elems := resize n o.elems }
        | Except.error e => Except.error e
      else Except.ok { o with props := assocSet k v o.props }
  else Except.ok { o with props := assocSet k v o.props }

/-- The one-character string at position `i` of `s`, as `s[i]` reads it. -/
def charAt (s : String) (i : Nat) : Val :=
  match s.data.get? i with
  | some c => Val.str (String.mk [c])
  | none => Val.undefined

/-- The read `v[k]`: raises on `undefined` and `null`; a primitive has the index
and `length` properties of a string and what its prototype gives it. The
properties of a builtin function are not described. -/
def readProp (h : Heap) (v : Val) (k : String) : Except Err Val :=
  match v with
  | Val.undefined => Except.error Err.typeError
  | Val.null => Except.error Err.typeError
  | Val.bool _ => Except.ok ((inherited Proto.boolean k).getD Val.undefined)
  | Val.num _ => Except.ok ((inherited Proto.number k).getD Val.undefined)
  | Val.nan => Except.ok ((inherited Proto.number k).getD Val.undefined)
  | Val.str s =>
    match arrayIndex k with
    | some i => Except.ok (charAt s i)
    | none =>
      if k = "length" then Except.ok (Val.num s.length)
      else Except.ok ((inherited Proto.string k).getD Val.undefined)
  | Val.ref a => Except.ok ((h.obj a).get k)
  | Val.fn _ => Except.error Err.outside
  | Val.proto p => Except.ok ((p.get k).getD Val.undefined)

/-- The assignment `v[k] = x` in strict mode (class bodies are strict): on
`undefined` and `null` it raises `TypeError`; on another primitive it raises
`TypeError` too, unless `k` is `__proto__`, whose inherited setter returns
without doing anything; on an array it raises `RangeError` for an invalid
length. The heap is returned in every case. -/
def writeProp (h : Heap) (v : Val) (k : String) (x : Val) : Heap × Except Err Unit :=
  match v with
  | Val.ref a =>
    match (h.obj a).put k x with
    | Except.ok o => (h.set a o, Except.ok ())
    | Except.error e => (h, Except.error e)
  | Val.fn _ => (h, Except.error Err.outside)
  | Val.proto _ => (h, Except.error Err.outside)
  | Val.undefined => (h, Except.error Err.typeError)
  | Val.null => (h, Except.error Err.typeError)
  | _ => if k = "__proto__" then (h, Except.ok ()) else (h, Except.error Err.typeError)

/-- The operator `k in v`: raises unless `v` is an object. -/
def inOp (h : Heap) (k : String) (v : Val) : Except Err Bool :=
  match v with
  | Val.ref a => Except.ok ((h.obj a).has k)
  | Val.proto p => Except.ok (p.get k).isSome
  | Val.fn _ => Except.error Err.outside
  | _ => Except.error Err.typeError

/-- The test `Array.isArray(v)`; `Array.prototype` is an array. -/
def isArray (h : Heap) (v : Val) : Bool :=
  match v with
  | Val.ref a => (h.obj a).isArray
  | Val.proto p => p == Proto.array
  | _ => false

/-- The segments of `key.split('.')`, reading the characters left to right;
`acc` holds the current segment reversed. There is always at least one
segment. -/
def splitAux : List Char → List Char → List String
  | [], acc => [String.mk acc.reverse]
  | c :: cs, acc =>
    if c = '.' then String.mk acc.reverse :: splitAux cs []
    else splitAux cs (c :: acc)

/-- The builtin `key.split('.')`. -/
def split (key : String) : List String := splitAux key.data []

/-- The loop of `get(key)` over the remaining segments, `current` being the
value reached so far. -/
def getNav (h : Heap) : Val → List String → Except Err Val
  | current, [] => Except.ok current
  | current, k :: ks =>
    if truthy current && typeofObject current then
      match inOp h k current with
      | Except.error e => Except.error e
      | Except.ok true =>
        match readProp h current k with
        | Except.error e => Except.error e
        | Except.ok next => getNav h next ks
      | Except.ok false => Except.ok Val.undefined
    else Except.ok Val.undefined

/-- The body of `set(key, value)` after the split: the navigation to the parent
object, which replaces by `{}` whatever is falsy or not of type object on the
way, and the assignment of the leaf. It returns the heap as the code leaves
it, with `oldValue` or the exception raised. With no segment at all the name
of the leaf would be `undefined`. -/
def setNav : Heap → Val → List String → Val → Heap × Except Err Val
  | h, current, [], value =>
    match readProp h current "undefined" with
    | Except.error e => (h, Except.error e)
    | Except.ok oldValue =>
      match writeProp h current "undefined" value with
      | (h1, Except.error e) => (h1, Except.error e)
      | (h1, Except.ok _) => (h1, Except.ok oldValue)
  | h, current, [lastKey], value =>
    match readProp h current lastKey with
    | Except.error e => (h, Except.error e)
    | Except.ok oldValue =>
      match writeProp h current lastKey value with
      | (h1, Except.error e) => (h1, Except.error e)
      | (h1, Except.ok _) => (h1, Except.ok oldValue)
  | h, current, k :: k' :: ks, value =>
    match readProp h current k with
    | Except.error e => (h, Except.error e)
    | Except.ok c =>
      if !truthy c || !typeofObject c then
        match writeProp (h.alloc Obj.empty).1 current k (Val.ref (h.alloc Obj.empty).2) with
        | (h1, Except.error e) => (h1, Except.error e)
        | (h1, Except.ok _) =>
          match readProp h1 current k with
          | Except.error e => (h1, Except.error e)
          | Except.ok next => setNav h1 next (k' :: ks) value
      else setNav h c (k' :: ks) value

/-- The method `array.includes(item)`: a hole reads as `undefined`, and `NaN` is
found. -/
def includes (o : Obj) (item : Val) : Bool :=
  (o.elems.map (fun e => e.getD Val.undefined)).contains item

/-- The method `array.push(item)`. -/
def push (o : Obj) (item : Val) : Obj :=
  { o with elems := o.elems ++ [some item] }

/-- The method `array.indexOf(item)`: holes are skipped, and the comparison is
`===`, so that `NaN` is never found. -/
def indexOf (o : Obj) (item : Val) : Option Nat :=
  if item = Val.nan then none
  else
    let i := o.elems.indexOf (some item)
    if i < o.elems.length then some i else none

/-- The call `array.splice(index, 1)`. -/
def splice1 (o : Obj) (index : Nat) : Obj :=
  { o with elems := o.elems.eraseIdx index }

/-- The decimal numeral of an index, as a property name. -/
def indexKey (i : Nat) : String := Nat.repr i

/-- Insertion of a property named by the array index `i` into a list sorted by
index; it goes before the first greater index. -/
def insertByIndex (i : Nat) (kv : String × Val) :
    List (Nat × String × Val) → List (Nat × String × Val)
  | [] => [(i, kv)]
  | (j, kv') :: rest =>
    if i < j then (i, kv) :: (j, kv') :: rest else (j, kv') :: insertByIndex i kv rest

/-- The properties of a list that are named by an array index, in ascending
order of the index. -/
def indexNamed : List (String × Val) → List (Nat × String × Val)
  | [] => []
  | kv :: rest =>
    match arrayIndex kv.1 with
    | some i => insertByIndex i kv (indexNamed rest)
    | none => indexNamed rest

/-- The own enumerable properties of an object in the order `for...in`, the
spread and `JSON.stringify` visit them: the properties named by an array
index in ascending order, then the others in the order of their creation. -/
def Obj.entries (o : Obj) : List (String × Val) :=
  if o.isArray then
    (List.range o.elems.length).filterMap
        (fun i => (o.elems.getD i none).map (fun v => (indexKey i, v))) ++ o.props
  else
    (indexNamed o.props).map Prod.snd ++
      o.props.filter (fun kv => (arrayIndex kv.1).isNone)

/-- The property names `for (const key in v)` visits: none for `null`,
`undefined`, booleans and numbers, the indices for a string. The properties of
the builtin prototype objects and functions are not enumerable. -/
def forInKeys (h : Heap) (v : Val) : List String :=
  match v with
  | Val.ref a => (h.obj a).entries.map Prod.fst
  | Val.str s => (List.range s.length).map indexKey
  | _ => []

/-- The call of the method found under a name: it goes on when what was found
is the builtin `builtin`, raises `TypeError` when it is not a function, and is
not described when it is another function. -/
def callBuiltin (found : Val) (builtin : String) : Except Err Unit :=
  match found with
  | Val.fn f => if f = builtin then Except.ok () else Except.error Err.outside
  | _ => Except.error Err.typeError

/-- The call `source.hasOwnProperty(key)` in `deepMerge`: the method is looked
up on `source`, where an own property of that name hides the builtin. -/
def hasOwnProperty (h : Heap) (source : Val) (key : String) : Except Err Bool :=
  match readProp h source "hasOwnProperty" with
  | Except.error e => Except.error e
  | Except.ok found =>
    match callBuiltin found "Object.prototype.hasOwnProperty" with
    | Except.error e => Except.error e
    | Except.ok _ =>
      match source with
      | Val.ref a => Except.ok ((h.obj a).own key).isSome
      | Val.str s =>
        match arrayIndex key with
        | some i => Except.ok (decide (i < s.length))
        | none => Except.ok (key == "length")
      | Val.proto p => Except.ok (key == "__proto__" && p == Proto.object || (p.own key).isSome)
      | _ => Except.ok false

/-- The inner function `deepMerge(target, source)` of `mergeWithDefaults`. The
first argument bounds the depth of the recursion as the call stack does:
exceeding it raises `RangeError`. The keys are those `source` has when the
loop starts. The heap is returned also when an exception is raised. -/
def deepMerge : Nat → Heap → Val → Val → Heap × Except Err Val
  | 0, h, _, _ => (h, Except.error Err.rangeError)
  | depth + 1, h, target, source =>
    let body := fun (acc : Heap × Except Err Unit) (key : String) =>
      match acc with
      | (h0, Except.error e) => (h0, Except.error e)
      | (h0, Except.ok _) =>
        match hasOwnProperty h0 source key with
        | Except.error e => (h0, Except.error e)
        | Except.ok false => (h0, Except.ok ())
        | Except.ok true =>
          match readProp h0 source key with
          | Except.error e => (h0, Except.error e)
          | Except.ok sv =>
            if typeofObject sv && !isArray h0 sv && sv != Val.null then
              match readProp h0 target key with
              | Except.error e => (h0, Except.error e)
              | Except.ok tv =>
                let start : Heap × Val :=
                  if truthy tv then (h0, tv)
                  else ((h0.alloc Obj.empty).1, Val.ref (h0.alloc Obj.empty).2)
                match deepMerge depth start.1 start.2 sv with
                | (h1, Except.error e) => (h1, Except.error e)
                | (h1, Except.ok r) => writeProp h1 target key r
            else writeProp h0 target key sv
    match (forInKeys h source).foldl body (h, Except.ok ()) with
    | (h', Except.error e) => (h', Except.error e)
    | (h', Except.ok _) => (h', Except.ok target)

/-- The properties of an object literal whose members are defined in the
given order: a repeated name keeps its first place and its last value. -/
def fromEntries (es : List (String × Val)) : List (String × Val) :=
  es.foldl (fun ps kv => assocSet kv.1 kv.2 ps) []

/-- The own enumerable properties the spread `...v` copies. -/
def spreadEntries (h : Heap) (v : Val) : List (String × Val) :=
  match v with
  | Val.ref a => (h.obj a).entries
  | Val.str s => (List.range s.length).map (fun i => (indexKey i, charAt s i))
  | _ => []

/-- The spread `{ ...v }`: a new plain object with the own enumerable
properties of `v`. -/
def spread (h : Heap) (v : Val) : Heap × Val :=
  ((h.alloc { isArray := false, elems := [], props := fromEntries (spreadEntries h v) }).1,
    Val.ref (h.alloc { isArray := false, elems := [], props := fromEntries (spreadEntries h v) }).2)

/-- A parsed JSON text. -/
inductive Json where
  | null
  | bool (b : Bool)
  | num (n : Int)
  | str (s : String)
  | arr (items : List Json)
  | obj (fields : List (String × Json))

mutual
/-- The objects `JSON.parse` builds for a parsed text: every array and object
of the text is a new object of the heap. -/
def Json.build : Json → Heap → Heap × Val
  | Json.null, h => (h, Val.null)
  | Json.bool b, h => (h, Val.bool b)
  | Json.num n, h => (h, Val.num n)
  | Json.str s, h => (h, Val.str s)
  | Json.arr items, h =>
    let r := Json.buildItems items h
    ((r.1.alloc { isArray := true, elems := r.2.map some, props := [] }).1,
      Val.ref (r.1.alloc { isArray := true, elems := r.2.map some, props := [] }).2)
  | Json.obj fields, h =>
    let r := Json.buildFields fields h
    ((r.1.alloc { isArray := false, elems := [], props := fromEntries r.2 }).1,
      Val.ref (r.1.alloc { isArray := false, elems := [], props := fromEntries r.2 }).2)
/-- The elements of a parsed array, built left to right. -/
def Json.buildItems : List Json → Heap → Heap × List Val
  | [], h => (h, [])
  | j :: js, h =>
    let r := Json.build j h
    let rs := Json.buildItems js r.1
    (rs.1, r.2 :: rs.2)
/-- The members of a parsed object, built left to right. -/
def Json.buildFields : List (String × Json) → Heap → Heap × List (String × Val)
  | [], h => (h, [])
  | (k, j) :: rest, h =>
    let r := Json.build j h
    let rs := Json.buildFields rest r.1
    (rs.1, (k, r.2) :: rs.2)
end

/-- The value `JSON.stringify` serialises, as a parsed text: `none` for a value
that is left out (`undefined`, a function). `NaN` is written `null`. In an
array a hole, `undefined` or a function is written `null`, and only the
elements are written; in an object a member that is left out is not written.
An object that has a function under `toJSON` is serialised by calling it,
which is not described. The builtin prototype objects are written as the
empty values they are. The first argument bounds the nesting; with the number
of heap objects plus one it runs out exactly on a cyclic structure, for which
`JSON.stringify` raises `TypeError`. -/
def toJson : Nat → Heap → Val → Except Err (Option Json)
  | 0, _, _ => Except.error Err.typeError
  | fuel + 1, h, v =>
    match v with
    | Val.undefined => Except.ok none
    | Val.null => Except.ok (some Json.null)
    | Val.bool b => Except.ok (some (Json.bool b))
    | Val.num n => Except.ok (some (Json.num n))
    | Val.nan => Except.ok (some Json.null)
    | Val.str s => Except.ok (some (Json.str s))
    | Val.fn _ => Except.ok none
    | Val.proto Proto.object => Except.ok (some (Json.obj []))
    | Val.proto Proto.array => Except.ok (some (Json.arr []))
    | Val.proto Proto.string => Except.ok (some (Json.str ""))
    | Val.proto Proto.number => Except.ok (some (Json.num 0))
    | Val.proto Proto.boolean => Except.ok (some (Json.bool false))
    | Val.ref a =>
      match (h.obj a).get "toJSON" with
      | Val.fn _ => Except.error Err.outside
      | _ =>
        if (h.obj a).isArray then
          match (h.obj a).elems.mapM
              (fun e => (toJson fuel h (e.getD Val.undefined)).map (fun j => j.getD Json.null)) with
          | Except.error e => Except.error e
          | Except.ok items => Except.ok (some (Json.arr items))
        else
          match (h.obj a).entries.mapM
              (fun kv => (toJson fuel h kv.2).map (fun j => j.map (fun x => (kv.1, x)))) with
          | Except.error e => Except.error e
          | Except.ok fields => Except.ok (some (Json.obj (fields.filterMap id)))

/-- The builtins this development takes as given: the grammar of
`JSON.parse` (`none`: `SyntaxError`), the text `JSON.stringify` writes for a
value, with and without indentation, and the depth of the call stack. -/
structure Env where
  parse : String → Option Json
  render : Json → String
  renderIndented : Json → String
  stackLimit : Nat

/-- The text `JSON.stringify(v)` returns; for `undefined` it returns
`undefined`, which `setItem` stores as the string `undefined`. -/
def stringify (render : Json → String) (h : Heap) (v : Val) : Except Err String :=
  match toJson (h.length + 1) h v with
  | Except.error e => Except.error e
  | Except.ok none => Except.ok "undefined"
  | Except.ok (some j) => Except.ok (render j)

/-- A registered listener; `throws` tells whether it raises when called. -/
structure Listener where
  id : Nat
  throws : Bool
deriving DecidableEq, Repr

/-- The second argument of a listener call. -/
inductive Payload where
  | doc (data : Val)
  | change (key : String) (value : Val) (oldValue : Val)
  | arrayChange (key : String) (value : Val) (action : String) (item : Val)
deriving DecidableEq, Repr

/-- One call made to a listener. -/
structure Notification where
  listener : Nat
  event : String
  payload : Payload
deriving DecidableEq, Repr

/-- The entry of `localStorage` under `STORAGE_KEY`, and whether reading and
writing it raise (storage unavailable, quota exceeded). -/
structure LocalStorage where
  item : Option String
  getThrows : Bool
  setThrows : Bool
deriving DecidableEq, Repr

/-- The state of the module: the heap, the constant `defaultProgress`, and the
fields of the `GameStorage` instance, with the log of the listener calls. -/
structure State where
  heap : Heap
  defaultProgress : Val
  data : Val
  listeners : List Listener
  storage : LocalStorage
  log : List Notification
deriving DecidableEq, Repr

/-- The constant `STORAGE_VERSION`. -/
def STORAGE_VERSION : String := "1.0"

/-- The call `callback(event, data)` of a listener: it returns, or it raises
(what it raises does not matter to the caller). -/
def Listener.call (l : Listener) (_event : String) (_data : Payload) : Except Err Unit :=
  if l.throws then Except.error Err.typeError else Except.ok ()

/-- The method `notifyListeners(event, data)`: `forEach` visits the listeners in
order; each call is made inside `try`, and the `catch` block only writes to
the console. The log records the call whether it returned or raised. -/
def notifyListeners (s : State) (event : String) (data : Payload) : State :=
  s.listeners.foldl
    (fun st callback =>
      match callback.call event data with
      | Except.ok _ => { st with log := st.log ++ [⟨callback.id, event, data⟩] }
      | Except.error _ => { st with log := st.log ++ [⟨callback.id, event, data⟩] })
    s

/-- The method `addListener(callback)`: `listeners` is a `Set`. -/
def addListener (s : State) (l : Listener) : State :=
  if s.listeners.any (fun x => x.id == l.id) then s
  else { s with listeners := s.listeners ++ [l] }

/-- The method `removeListener(callback)`. -/
def removeListener (s : State) (id : Nat) : State :=
  { s with listeners := s.listeners.filter (fun x => x.id != id) }

/-- The method `mergeWithDefaults(saved)`. -/
def mergeWithDefaults (env : Env) (h : Heap) (defaultProgress saved : Val) :
    Heap × Except Err Val :=
  deepMerge env.stackLimit (spread h defaultProgress).1 (spread h defaultProgress).2 saved

/-- The assignment `this.data = { ...defaultProgress }`. -/
def useDefaults (s : State) (h : Heap) : State :=
  { s with heap := (spread h s.defaultProgress).1, data := (spread h s.defaultProgress).2 }

/-- The method `load()`. Whatever is raised inside the `try` block leads to the
`catch` block, with the heap as it is at that point. -/
def load (env : Env) (s : State) : State :=
  if s.storage.getThrows then useDefaults s s.heap
  else
    match s.storage.item with
    | none => useDefaults s s.heap
    | some saved =>
      if saved = "" then useDefaults s s.heap
      else
        match env.parse saved with
        | none => useDefaults s s.heap
        | some parsed =>
          match mergeWithDefaults env (parsed.build s.heap).1 s.defaultProgress
              (parsed.build s.heap).2 with
          | (h, Except.error _) => useDefaults s h
          | (h, Except.ok merged) => { s with heap := h, data := merged }

/-- The method `save()`, called when `Date.now()` is `now`. -/
def save (env : Env) (now : Int) (s : State) : State × Bool :=
  match writeProp s.heap s.data "timestamp" (Val.num now) with
  | (h, Except.error _) => ({ s with heap := h }, false)
  | (h, Except.ok _) =>
    match stringify env.render h s.data with
    | Except.error _ => ({ s with heap := h }, false)
    | Except.ok text =>
      if s.storage.setThrows then ({ s with heap := h }, false)
      else
        (notifyListeners { s with heap := h, storage := { s.storage with item := some text } }
          "save" (Payload.doc s.data), true)

/-- The method `migrateVersion(oldData)`. -/
def migrateVersion (env : Env) (s : State) (oldData : Val) : Heap × Except Err Val :=
  match mergeWithDefaults env s.heap s.defaultProgress oldData with
  | (h, Except.error e) => (h, Except.error e)
  | (h, Except.ok migrated) =>
    match writeProp h migrated "version" (Val.str STORAGE_VERSION) with
    | (h1, Except.error e) => (h1, Except.error e)
    | (h1, Except.ok _) => (h1, Except.ok migrated)

/-- The method `validateData()`. -/
def validateData (env : Env) (s : State) : State × Except Err Bool :=
  if !truthy s.data || !typeofObject s.data then (useDefaults s s.heap, Except.ok false)
  else
    match readProp s.heap s.data "version" with
    | Except.error e => (s, Except.error e)
    | Except.ok version =>
      if version != Val.str STORAGE_VERSION then
        match migrateVersion env s s.data with
        | (h, Except.error e) => ({ s with heap := h }, Except.error e)
        | (h, Except.ok migrated) => ({ s with heap := h, data := migrated }, Except.ok true)
      else (s, Except.ok true)

/-- The method `get(key)`; `none` is an omitted argument. -/
def get (s : State) (key : Option String) : Except Err Val :=
  match key with
  | none => Except.ok s.data
  | some key =>
    if key = "" then Except.ok s.data
    else getNav s.heap s.data (split key)

/-- The method `set(key, value)`. -/
def set (s : State) (key : String) (value : Val) : State × Except Err Bool :=
  if key = "" then (s, Except.ok false)
  else
    match setNav s.heap s.data (split key) value with
    | (h, Except.error e) => ({ s with heap := h }, Except.error e)
    | (h, Except.ok oldValue) =>
      (notifyListeners { s with heap := h } "change" (Payload.change key value oldValue),
        Except.ok true)

/-- The method `addToArray(key, item)`. The methods `includes` and `push` are
looked up on the array. On an array of the greatest length, `push` creates the
property named by that length and raises `RangeError` on the new length.
`Array.prototype` is an array, and pushing to it would change it. -/
def addToArray (s : State) (key : String) (item : Val) : State × Except Err Unit :=
  match get s (some key) with
  | Except.error e => (s, Except.error e)
  | Except.ok array =>
    if !isArray s.heap array then
      match set { s with heap := (s.heap.alloc { isArray := true, elems := [some item], props := [] }).1 }
          key (Val.ref (s.heap.alloc { isArray := true, elems := [some item], props := [] }).2) with
      | (s1, Except.error e) => (s1, Except.error e)
      | (s1, Except.ok _) => (s1, Except.ok ())
    else
      match array with
      | Val.ref a =>
        match callBuiltin ((s.heap.obj a).get "includes") "Array.prototype.includes" with
        | Except.error e => (s, Except.error e)
        | Except.ok _ =>
          if !includes (s.heap.obj a) item then
            match callBuiltin ((s.heap.obj a).get "push") "Array.prototype.push" with
            | Except.error e => (s, Except.error e)
            | Except.ok _ =>
              if (s.heap.obj a).elems.length < 4294967295 then
                (notifyListeners { s with heap := s.heap.set a (push (s.heap.obj a) item) }
                  "change" (Payload.arrayChange key array "add" item), Except.ok ())
              else
                ({ s with heap := s.heap.set a { s.heap.obj a with
                    props := assocSet (indexKey (s.heap.obj a).elems.length) item
                      (s.heap.obj a).props } },
                  Except.error Err.rangeError)
          else (s, Except.ok ())
      | _ => (s, Except.error Err.outside)

/-- The method `removeFromArray(key, item)`. The methods `indexOf` and `splice`
are looked up on the array. `Array.prototype` is an array without elements. -/
def removeFromArray (s : State) (key : String) (item : Val) : State × Except Err Unit :=
  match get s (some key) with
  | Except.error e => (s, Except.error e)
  | Except.ok array =>
    if isArray s.heap array then
      match array with
      | Val.ref a =>
        match callBuiltin ((s.heap.obj a).get "indexOf") "Array.prototype.indexOf" with
        | Except.error e => (s, Except.error e)
        | Except.ok _ =>
          match indexOf (s.heap.obj a) item with
          | some index =>
            match callBuiltin ((s.heap.obj a).get "splice") "Array.prototype.splice" with
            | Except.error e => (s, Except.error e)
            | Except.ok _ =>
              (notifyListeners { s with heap := s.heap.set a (splice1 (s.heap.obj a) index) }
                "change" (Payload.arrayChange key array "remove" item), Except.ok ())
          | none => (s, Except.ok ())
      | _ => (s, Except.ok ())
    else (s, Except.ok ())

/-- The method `reset()`, called when `Date.now()` is `now`. -/
def reset (env : Env) (now : Int) (s : State) : State :=
  let s1 := useDefaults s s.heap
  let s2 := (save env now s1).1
  notifyListeners s2 "reset" (Payload.doc s2.data)

/-- The method `import(jsonString)`, called when `Date.now()` is `now` (`import`
is a reserved word here). -/
def importData (env : Env) (now : Int) (s : State) (jsonString : String) : State × Bool :=
  match env.parse jsonString with
  | none => (s, false)
  | some imported =>
    match mergeWithDefaults env (imported.build s.heap).1 s.defaultProgress
        (imported.build s.heap).2 with
    | (h, Except.error _) => ({ s with heap := h }, false)
    | (h, Except.ok merged) =>
      match validateData env { s with heap := h, data := merged } with
      | (s1, Except.error _) => (s1, false)
      | (s1, Except.ok _) =>
        let s2 := (save env now s1).1
        (notifyListeners s2 "import" (Payload.doc s2.data), true)

/-- The object literal `defaultProgress`, evaluated when `Date.now()` is `t0`. -/
def defaultProgressJson (t0 : Int) : Json :=
  Json.obj
    [ ("version", Json.str STORAGE_VERSION),
      ("timestamp", Json.num t0),
      ("unlockedPhone", Json.bool false),
      ("currentState", Json.str "lock_screen"),
      ("learnedOperations", Json.obj
        [("slide", Json.bool false), ("longPress", Json.bool false),
         ("drag", Json.bool false), ("swipe", Json.bool false)]),
      ("visitedApps", Json.arr []),
      ("openedApps", Json.arr []),
      ("knowledgeLocks", Json.obj
        [("unlocked", Json.arr []), ("hints", Json.arr []), ("attempts", Json.obj [])]),
      ("investigation", Json.obj
        [("cluesFound", Json.arr []), ("connectionsFound", Json.arr []),
         ("theoriesFormed", Json.arr [])]),
      ("story", Json.obj
        [("currentChapter", Json.num 1), ("viewedScenes", Json.arr []),
         ("madeChoices", Json.arr []), ("unlockedEndings", Json.arr [])]),
      ("settings", Json.obj
        [("soundEnabled", Json.bool true), ("vibrationEnabled", Json.bool true),
         ("debugMode", Json.bool false)]) ]

/-- The state when the module has evaluated `defaultProgress` and the
constructor has set `data = null` and `listeners = new Set()`. -/
def moduleStart (t0 : Int) (storage : LocalStorage) : State :=
  { heap := ((defaultProgressJson t0).build []).1
    defaultProgress := ((defaultProgressJson t0).build []).2
    data := Val.null
    listeners := []
    storage := storage
    log := [] }

/-- The constructor of `GameStorage`: `init()` calls `load()` and
`validateData()`; an exception of `validateData` leaves the constructor. -/
def construct (env : Env) (t0 : Int) (storage : LocalStorage) : State × Except Err Unit :=
  match validateData env (load env (moduleStart t0 storage)) with
  | (s, Except.error e) => (s, Except.error e)
  | (s, Except.ok _) => (s, Except.ok ())

/-- The objects the navigation of `set` passes through among those that exist
before the call, each with the segment applied to it: the walk goes on while
the value under the segment is an object and stops where `set` starts to
create objects. -/
def steps (h : Heap) : Val → List String → List (Nat × String)
  | Val.ref a, [k] => [(a, k)]
  | Val.ref a, k :: k' :: ks =>
    (a, k) ::
      (if truthy ((h.obj a).get k) && typeofObject ((h.obj a).get k) then
        steps h ((h.obj a).get k) (k' :: ks)
      else [])
  | _, _ => []

/-- The property `k` of the value `v`, when `v` is an object (not `null`) and
the property exists. -/
def member (h : Heap) (v : Val) (k : String) : Option Val :=
  match v with
  | Val.ref a => if (h.obj a).has k then some ((h.obj a).get k) else none
  | Val.proto p => p.get k
  | _ => none

/-- The value reached by following the segments from `v`, one property after
the other: none as soon as a segment is missing or the value reached so far
is not an object. -/
def follow (h : Heap) (v : Val) (ks : List String) : Option Val :=
  ks.foldl (fun reached k => reached.bind (fun x => member h x k)) (some v)

/-- The state after the constructor has run on an empty `localStorage`: `load()`
takes the branch of the defaults and `validateData()` finds the current
version. -/
def freshStore (t0 : Int) : State :=
  useDefaults (moduleStart t0 ⟨none, false, false⟩) (moduleStart t0 ⟨none, false, false⟩).heap

/-- The number of elements of the array `o` that `includes` takes to be `x`. -/
def occurrences (o : Obj) (x : Val) : Nat :=
  (o.elems.map (fun e => e.getD Val.undefined)).count x

/-- Sample texts with what `JSON.parse` makes of them. -/
def sampleTexts : List (String × Json) :=
  [ ("\x7b\x7d", Json.obj []),
    ("\x7b\"visitedApps\":[\"mail\",\"mail\"]\x7d",
      Json.obj [("visitedApps", Json.arr [Json.str "mail", Json.str "mail"])]),
    ("\x7b\"currentState\":\x7b\"a\":1\x7d\x7d",
      Json.obj [("currentState", Json.obj [("a", Json.num 1)])]),
    ("\x7b\"visitedApps\":\x7b\"0\":\"mail\"\x7d\x7d",
      Json.obj [("visitedApps", Json.obj [("0", Json.str "mail")])]),
    ("\x7b\"version\":\"0.9\"\x7d", Json.obj [("version", Json.str "0.9")]),
    ("\x7b\"settings\":\x7b\"soundEnabled\":false\x7d,\"currentState\":\x7b\"a\":1\x7d\x7d",
      Json.obj [("settings", Json.obj [("soundEnabled", Json.bool false)]),
        ("currentState", Json.obj [("a", Json.num 1)])]),
    ("\x7b\"settings\":5\x7d", Json.obj [("settings", Json.num 5)]) ]

/-- An environment for examples: the grammar accepts the sample texts only,
and the call stack holds 64 frames. -/
def Env.sample : Env :=
  { parse := fun s => (sampleTexts.find? (fun e => e.1 == s)).map Prod.snd
    render := fun _ => "\x7b\x7d"
    renderIndented := fun _ => "\x7b\x7d"
    stackLimit := 64 }

/-- The call `mergeWithDefaults(saved)` on a module that has just evaluated
`defaultProgress`, `saved` being what `JSON.parse` built for `j`. -/
def mergeParsed (env : Env) (t0 : Int) (j : Json) : Heap × Except Err Val :=
  mergeWithDefaults env (j.build (moduleStart t0 ⟨none, false, false⟩).heap).1
    (moduleStart t0 ⟨none, false, false⟩).defaultProgress
    (j.build (moduleStart t0 ⟨none, false, false⟩).heap).2

/-- The call `mergeWithDefaults(saved)` for a default document and a payload
given as parsed texts. -/
def mergeJson (env : Env) (defaults saved : Json) : Heap × Except Err Val :=
  mergeWithDefaults env (saved.build (defaults.build []).1).1 (defaults.build []).2
    (saved.build (defaults.build []).1).2

/-- A plain object as the code builds them: no indexed elements, no repeated
property name. -/
def Obj.Plain (o : Obj) : Prop :=
  o.isArray = false ∧ o.elems = [] ∧ (o.props.map Prod.fst).Nodup

/-- No property of the object is named by an array index, so that the
properties are enumerated in the order of their creation. -/
def Obj.Unindexed (o : Obj) : Prop :=
  ∀ kv ∈ o.props, arrayIndex kv.1 = none

instance (o : Obj) : Decidable o.Unindexed := by
  unfold Obj.Unindexed; infer_instance

instance (o : Obj) : Decidable o.Plain := by
  unfold Obj.Plain; infer_instance

/-- The function `loadProgress()`. The copy into `window.gameProgress` that
follows `gameStorage.load()` does not touch the store. -/
def loadProgress (env : Env) (s : State) : State :=
  load env s

/-- The function `resetProgress()`; see `loadProgress`. -/
def resetProgress (env : Env) (now : Int) (s : State) : State :=
  reset env now s

/-- The store with other listeners registered in the same places: the listener
`l` raises when called exactly when `f l.id` holds. -/
def withThrows (f : Nat → Bool) (s : State) : State :=
  { s with listeners := s.listeners.map (fun l => { l with throws := f l.id }) }

/-- The names of the top-level properties of the literal `defaultProgress`. -/
def defaultKeys : List String :=
  ["version", "timestamp", "unlockedPhone", "currentState", "learnedOperations",
    "visitedApps", "openedApps", "knowledgeLocks", "investigation", "story", "settings"]

/-- The document in memory is an object that has every top-level property of
the literal `defaultProgress`. -/
def HasDefaultKeys (s : State) : Prop :=
  ∃ m, s.data = Val.ref m ∧ ∀ k ∈ defaultKeys, (s.heap.obj m).has k = true

/-- The states of the store a program can reach: the constructor has returned,
and then any calls of the methods follow, while the environment may change the
persisted entry and the availability of the storage between calls. -/
inductive Reachable (env : Env) : State → Prop
  | construct (t0 : Int) (storage : LocalStorage)
      (h : (construct env t0 storage).2 = Except.ok ()) :
      Reachable env (construct env t0 storage).1
  | storage (s : State) (storage : LocalStorage) :
      Reachable env s → Reachable env { s with storage := storage }
  | load (s : State) : Reachable env s → Reachable env (load env s)
  | save (s : State) (now : Int) : Reachable env s → Reachable env (save env now s).1
  | importData (s : State) (now : Int) (payload : String) :
      Reachable env s → Reachable env (importData env now s payload).1
  | reset (s : State) (now : Int) : Reachable env s → Reachable env (reset env now s)
  | set (s : State) (key : String) (value : Val) :
      Reachable env s → Reachable env (set s key value).1
  | addToArray (s : State) (key : String) (item : Val) :
      Reachable env s → Reachable env (addToArray s key item).1
  | removeFromArray (s : State) (key : String) (item : Val) :
      Reachable env s → Reachable env (removeFromArray s key item).1
  | addListener (s : State) (l : Listener) : Reachable env s → Reachable env (addListener s l)
  | removeListener (s : State) (id : Nat) :
      Reachable env s → Reachable env (removeListener s id)

/-- The heap `h'` keeps what `h` has: every object of `h` is still there, is
an array exactly when it was one, and, when it is a plain object, still has
every property it had. -/
def Keeps (h h' : Heap) : Prop :=
  h.length ≤ h'.length ∧
  ∀ a, a < h.length →
    (h'.obj a).isArray = (h.obj a).isArray ∧
    ((h.obj a).isArray = false → ∀ k, (h.obj a).has k = true → (h'.obj a).has k = true)

/-- The constant `defaultProgress` is an allocated plain object that has the
top-level properties of the literal. -/
def DefaultsInv (s : State) : Prop :=
  ∃ d, s.defaultProgress = Val.ref d ∧ d < s.heap.length ∧
    (s.heap.obj d).isArray = false ∧ ∀ k ∈ defaultKeys, (s.heap.obj d).has k = true

/-- The invariant behind `HasDefaultKeys`: `defaultProgress` and the document in
memory are allocated plain objects, and both have the top-level properties of
the literal. -/
def StoreInv (s : State) : Prop :=
  DefaultsInv s ∧
  ∃ m, s.data = Val.ref m ∧ m < s.heap.length ∧
    (s.heap.obj m).isArray = false ∧ ∀ k ∈ defaultKeys, (s.heap.obj m).has k = true

/-- The properties the navigation of `get` reads, each with the object it is
read from: the walk goes on while the segment is present, and stops at a value
that is not an object. -/
def reads (h : Heap) : Val → List String → List (Nat × String)
  | Val.ref a, k :: ks =>
    (a, k) :: (if (h.obj a).has k then reads h ((h.obj a).get k) ks else [])
  | _, _ => []

/-- The longest common prefix of two segment sequences. -/
def commonPrefix : List String → List String → List String
  | a :: as, b :: bs => if a = b then a :: commonPrefix as bs else []
  | _, _ => []

/-- The elements stored in the array `o`, in order: a hole holds none. -/
def stored (o : Obj) : List Val := o.elems.filterMap id

end Store

namespace Store

mutual
/-- The value `v` of the heap `h` is the tree `j`: an array of the tree is an
array without holes and without other properties whose elements are the items,
an object of the tree is a plain object whose own properties are exactly the
members, each holding the member's tree, and no member is written twice. The
order of the properties is not part of it. `P` holds of the address of every
array and object of the tree. -/
def Json.den (P : Nat → Bool) : Json → Heap → Val → Bool
  | Json.null, _, v => decide (v = Val.null)
  | Json.bool b, _, v => decide (v = Val.bool b)
  | Json.num n, _, v => decide (v = Val.num n)
  | Json.str s, _, v => decide (v = Val.str s)
  | Json.arr items, h, v =>
    match v with
    | Val.ref a =>
      P a && (h.obj a).isArray && (h.obj a).props.isEmpty &&
        Json.denItems P items h (h.obj a).elems
    | _ => false
  | Json.obj fields, h, v =>
    match v with
    | Val.ref a =>
      P a && !(h.obj a).isArray && (h.obj a).elems.isEmpty &&
        (h.obj a).props.all (fun kv => (fields.map Prod.fst).contains kv.1) &&
        Json.denFields P fields h (h.obj a).props
    | _ => false
/-- The elements of an array are the trees `items`. -/
def Json.denItems (P : Nat → Bool) : List Json → Heap → List (Option Val) → Bool
  | [], _, es => es.isEmpty
  | j :: js, h, es =>
    match es with
    | some v :: rest => Json.den P j h v && Json.denItems P js h rest
    | _ => false
/-- Every member of `fields` is a property of the list, holding the member's
tree, and no member is written twice. -/
def Json.denFields (P : Nat → Bool) : List (String × Json) → Heap → List (String × Val) → Bool
  | [], _, _ => true
  | (k, j) :: fs, h, ps =>
    (match assocGet k ps with
      | some v => Json.den P j h v
      | none => false) &&
      !(fs.map Prod.fst).contains k && Json.denFields P fs h ps
end

/-- The test whether a parsed text is an object (not an array). -/
def Json.isObj : Json → Bool
  | Json.obj _ => true
  | _ => false

mutual
/-- The tree can be merged without leaving the objects of the document: no
object that `deepMerge` would visit in it (the objects inside arrays are not
visited) has a member named `hasOwnProperty` or `__proto__`, and no member
that is an object has the name of a property of `Object.prototype`. -/
def Json.mergeable : Json → Bool
  | Json.obj fields =>
    !(fields.map Prod.fst).contains "hasOwnProperty" &&
      !(fields.map Prod.fst).contains "__proto__" && Json.mergeableFields fields
  | _ => true
/-- The members of an object are mergeable. -/
def Json.mergeableFields : List (String × Json) → Bool
  | [] => true
  | (k, j) :: fs =>
    (!Json.isObj j || !Obj.empty.has k) && Json.mergeable j && Json.mergeableFields fs
end

mutual
/-- The number of nested calls of `deepMerge` this tree needs as a source: the
nesting of its objects, arrays not entered. -/
def Json.mergeDepth : Json → Nat
  | Json.obj fields => Json.mergeDepthFields fields + 1
  | _ => 0
/-- The deepest member of an object. -/
def Json.mergeDepthFields : List (String × Json) → Nat
  | [] => 0
  | (_, j) :: fs => max (Json.mergeDepth j) (Json.mergeDepthFields fs)
end

/-- The addresses of `P` and those from `lo` on, below `hi`: where a tree lies
that was built from trees at `P` in objects allocated since the heap had `lo`
objects. -/
def grown (P : Nat → Bool) (lo hi : Nat) : Nat → Bool :=
  fun a => (P a || decide (lo ≤ a)) && decide (a < hi)

/-- The loop of `deepMerge(target, source)` on the way: the source is the
tree of an object with the members `fields` at the addresses `P`, the target
is the plain object `ta`, outside `P`; the loop started in the heap `h`, has
visited the names `done` and has reached the heap `hc`. The target has the
properties it had and those visited, which hold the trees of the members; a
member that is an object finds in the target nothing, or the very tree it is;
the other objects outside `P` are as they were, and every tree that does not
contain the target is still that tree. -/
structure Merging (P : Nat → Bool) (fields : List (String × Json)) (h : Heap) (ta : Nat)
    (hc : Heap) (done : List String) : Prop where
  length : h.length ≤ hc.length
  plain : (hc.obj ta).isArray = false
  elems : (hc.obj ta).elems = []
  keys : ∀ k, k ∈ (hc.obj ta).props.map Prod.fst ↔
    k ∈ (h.obj ta).props.map Prod.fst ∨ k ∈ done
  merged : ∀ k jk, k ∈ done → (k, jk) ∈ fields →
    ∃ v, assocGet k (hc.obj ta).props = some v ∧
      jk.den (grown P h.length hc.length) hc v = true
  shared : ∀ k jk, (k, jk) ∈ fields → jk.isObj = true →
    truthy ((hc.obj ta).get k) = false ∨
      jk.den (grown P h.length hc.length) hc ((hc.obj ta).get k) = true
  frame : ∀ a, a ≠ ta → a < h.length → P a = false → hc.obj a = h.obj a
  kept : ∀ Q : Nat → Bool, (∀ a, P a = true → Q a = true) → Q ta = false →
    (∀ a, Q a = true → a < h.length) →
    ∀ (j : Json) (v : Val), j.den Q h v = true → j.den (grown Q h.length hc.length) hc v = true

end Store

/-! ## The gesture recognizer -/

namespace Touch

theorem run_append (w : World) (xs ys : List Ev) : run w (xs ++ ys) = run (run w xs) ys := by
  simp [run, List.foldl_append]

theorem run_cons (w : World) (x : Ev) (xs : List Ev) : run w (x :: xs) = run (step w x) xs := rfl

theorem run_nil (w : World) : run w [] = w := rfl

/-- `cancelLongPress` makes no call and leaves the handler inactive. -/
theorem cancelLongPress_spec (w : World) :
    (cancelLongPress w).calls = w.calls ∧ (cancelLongPress w).handler.isActive = false := by
  unfold cancelLongPress clearTimeout
  split <;> simp
  split <;> simp

/-- The guard of the tap branch of `endInteraction` reads `isActive` after
`cancelLongPress` has cleared it: the branch is dead. -/
theorem endInteraction_calls (w : World) : (endInteraction w).calls = w.calls := by
  have h := cancelLongPress_spec w
  unfold endInteraction
  simp [h.1, h.2]

theorem endInteraction_inactive (w : World) : (endInteraction w).handler.isActive = false := by
  unfold endInteraction
  simp

theorem step_pressStart (w : World) (s : Ev) (p : Pos)
    (hs : s.inp = Input.touchstart [p] ∨ s.inp = Input.mousedown p) :
    step w s = startLongPress s.t
      { w with handler := { w.handler with startPos := some p, isActive := true } } := by
  rcases hs with h | h <;> simp [step, h, handleTouchStart, handleMouseDown]

theorem startLongPress_spec (now : Nat) (w : World) :
    (startLongPress now w).calls = w.calls ∧
    (startLongPress now w).handler.config = w.handler.config ∧
    (startLongPress now w).handler.startPos = w.handler.startPos ∧
    (startLongPress now w).handler.isActive = w.handler.isActive ∧
    (startLongPress now w).handler.wasLongPress = w.handler.wasLongPress ∧
    (startLongPress now w).handler.timer = some w.nextId ∧
    (startLongPress now w).nextId = w.nextId + 1 ∧
    (⟨w.nextId, now + w.handler.config.threshold⟩ : Timer) ∈ (startLongPress now w).pending := by
  unfold startLongPress clearTimeout
  split <;> simp
  split <;> simp

theorem step_moveWithin (cfg : Config) (p : Pos) (w : World) (m : Ev)
    (hw : Pressed cfg p w) (hm : m.inp.isMoveWithin cfg.moveThreshold p = true) :
    step w m = w := by
  obtain ⟨h1, h2, h3⟩ := hw
  cases hi : m.inp <;> simp [hi, Input.isMoveWithin] at hm
  · rename_i ts
    cases hts : ts.head? <;> simp [hts] at hm
    simp [step, hi, handleTouchMove, h1, h2, h3, hts, hm]
  · simp [step, hi, handleMouseMove, h1, h2, h3, hm]

theorem run_movesWithin (cfg : Config) (p : Pos) (ms : List Ev) (w : World)
    (hw : Pressed cfg p w)
    (hm : ∀ m ∈ ms, m.inp.isMoveWithin cfg.moveThreshold p = true) :
    run w ms = w := by
  induction ms with
  | nil => rfl
  | cons m ms ih =>
    rw [run_cons, step_moveWithin cfg p w m hw (hm m (List.mem_cons_self _ _))]
    exact ih (fun x hx => hm x (List.mem_cons_of_mem _ hx))

theorem step_inactive (w : World) (e : Ev) (hw : w.handler.isActive = false)
    (he : e.inp.isPressStart = false) :
    (step w e).handler.isActive = false ∧ (step w e).calls = w.calls := by
  cases hi : e.inp <;> simp [hi, Input.isPressStart] at he <;>
    simp [step, hi, endInteraction_calls, endInteraction_inactive, handleTouchMove,
      handleMouseMove, hw]
  · rename_i ts
    simp [handleTouchStart]
    split
    · simp [hw]
    · cases hts : ts.head? with
      | none => simp [hw]
      | some t =>
        exfalso
        cases ts with
        | nil => simp at hts
        | cons a l =>
          cases l with
          | nil => simp at he
          | cons b l => simp at *
  · rename_i id
    unfold fire onTimeout
    split <;> simp [hw]

theorem run_inactive (es : List Ev) (w : World) (hw : w.handler.isActive = false)
    (he : ∀ e ∈ es, e.inp.isPressStart = false) :
    (run w es).handler.isActive = false ∧ (run w es).calls = w.calls := by
  induction es generalizing w with
  | nil => exact ⟨hw, rfl⟩
  | cons e es ih =>
    have h1 := step_inactive w e hw (he e (List.mem_cons_self _ _))
    have h2 := ih (step w e) h1.1 (fun x hx => he x (List.mem_cons_of_mem _ hx))
    rw [run_cons]
    exact ⟨h2.1, h2.2.trans h1.2⟩

theorem fire_due (now id : Nat) (w : World) (d : Nat)
    (hmem : (⟨id, d⟩ : Timer) ∈ w.pending) (hd : d ≤ now) :
    fire now id w = onTimeout { w with pending := w.pending.filter (fun tm => tm.id != id) } := by
  unfold fire
  rw [if_pos]
  rw [List.any_eq_true]
  exact ⟨⟨id, d⟩, hmem, by simp [hd]⟩

theorem step_moveBeyond (cfg : Config) (p : Pos) (w : World) (mv : Ev)
    (hw : Pressed cfg p w) (hmv : mv.inp.isMoveBeyond cfg.moveThreshold p = true) :
    step w mv = cancelLongPress w := by
  obtain ⟨h1, h2, h3⟩ := hw
  cases hi : mv.inp <;> simp [hi, Input.isMoveBeyond] at hmv
  · rename_i ts
    cases hts : ts.head? <;> simp [hts] at hmv
    simp [step, hi, handleTouchMove, h1, h2, h3, hts, hmv]
  · simp [step, hi, handleMouseMove, h1, h2, h3, hmv]

theorem cancelLongPress_armed (w : World) (id : Nat) (ht : w.handler.timer = some id)
    (hid : id ≠ 0) :
    (cancelLongPress w).pending = w.pending.filter (fun tm => tm.id != id) ∧
    (cancelLongPress w).handler.timer = none := by
  unfold cancelLongPress clearTimeout
  simp [ht, timerTruthy, hid]

/-- C1 (fails on the code): with threshold 600 and moveThreshold 10, a press-start
at t=0 followed by a press-end at t=300, by touch or by mouse, invokes the
callback zero times: no `tap` is delivered. -/
theorem C1_tap_is_never_delivered :
    (run (addLongPressListener ⟨some 600, some 10⟩)
        [⟨0, Input.touchstart [⟨5, 5⟩]⟩, ⟨300, Input.touchend⟩]).calls = [] ∧
    (run (addLongPressListener ⟨some 600, some 10⟩)
        [⟨0, Input.mousedown ⟨5, 5⟩⟩, ⟨300, Input.mouseup⟩]).calls = [] := by
  decide

/-- C2: from any handler state, a press-start at `p`, movements within
`moveThreshold` of `p` on both axes, the expiry of the timer that the
press-start scheduled, further such movements and a press-end or press-cancel
invoke the callback exactly once, with type `longpress` and position `p`; the
call is made when the timer fires and the press-end adds nothing. -/
theorem C2_longpress_exactly_once (w : World) (p : Pos) (s fin : Ev) (tf : Nat)
    (ms₁ ms₂ : List Ev)
    (hs : s.inp = Input.touchstart [p] ∨ s.inp = Input.mousedown p)
    (hm₁ : ∀ m ∈ ms₁, m.inp.isMoveWithin w.handler.config.moveThreshold p = true)
    (hm₂ : ∀ m ∈ ms₂, m.inp.isMoveWithin w.handler.config.moveThreshold p = true)
    (htf : s.t + w.handler.config.threshold ≤ tf)
    (hfin : fin.inp.isPressEnd = true) :
    (run w (s :: ms₁ ++ [⟨tf, Input.timeout w.nextId⟩])).calls
        = w.calls ++ [⟨Kind.longpress, some p⟩] ∧
    (run w (s :: ms₁ ++ [⟨tf, Input.timeout w.nextId⟩] ++ ms₂ ++ [fin])).calls
        = w.calls ++ [⟨Kind.longpress, some p⟩] := by
  have hstart := step_pressStart w s p hs
  have hsp := startLongPress_spec s.t
    { w with handler := { w.handler with startPos := some p, isActive := true } }
  rw [← hstart] at hsp
  simp only [] at hsp
  obtain ⟨hc, hcfg, hpos, hact, -, -, -, hmem⟩ := hsp
  have hP : Pressed w.handler.config p (step w s) := ⟨hcfg, hpos, hact⟩
  have hfire := fire_due tf w.nextId (step w s) _ hmem htf
  have hP2 : Pressed w.handler.config p (fire tf w.nextId (step w s)) := by
    rw [hfire]; unfold onTimeout; simp [hact]; exact ⟨hcfg, hpos, rfl⟩
  have hcalls : (fire tf w.nextId (step w s)).calls = w.calls ++ [⟨Kind.longpress, some p⟩] := by
    rw [hfire]; unfold onTimeout; simp [hact, hc, hpos]
  have e1 : run w (s :: ms₁ ++ [⟨tf, Input.timeout w.nextId⟩])
      = fire tf w.nextId (step w s) := by
    rw [List.cons_append, run_cons, run_append, run_movesWithin _ p ms₁ _ hP hm₁]
    rfl
  refine ⟨by rw [e1, hcalls], ?_⟩
  rw [List.append_assoc, run_append, e1, run_append, run_movesWithin _ p ms₂ _ hP2 hm₂]
  have : run (fire tf w.nextId (step w s)) [fin] = endInteraction (fire tf w.nextId (step w s)) := by
    cases hi : fin.inp <;> simp [hi, Input.isPressEnd] at hfin <;> simp [run, step, hi]
  rw [this, endInteraction_calls, hcalls]

/-- Witness for C2: threshold 600, moveThreshold 10, press-start at t=0, a small
move, the timer firing at t=650 and the press-end at t=800. -/
theorem C2_longpress_exactly_once_witness :
    (run (addLongPressListener ⟨some 600, some 10⟩)
        ((⟨0, Input.touchstart [⟨5, 5⟩]⟩ : Ev) :: [⟨100, Input.touchmove [⟨7, 4⟩]⟩]
          ++ [⟨650, Input.timeout (addLongPressListener ⟨some 600, some 10⟩).nextId⟩])).calls
        = (addLongPressListener ⟨some 600, some 10⟩).calls ++ [⟨Kind.longpress, some ⟨5, 5⟩⟩] ∧
    (run (addLongPressListener ⟨some 600, some 10⟩)
        ((⟨0, Input.touchstart [⟨5, 5⟩]⟩ : Ev) :: [⟨100, Input.touchmove [⟨7, 4⟩]⟩]
          ++ [⟨650, Input.timeout (addLongPressListener ⟨some 600, some 10⟩).nextId⟩]
          ++ [] ++ [⟨800, Input.touchend⟩])).calls
        = (addLongPressListener ⟨some 600, some 10⟩).calls ++ [⟨Kind.longpress, some ⟨5, 5⟩⟩] :=
  C2_longpress_exactly_once (addLongPressListener ⟨some 600, some 10⟩) ⟨5, 5⟩
    ⟨0, Input.touchstart [⟨5, 5⟩]⟩ ⟨800, Input.touchend⟩ 650
    [⟨100, Input.touchmove [⟨7, 4⟩]⟩] []
    (Or.inl rfl) (by decide) (by decide) (by decide) (by decide)

/-- C3: from any handler state with positive timer handles, after a press-start
at `p` and movements within `moveThreshold`, a movement that exceeds
`moveThreshold` on the x axis or on the y axis removes the scheduled timer from
the queue, clears `handler.timer` and deactivates the handler; whatever follows
without a new press-start (moves, timer expiries, press-end) makes no call. A
movement within `moveThreshold` on both axes leaves the state as it is. -/
theorem C3_move_beyond_threshold_cancels (w : World) (p : Pos) (s mv : Ev)
    (ms rest : List Ev)
    (hid : w.nextId ≠ 0)
    (hs : s.inp = Input.touchstart [p] ∨ s.inp = Input.mousedown p)
    (hm : ∀ m ∈ ms, m.inp.isMoveWithin w.handler.config.moveThreshold p = true)
    (hmv : mv.inp.isMoveBeyond w.handler.config.moveThreshold p = true)
    (hrest : ∀ e ∈ rest, e.inp.isPressStart = false) :
    (∀ tm ∈ (run w (s :: ms ++ [mv])).pending, tm.id ≠ w.nextId) ∧
    (run w (s :: ms ++ [mv])).handler.timer = none ∧
    (run w (s :: ms ++ [mv])).handler.isActive = false ∧
    (run w (s :: ms ++ [mv] ++ rest)).calls = w.calls ∧
    (∀ m : Ev, m.inp.isMoveWithin w.handler.config.moveThreshold p = true →
      step (run w (s :: ms)) m = run w (s :: ms)) := by
  have hstart := step_pressStart w s p hs
  have hsp := startLongPress_spec s.t
    { w with handler := { w.handler with startPos := some p, isActive := true } }
  rw [← hstart] at hsp
  simp only [] at hsp
  obtain ⟨hc, hcfg, hpos, hact, -, htm, -, -⟩ := hsp
  have hP : Pressed w.handler.config p (step w s) := ⟨hcfg, hpos, hact⟩
  have e0 : run w (s :: ms) = step w s := by
    rw [run_cons, run_movesWithin _ p ms _ hP hm]
  have e1 : run w (s :: ms ++ [mv]) = cancelLongPress (step w s) := by
    rw [List.cons_append, run_cons, run_append, run_movesWithin _ p ms _ hP hm]
    exact step_moveBeyond _ p _ mv hP hmv
  have hcan : (cancelLongPress (step w s)).pending
      = (step w s).pending.filter (fun tm => tm.id != w.nextId) ∧
      (cancelLongPress (step w s)).handler.timer = none := by
    exact cancelLongPress_armed _ _ htm hid
  have hcs := cancelLongPress_spec (step w s)
  refine ⟨?_, ?_, ?_, ?_, ?_⟩
  · rw [e1, hcan.1]
    intro tm htm'
    simpa using (List.mem_filter.mp htm').2
  · rw [e1, hcan.2]
  · rw [e1, hcs.2]
  · rw [run_append, e1]
    rw [(run_inactive rest _ hcs.2 hrest).2, hcs.1, hc]
  · intro m hmw
    rw [e0]
    exact step_moveWithin _ p _ m hP hmw

/-- Witness for C3: threshold 600, moveThreshold 10, press-start at (5,5), a
move of 11 on the x axis, then a timer expiry and the press-end. -/
theorem C3_move_beyond_threshold_cancels_witness :
    (run (addLongPressListener ⟨some 600, some 10⟩)
      ((⟨0, Input.touchstart [⟨5, 5⟩]⟩ : Ev) :: [] ++ [⟨100, Input.touchmove [⟨16, 5⟩]⟩]
        ++ [⟨650, Input.timeout 1⟩, ⟨800, Input.touchend⟩])).calls = [] :=
  (C3_move_beyond_threshold_cancels (addLongPressListener ⟨some 600, some 10⟩) ⟨5, 5⟩
    ⟨0, Input.touchstart [⟨5, 5⟩]⟩ ⟨100, Input.touchmove [⟨16, 5⟩]⟩ []
    [⟨650, Input.timeout 1⟩, ⟨800, Input.touchend⟩]
    (by decide) (Or.inl rfl) (by decide) (by decide) (by decide)).2.2.2.1

end Touch

/-! ## The progress store -/

namespace Store

theorem foldl_notify (event : String) (data : Payload) (ls : List Listener) :
    ∀ st : State,
      ls.foldl
        (fun st callback =>
          match callback.call event data with
          | Except.ok _ => { st with log := st.log ++ [⟨callback.id, event, data⟩] }
          | Except.error _ => { st with log := st.log ++ [⟨callback.id, event, data⟩] })
        st
      = { st with log := st.log ++ ls.map (fun l => ⟨l.id, event, data⟩) } := by
  induction ls with
  | nil => intro st; simp
  | cons l ls ih =>
    intro st
    rw [List.foldl_cons, List.map_cons]
    cases hc : l.call event data <;> simp [ih]

/-- Whatever the listeners do, `notifyListeners` returns with one more log entry
per listener, in order, and nothing else changed. -/
theorem notifyListeners_eq (s : State) (event : String) (data : Payload) :
    notifyListeners s event data
      = { s with log := s.log ++ s.listeners.map (fun l => ⟨l.id, event, data⟩) } :=
  foldl_notify event data s.listeners s

theorem assocGet_assocSet_same (k : String) (v : Val) (l : List (String × Val)) :
    assocGet k (assocSet k v l) = some v := by
  induction l with
  | nil => simp [assocSet, assocGet]
  | cons p l ih =>
    obtain ⟨k', v'⟩ := p
    by_cases hk : k' = k
    · simp [assocSet, assocGet, hk]
    · simp [assocSet, assocGet, hk, ih]

theorem assocGet_assocSet_ne (k k' : String) (v : Val) (l : List (String × Val))
    (hne : k' ≠ k) : assocGet k' (assocSet k v l) = assocGet k' l := by
  induction l with
  | nil => simp [assocSet, assocGet, Ne.symm hne]
  | cons p l ih =>
    obtain ⟨k₀, v₀⟩ := p
    by_cases hk : k₀ = k
    · subst hk
      simp [assocSet, assocGet, Ne.symm hne]
    · by_cases hk' : k₀ = k'
      · subst hk'
        simp [assocSet, assocGet, hk]
      · simp [assocSet, assocGet, hk, hk', ih]

theorem Heap.obj_set_same (h : Heap) (a : Nat) (o : Obj) (ha : a < h.length) :
    Heap.obj (h.set a o) a = o := by
  simp [Heap.obj, List.getD, ha]

theorem Heap.obj_set_ne (h : Heap) (a b : Nat) (o : Obj) (hne : b ≠ a) :
    Heap.obj (h.set a o) b = Heap.obj h b := by
  simp [Heap.obj, List.getD, List.getElem?_set, Ne.symm hne]

theorem Heap.obj_append_lt (h : Heap) (o : Obj) (b : Nat) (hb : b < h.length) :
    Heap.obj (h ++ [o]) b = Heap.obj h b := by
  simp [Heap.obj, List.getD, List.getElem?_append_left hb]

theorem Heap.obj_append_new (h : Heap) (o : Obj) :
    Heap.obj (h ++ [o]) h.length = o := by
  simp [Heap.obj, List.getD]

theorem getD_set_same (es : List (Option Val)) (i : Nat) (x : Option Val)
    (hi : i < es.length) : (es.set i x).getD i none = x := by
  simp [List.getD, hi]

theorem getD_extend (es : List (Option Val)) (i : Nat) (x : Option Val)
    (hi : ¬ i < es.length) :
    (es ++ List.replicate (i - es.length) none ++ [x]).getD i none = x := by
  have hlen : (es ++ List.replicate (i - es.length) none).length = i := by
    simp; omega
  rw [List.getD_eq_getElem?_getD, List.getElem?_append_right (by omega), hlen]
  simp

theorem Obj.get_of_own (o : Obj) (k : String) (v : Val) (h : o.own k = some v) :
    o.get k = v := by
  simp [Obj.get, h]

theorem Obj.has_of_own (o : Obj) (k : String) (v : Val) (h : o.own k = some v) :
    o.has k = true := by
  simp [Obj.has, h]

/-- An assignment that is neither to the `length` of an array nor handled by
the setter of `__proto__` succeeds, and the object then has the property
itself, with the assigned value. -/
theorem Obj.put_own (o : Obj) (k : String) (v : Val)
    (hlen : ¬ (o.isArray = true ∧ k = "length"))
    (hset : ¬ (k = "__proto__" ∧ o.own k = none)) :
    ∃ o', o.put k v = Except.ok o' ∧ o'.own k = some v ∧ o'.isArray = o.isArray := by
  by_cases harr : o.isArray = true
  · cases hidx : arrayIndex k with
    | some i =>
      by_cases hi : i < o.elems.length
      · refine ⟨{ o with elems := o.elems.set i (some v) }, ?_, ?_, rfl⟩
        · simp [Obj.put, hset, harr, hidx, hi]
        · simp only [Obj.own, harr, hidx, if_true, getD_set_same _ _ _ hi]
      · refine ⟨{ o with elems := o.elems ++ List.replicate (i - o.elems.length) none ++ [some v] },
          ?_, ?_, rfl⟩
        · simp [Obj.put, hset, harr, hidx, hi]
        · simp only [Obj.own, harr, hidx, if_true, getD_extend _ _ _ hi]
    | none =>
      have hk : k ≠ "length" := fun h => hlen ⟨harr, h⟩
      refine ⟨{ o with props := assocSet k v o.props }, ?_, ?_, rfl⟩
      · simp [Obj.put, hset, harr, hidx, hk]
      · simp [Obj.own, harr, hidx, hk, assocGet_assocSet_same]
  · refine ⟨{ o with props := assocSet k v o.props }, ?_, ?_, rfl⟩
    · simp [Obj.put, hset, harr]
    · simp [Obj.own, harr, assocGet_assocSet_same]

/-- An assignment that is neither to the `length` of an array nor handled by
the setter of `__proto__` succeeds, and the property then exists with the
assigned value. -/
theorem Obj.put_spec (o : Obj) (k : String) (v : Val)
    (hlen : ¬ (o.isArray = true ∧ k = "length"))
    (hset : ¬ (k = "__proto__" ∧ o.own k = none)) :
    ∃ o', o.put k v = Except.ok o' ∧ o'.get k = v ∧ o'.has k = true ∧
      o'.isArray = o.isArray := by
  obtain ⟨o', h1, h2, h3⟩ := Obj.put_own o k v hlen hset
  exact ⟨o', h1, Obj.get_of_own _ _ _ h2, Obj.has_of_own _ _ _ h2, h3⟩

theorem inherited_proto (p : Proto) : inherited p "__proto__" = some (Val.proto p) := by
  simp [inherited]

/-- What an object inherits is a builtin function or a prototype object. -/
theorem inherited_cases (p : Proto) (k : String) (v : Val) (h : inherited p k = some v) :
    (∃ f, v = Val.fn f) ∨ (k = "__proto__" ∧ v = Val.proto p) ∨
      (k = "length" ∧ v = Val.num 0) := by
  unfold inherited at h
  by_cases hk : k = "__proto__"
  · simp only [hk, if_true, Option.some.injEq] at h
    exact Or.inr (Or.inl ⟨hk, h.symm⟩)
  · simp only [hk, if_false] at h
    have hown : ∀ q : Proto, ∀ w, q.own k = some w →
        (∃ f, w = Val.fn f) ∨ (k = "length" ∧ w = Val.num 0) := by
      intro q w hq
      unfold Proto.own at hq
      split at hq
      · rename_i h1
        simp only [Option.some.injEq] at hq
        exact Or.inr ⟨h1.1, hq.symm⟩
      · split at hq
        · split at hq
          · exact Or.inl ⟨_, (Option.some.inj hq).symm⟩
          · split at hq
            · exact Or.inl ⟨_, (Option.some.inj hq).symm⟩
            · split at hq
              · exact Or.inl ⟨_, (Option.some.inj hq).symm⟩
              · exact Or.inl ⟨_, (Option.some.inj hq).symm⟩
        · exact Option.noConfusion hq
    unfold Proto.find at h
    split at h
    · rename_i w hw
      cases h
      rcases hown p _ hw with h1 | h1
      · exact Or.inl h1
      · exact Or.inr (Or.inr h1)
    · split at h
      · exact Option.noConfusion h
      · rcases hown _ _ h with h1 | h1
        · exact Or.inl h1
        · exact Or.inr (Or.inr h1)

/-- A property that reads as a reference is an own property. -/
theorem Obj.own_of_get_ref (o : Obj) (k : String) (a : Nat) (hv : o.get k = Val.ref a) :
    o.own k = some (Val.ref a) := by
  unfold Obj.get at hv
  cases ho : o.own k with
  | some x => rw [ho] at hv; simpa using hv
  | none =>
    rw [ho] at hv
    simp only at hv
    cases hi : inherited o.proto k with
    | none => rw [hi] at hv; simp at hv
    | some w =>
      rw [hi] at hv
      simp only [Option.getD_some] at hv
      subst hv
      rcases inherited_cases _ _ _ hi with ⟨f, hf⟩ | ⟨-, hf⟩ | ⟨-, hf⟩ <;>
        exact Val.noConfusion hf

/-- A property that reads as a reference exists. -/
theorem Obj.has_of_get_ref (o : Obj) (k : String) (a : Nat) (hv : o.get k = Val.ref a) :
    o.has k = true :=
  Obj.has_of_own _ _ _ (Obj.own_of_get_ref o k a hv)

theorem Proto.own_cases (p : Proto) (k : String) (w : Val) (hq : p.own k = some w) :
    (∃ f, w = Val.fn f) ∨ w = Val.num 0 := by
  unfold Proto.own at hq
  split at hq
  · exact Or.inr (Option.some.inj hq).symm
  · split at hq
    · split at hq
      · exact Or.inl ⟨_, (Option.some.inj hq).symm⟩
      · split at hq
        · exact Or.inl ⟨_, (Option.some.inj hq).symm⟩
        · split at hq
          · exact Or.inl ⟨_, (Option.some.inj hq).symm⟩
          · exact Or.inl ⟨_, (Option.some.inj hq).symm⟩
    · exact Option.noConfusion hq

theorem Proto.find_cases (p : Proto) (k : String) (w : Val) (hq : p.find k = some w) :
    (∃ f, w = Val.fn f) ∨ w = Val.num 0 := by
  unfold Proto.find at hq
  split at hq
  · rename_i x hx
    cases hq
    exact Proto.own_cases p k _ hx
  · split at hq
    · exact Option.noConfusion hq
    · exact Proto.own_cases _ k _ hq

/-- What a read on a prototype object returns is never an object of the heap;
when it is an object at all, it is `Object.prototype`. -/
theorem Proto.get_cases (p : Proto) (k : String) :
    (truthy ((p.get k).getD Val.undefined) && typeofObject ((p.get k).getD Val.undefined)) = true →
      ∃ q, (p.get k).getD Val.undefined = Val.proto q := by
  intro hc
  unfold Proto.get at hc ⊢
  by_cases hk : k = "__proto__"
  · simp only [hk, if_true, Option.getD_some] at hc ⊢
    by_cases hp : p = Proto.object
    · simp [hp, truthy] at hc
    · exact ⟨Proto.object, by simp [hp]⟩
  · simp only [hk, if_false] at hc ⊢
    cases hf : p.find k with
    | none => rw [hf] at hc; simp [truthy] at hc
    | some w =>
      rw [hf] at hc
      simp only [Option.getD_some] at hc
      rcases Proto.find_cases p k w hf with ⟨f, rfl⟩ | rfl <;> simp [truthy, typeofObject] at hc

theorem truthy_object_cases (c : Val) (h : (truthy c && typeofObject c) = true) :
    (∃ a, c = Val.ref a) ∨ ∃ p, c = Val.proto p := by
  cases c <;> simp [truthy, typeofObject] at h
  · exact Or.inl ⟨_, rfl⟩
  · exact Or.inr ⟨_, rfl⟩

theorem not_truthy_object (c : Val) (hc : ¬ (truthy c && typeofObject c) = true) :
    (!truthy c || !typeofObject c) = true := by
  cases h1 : truthy c <;> cases h2 : typeofObject c <;> simp [h1, h2] at hc ⊢

/-- The navigation of `set` that has entered a prototype object ends with an
assignment to a prototype object. -/
theorem setNav_proto (ks : List String) :
    ∀ (h : Heap) (p : Proto) (v : Val),
      (setNav h (Val.proto p) ks v).2 = Except.error Err.outside := by
  induction ks with
  | nil => intro h p v; simp [setNav, readProp, writeProp]
  | cons k ks ih =>
    intro h p v
    cases ks with
    | nil => simp [setNav, readProp, writeProp]
    | cons k' ks' =>
      simp only [setNav, readProp]
      by_cases hc : (truthy ((p.get k).getD Val.undefined) &&
          typeofObject ((p.get k).getD Val.undefined)) = true
      · obtain ⟨q, hq⟩ := Proto.get_cases p k hc
        rw [hq]
        simp only [truthy, typeofObject, Bool.not_true, Bool.or_self, Bool.false_eq_true,
          if_false]
        exact ih h q v
      · rw [if_pos (not_truthy_object _ hc)]
        simp [writeProp]

theorem steps_single (h : Heap) (a : Nat) (k : String) :
    steps h (Val.ref a) [k] = [(a, k)] := rfl

theorem steps_cons (h : Heap) (a : Nat) (k k' : String) (ks : List String) :
    steps h (Val.ref a) (k :: k' :: ks) = (a, k) ::
      (if truthy ((h.obj a).get k) && typeofObject ((h.obj a).get k) then
        steps h ((h.obj a).get k) (k' :: ks) else []) := rfl

theorem steps_proto (h : Heap) (p : Proto) (ks : List String) :
    steps h (Val.proto p) ks = [] := by
  cases ks with
  | nil => rfl
  | cons k ks => cases ks <;> rfl

/-- What a new empty object has under a name is not an object of the heap. -/
theorem Obj.empty_get_cases (k : String) :
    (truthy (Obj.empty.get k) && typeofObject (Obj.empty.get k)) = true →
      k = "__proto__" ∧ Obj.empty.get k = Val.proto Proto.object := by
  intro hc
  have hown : Obj.empty.own k = none := by simp [Obj.own, Obj.empty, assocGet]
  have hg : Obj.empty.get k = (inherited Proto.object k).getD Val.undefined := by
    unfold Obj.get
    rw [hown]
    rfl
  rw [hg] at hc ⊢
  cases hi : inherited Proto.object k with
  | none => rw [hi] at hc; simp [truthy] at hc
  | some w =>
    rw [hi] at hc
    simp only [Option.getD_some] at hc ⊢
    rcases inherited_cases _ _ _ hi with ⟨f, rfl⟩ | ⟨hk, rfl⟩ | ⟨-, rfl⟩
    · simp [truthy, typeofObject] at hc
    · exact ⟨hk, rfl⟩
    · simp [truthy, typeofObject] at hc

theorem steps_fresh (h : Heap) (n : Nat) (k : String) (ks : List String)
    (hn : h.obj n = Obj.empty) : steps h (Val.ref n) (k :: ks) = [(n, k)] := by
  cases ks with
  | nil => rfl
  | cons k' ks =>
    rw [steps_cons, hn]
    by_cases hc : (truthy (Obj.empty.get k) && typeofObject (Obj.empty.get k)) = true
    · rw [if_pos hc, (Obj.empty_get_cases k hc).2, steps_proto]
    · rw [if_neg hc]

theorem getNav_step (h : Heap) (a b : Nat) (k : String) (ks : List String)
    (hget : (h.obj a).get k = Val.ref b) :
    getNav h (Val.ref a) (k :: ks) = getNav h (Val.ref b) ks := by
  have hhas := Obj.has_of_get_ref _ _ _ hget
  simp [getNav, truthy, typeofObject, inOp, hhas, readProp, hget]

theorem getNav_not_object_ne_ref (h : Heap) (c : Val) (ks : List String) (a : Nat)
    (hc : ¬ (truthy c && typeofObject c) = true) : getNav h c ks ≠ Except.ok (Val.ref a) := by
  cases ks with
  | nil =>
    simp only [getNav, ne_eq, Except.ok.injEq]
    rintro rfl
    simp [truthy, typeofObject] at hc
  | cons k ks => simp [getNav, hc]

theorem getNav_proto_ne_ref (ks : List String) :
    ∀ (h : Heap) (p : Proto) (a : Nat), getNav h (Val.proto p) ks ≠ Except.ok (Val.ref a) := by
  induction ks with
  | nil => intro h p a; simp [getNav]
  | cons k ks ih =>
    intro h p a
    simp only [getNav, truthy, typeofObject, inOp, readProp, Bool.and_self, if_true]
    cases hg : (p.get k).isSome with
    | false => simp
    | true =>
      simp only []
      by_cases hc : (truthy ((p.get k).getD Val.undefined) &&
          typeofObject ((p.get k).getD Val.undefined)) = true
      · obtain ⟨q, hq⟩ := Proto.get_cases p k hc
        rw [hq]
        exact ih h q a
      · exact getNav_not_object_ne_ref h _ ks a hc

theorem getNav_ref_source (h : Heap) (cur : Val) (ks : List String) (a : Nat)
    (hg : getNav h cur ks = Except.ok (Val.ref a)) : ∃ c, cur = Val.ref c := by
  by_cases hc : (truthy cur && typeofObject cur) = true
  · rcases truthy_object_cases cur hc with h1 | ⟨p, rfl⟩
    · exact h1
    · exact absurd hg (getNav_proto_ne_ref ks h p a)
  · exact absurd hg (getNav_not_object_ne_ref h cur ks a hc)

theorem arrayIndex_length : arrayIndex "length" = none := by decide

theorem Heap.obj_ge (h : Heap) (a : Nat) (ha : ¬ a < h.length) : h.obj a = Obj.empty := by
  simp [Heap.obj, List.getD, List.getElem?_eq_none (Nat.le_of_not_lt ha)]

theorem isArray_lt (h : Heap) (a : Nat) (harr : (h.obj a).isArray = true) : a < h.length := by
  by_contra ha
  rw [Heap.obj_ge h a ha] at harr
  simp [Obj.empty] at harr

/-- After `push`, a property that held an object still holds it. -/
theorem push_get (o : Obj) (x : Val) (k : String) (c : Nat) (harr : o.isArray = true)
    (hget : o.get k = Val.ref c) : (push o x).get k = Val.ref c := by
  have hown := Obj.own_of_get_ref o k c hget
  apply Obj.get_of_own
  unfold Obj.own at hown ⊢
  simp only [harr, if_true, push] at hown ⊢
  cases hidx : arrayIndex k with
  | some i =>
    simp only [hidx] at hown ⊢
    have hi : i < o.elems.length := by
      by_contra hi
      rw [List.getD_eq_getElem?_getD, List.getElem?_eq_none (by omega)] at hown
      simp at hown
    rw [List.getD_eq_getElem?_getD, List.getElem?_append_left hi, ← List.getD_eq_getElem?_getD]
    exact hown
  | none =>
    simp only [hidx] at hown ⊢
    by_cases hk : k = "length"
    · simp [hk] at hown
    · simpa [hk] using hown

theorem getNav_ref_step (h : Heap) (c : Nat) (k : String) (ks : List String) (a : Nat)
    (hg : getNav h (Val.ref c) (k :: ks) = Except.ok (Val.ref a)) :
    ∃ d, (h.obj c).get k = Val.ref d ∧ getNav h (Val.ref d) ks = Except.ok (Val.ref a) := by
  cases hh : (h.obj c).has k with
  | false => simp [getNav, truthy, typeofObject, inOp, hh] at hg
  | true =>
    simp only [getNav, truthy, typeofObject, inOp, hh, readProp, Bool.and_self, if_true] at hg
    obtain ⟨d, hd⟩ := getNav_ref_source _ _ _ _ hg
    exact ⟨d, hd, by rw [← hd]; exact hg⟩

/-- An array reached by `get` is still reached after an element was pushed to it. -/
theorem getNav_push (h : Heap) (a : Nat) (x : Val) (harr : (h.obj a).isArray = true)
    (ks : List String) :
    ∀ cur, getNav h cur ks = Except.ok (Val.ref a) →
      getNav (h.set a (push (h.obj a) x)) cur ks = Except.ok (Val.ref a) := by
  induction ks with
  | nil => intro cur hg; simpa [getNav] using hg
  | cons k ks ih =>
    intro cur hg
    obtain ⟨c, rfl⟩ := getNav_ref_source h cur (k :: ks) a hg
    obtain ⟨d, hd, hg'⟩ := getNav_ref_step h c k ks a hg
    have hd' : (Heap.obj (h.set a (push (h.obj a) x)) c).get k = Val.ref d := by
      by_cases hca : c = a
      · subst hca
        rw [Heap.obj_set_same _ _ _ (isArray_lt _ _ harr)]
        exact push_get _ x k d harr hd
      · rw [Heap.obj_set_ne _ _ _ _ hca]; exact hd
    rw [getNav_step _ c d k ks hd']
    exact ih _ hg'

theorem steps_append (h : Heap) (o : Obj) (ks : List String) :
    ∀ v, (∀ q ∈ steps h v ks, q.1 < h.length) → steps (h ++ [o]) v ks = steps h v ks := by
  induction ks with
  | nil => intro v _; cases v <;> rfl
  | cons k ks ih =>
    intro v hv
    cases v with
    | ref a =>
      cases ks with
      | nil => rfl
      | cons k' ks' =>
        rw [steps_cons] at hv ⊢
        rw [steps_cons]
        have ha : a < h.length := hv (a, k) (by simp)
        rw [Heap.obj_append_lt h o a ha]
        by_cases hc : (truthy ((h.obj a).get k) && typeofObject ((h.obj a).get k)) = true
        · simp only [hc, if_true] at hv ⊢
          rw [ih _ (fun q hq => hv q (List.mem_cons_of_mem _ hq))]
        · simp [hc]
    | _ => rfl

theorem includes_iff (o : Obj) (x : Val) : includes o x = true ↔ 0 < occurrences o x := by
  simp [includes, occurrences, List.count_pos_iff]

theorem occurrences_push (o : Obj) (x : Val) :
    occurrences (push o x) x = occurrences o x + 1 := by
  simp [occurrences, push]

theorem splitAux_cons (cs acc : List Char) : ∃ k ks, splitAux cs acc = k :: ks := by
  induction cs generalizing acc with
  | nil => exact ⟨_, _, rfl⟩
  | cons c cs ih =>
    unfold splitAux
    split
    · exact ⟨_, _, rfl⟩
    · exact ih _

theorem split_cons (p : String) : ∃ k ks, split p = k :: ks := splitAux_cons _ _

/-- A property that does not exist reads as `undefined`. -/
theorem Obj.get_of_not_has (o : Obj) (k : String) (h : o.has k = false) :
    o.get k = Val.undefined := by
  cases ho : o.own k with
  | some x => simp [Obj.has, ho] at h
  | none =>
    cases hi : inherited o.proto k with
    | some x => simp [Obj.has, ho, hi] at h
    | none => simp [Obj.get, ho, hi]

theorem getNav_leaf (h : Heap) (a : Nat) (k : String) :
    getNav h (Val.ref a) [k] = Except.ok ((h.obj a).get k) := by
  cases hh : (h.obj a).has k with
  | true => simp [getNav, truthy, typeofObject, inOp, readProp, hh]
  | false => simp [getNav, truthy, typeofObject, inOp, hh, Obj.get_of_not_has _ _ hh]

theorem getNav_not_object (h : Heap) (c : Val) (k : String) (ks : List String)
    (hc : (truthy c && typeofObject c) = false) :
    getNav h c (k :: ks) = Except.ok Val.undefined := by
  simp [getNav, hc]

theorem resize_length (n : Nat) (es : List (Option Val)) : (resize n es).length = n := by
  simp only [resize, List.length_append, List.length_take, List.length_replicate]
  omega

/-- An assignment that returns, to a name other than `__proto__` and, for the
`length` of an array, of a valid length: the object then has the property
itself, with the assigned value. -/
theorem Obj.put_get (o o' : Obj) (k : String) (v : Val) (hput : o.put k v = Except.ok o')
    (hk : k ≠ "__proto__")
    (hlen : o.isArray = true → k = "length" →
      ∃ n : Int, v = Val.num n ∧ 0 ≤ n ∧ n < 4294967296) :
    o'.own k = some v ∧ o'.isArray = o.isArray := by
  by_cases hl : o.isArray = true ∧ k = "length"
  · obtain ⟨n, rfl, h0, h1⟩ := hlen hl.1 hl.2
    obtain ⟨harr, rfl⟩ := hl
    have hp : o.put "length" (Val.num n)
        = Except.ok { o with elems := resize n.toNat o.elems } := by
      simp [Obj.put, harr, arrayIndex_length, toLength, h0, h1]
    rw [hp] at hput
    cases hput
    refine ⟨?_, rfl⟩
    simp only [Obj.own, harr, arrayIndex_length, if_true, resize_length]
    congr 2
    exact Int.toNat_of_nonneg h0
  · obtain ⟨o'', h1, h2, h3⟩ := Obj.put_own o k v hl (fun h => hk h.1)
    rw [hput] at h1
    cases h1
    exact ⟨h2, h3⟩

/-- An assignment to an object raises `RangeError` for an invalid length of an
array; every other failure is a step that is not described. -/
theorem Obj.put_error (o : Obj) (k : String) (v : Val) (e : Err)
    (hput : o.put k v = Except.error e) :
    e = Err.outside ∨
      (e = Err.rangeError ∧ o.isArray = true ∧ k = "length" ∧
        toLength v = Except.error Err.rangeError) := by
  unfold Obj.put at hput
  split at hput
  · split at hput
    · exact Except.noConfusion hput
    · exact Or.inl (Except.error.inj hput).symm
  · split at hput
    · rename_i harr
      split at hput
      · split at hput <;> exact Except.noConfusion hput
      · split at hput
        · rename_i hk
          split at hput
          · exact Except.noConfusion hput
          · rename_i e' he
            cases hput
            have : e = Err.outside ∨ e = Err.rangeError := by
              cases v <;> simp only [toLength] at he <;>
                first
                | exact Except.noConfusion he
                | (cases he; simp)
                | (split at he <;>
                    first
                    | exact Except.noConfusion he
                    | (cases he; simp)
                    | (split at he <;> first | exact Except.noConfusion he | (cases he; simp)))
            rcases this with h1 | h1
            · exact Or.inl h1
            · exact Or.inr ⟨h1, harr, hk, by rw [he, h1]⟩
        · exact Except.noConfusion hput
    · exact Except.noConfusion hput

theorem setNav_leaf (h : Heap) (a : Nat) (k : String) (v : Val) :
    setNav h (Val.ref a) [k] v =
      match (h.obj a).put k v with
      | Except.ok o => (h.set a o, Except.ok ((h.obj a).get k))
      | Except.error e => (h, Except.error e) := by
  simp only [setNav, readProp, writeProp]
  cases (h.obj a).put k v <;> rfl

theorem setNav_enter (h : Heap) (a c : Nat) (k k' : String) (ks : List String) (v : Val)
    (hc : (h.obj a).get k = Val.ref c) :
    setNav h (Val.ref a) (k :: k' :: ks) v = setNav h (Val.ref c) (k' :: ks) v := by
  simp [setNav, readProp, hc, truthy, typeofObject]

theorem setNav_enter_proto (h : Heap) (a : Nat) (q : Proto) (k k' : String) (ks : List String)
    (v : Val) (hc : (h.obj a).get k = Val.proto q) :
    (setNav h (Val.ref a) (k :: k' :: ks) v).2 = Except.error Err.outside := by
  simp only [setNav, readProp, hc, truthy, typeofObject, Bool.not_true, Bool.or_self,
    Bool.false_eq_true, if_false]
  exact setNav_proto _ h q v

/-- Where the navigation of `set` creates an object: the assignment of the new
object either is not described (the name is the `length` of an array) or
creates the property, and the navigation goes on in the new object. -/
theorem setNav_create (h : Heap) (a : Nat) (k k' : String) (ks : List String) (v : Val)
    (ha : a < h.length)
    (hc : ¬ (truthy ((h.obj a).get k) && typeofObject ((h.obj a).get k)) = true) :
    ((h.obj a).isArray = true ∧ k = "length" ∧
      setNav h (Val.ref a) (k :: k' :: ks) v = (h ++ [Obj.empty], Except.error Err.outside)) ∨
    ∃ o', (h.obj a).put k (Val.ref h.length) = Except.ok o' ∧
      o'.own k = some (Val.ref h.length) ∧ o'.isArray = (h.obj a).isArray ∧
      setNav h (Val.ref a) (k :: k' :: ks) v
        = setNav ((h ++ [Obj.empty]).set a o') (Val.ref h.length) (k' :: ks) v := by
  have hobj1 : Heap.obj (h ++ [Obj.empty]) a = h.obj a := Heap.obj_append_lt h _ a ha
  have ha1 : a < (h ++ [Obj.empty]).length := by simp; omega
  have hsetter : ¬ (k = "__proto__" ∧ (h.obj a).own k = none) := by
    rintro ⟨hk, hown⟩
    apply hc
    have : (h.obj a).get k = Val.proto (h.obj a).proto := by
      unfold Obj.get
      rw [hown, hk]
      simp [inherited]
    rw [this]
    rfl
  by_cases hl : (h.obj a).isArray = true ∧ k = "length"
  · left
    refine ⟨hl.1, hl.2, ?_⟩
    obtain ⟨harr, rfl⟩ := hl
    have hput : (h.obj a).put "length" (Val.ref h.length) = Except.error Err.outside := by
      simp [Obj.put, harr, arrayIndex_length, toLength]
    simp only [setNav, readProp, not_truthy_object _ hc, if_true, Heap.alloc, writeProp, hobj1,
      hput]
  · right
    obtain ⟨o', hput, hown, harr⟩ := Obj.put_own (h.obj a) k (Val.ref h.length) hl hsetter
    refine ⟨o', hput, hown, harr, ?_⟩
    simp only [setNav, readProp, not_truthy_object _ hc, if_true, Heap.alloc, writeProp, hobj1, hput,
      Heap.obj_set_same _ a o' ha1, Obj.get_of_own _ _ _ hown]

theorem getLast_cons_cons {α : Type} (a b : α) (l : List α) :
    (a :: b :: l).getLast? = (b :: l).getLast? := by
  simp [List.getLast?_cons_cons]

theorem steps_ne_nil (h : Heap) (a : Nat) (k : String) (ks : List String) :
    steps h (Val.ref a) (k :: ks) ≠ [] := by
  cases ks with
  | nil => simp [steps_single]
  | cons k' ks => simp [steps_cons]

theorem getLast_cons_ne_nil {α : Type} (a : α) (l : List α) (hl : l ≠ []) :
    (a :: l).getLast? = l.getLast? := by
  cases l with
  | nil => exact absurd rfl hl
  | cons b l => exact getLast_cons_cons a b l

theorem steps_enter (h : Heap) (a c : Nat) (k k' : String) (ks : List String)
    (hc : (h.obj a).get k = Val.ref c) :
    steps h (Val.ref a) (k :: k' :: ks) = (a, k) :: steps h (Val.ref c) (k' :: ks) := by
  rw [steps_cons, hc]
  rfl

theorem steps_stop (h : Heap) (a : Nat) (k k' : String) (ks : List String)
    (hc : ¬ (truthy ((h.obj a).get k) && typeofObject ((h.obj a).get k)) = true) :
    steps h (Val.ref a) (k :: k' :: ks) = [(a, k)] := by
  rw [steps_cons, if_neg hc]

/-- The navigation of `set` on distinct allocated objects, when it returns
and the last segment is neither `__proto__` nor the `length` of an array
assigned something else than a valid length: the navigation of `get` then
reaches the assigned value, and objects off the path are not touched. -/
theorem setNav_getNav (ks : List String) :
    ∀ (k : String) (h h' : Heap) (a : Nat) (v old : Val),
    ((steps h (Val.ref a) (k :: ks)).map Prod.fst).Nodup →
    (∀ p ∈ steps h (Val.ref a) (k :: ks), p.1 < h.length) →
    setNav h (Val.ref a) (k :: ks) v = (h', Except.ok old) →
    (k :: ks).getLast? ≠ some "__proto__" →
    (∀ q, (steps h (Val.ref a) (k :: ks)).getLast? = some q →
      (h.obj q.1).isArray = true → q.2 = "length" →
      ∃ n : Int, v = Val.num n ∧ 0 ≤ n ∧ n < 4294967296) →
    getNav h' (Val.ref a) (k :: ks) = Except.ok v ∧
      h.length ≤ h'.length ∧
      (∀ b, b < h.length → b ∉ (steps h (Val.ref a) (k :: ks)).map Prod.fst →
        h'.obj b = h.obj b) := by
  induction ks with
  | nil =>
    intro k h h' a v old _ hlt hset hlast hlen
    have ha : a < h.length := hlt (a, k) (by simp [steps_single])
    rw [setNav_leaf] at hset
    cases hput : (h.obj a).put k v with
    | error e => rw [hput] at hset; simp at hset
    | ok o' =>
      rw [hput] at hset
      simp only [Prod.mk.injEq, Except.ok.injEq] at hset
      obtain ⟨rfl, -⟩ := hset
      obtain ⟨hown, -⟩ := Obj.put_get _ o' k v hput (by simpa using hlast)
        (fun h1 h2 => hlen (a, k) (by simp [steps_single]) h1 h2)
      refine ⟨?_, by simp, ?_⟩
      · rw [getNav_leaf, Heap.obj_set_same h a o' ha, Obj.get_of_own _ _ _ hown]
      · intro b _ hb
        have : b ≠ a := by simpa [steps_single] using hb
        exact Heap.obj_set_ne h a b o' this
  | cons k' ks ih =>
    intro k h h' a v old hnd hlt hset hlast hlen
    have ha : a < h.length := hlt (a, k) (by rw [steps_cons]; simp)
    rw [getLast_cons_cons] at hlast
    by_cases hc : (truthy ((h.obj a).get k) && typeofObject ((h.obj a).get k)) = true
    · rcases truthy_object_cases _ hc with ⟨c, hcr⟩ | ⟨q, hq⟩
      · rw [steps_enter h a c k k' ks hcr] at hnd hlt hlen ⊢
        rw [setNav_enter h a c k k' ks v hcr] at hset
        simp only [List.map_cons, List.nodup_cons] at hnd
        rw [getLast_cons_ne_nil _ _ (steps_ne_nil h c k' ks)] at hlen
        obtain ⟨hgetn, hle, hframe⟩ := ih k' h h' c v old hnd.2
          (fun p hp => hlt p (List.mem_cons_of_mem _ hp)) hset hlast hlen
        refine ⟨?_, hle, ?_⟩
        · have hobj : h'.obj a = h.obj a := hframe a ha hnd.1
          rw [getNav_step h' a c k (k' :: ks) (by rw [hobj, hcr])]
          exact hgetn
        · intro b hb hnb
          simp only [List.map_cons, List.mem_cons, not_or] at hnb
          exact hframe b hb hnb.2
      · have := setNav_enter_proto h a q k k' ks v hq
        rw [hset] at this
        exact absurd this (by simp)
    · rw [steps_stop h a k k' ks hc] at hnd hlt hlen ⊢
      rcases setNav_create h a k k' ks v ha hc with ⟨-, -, hout⟩ | ⟨o', -, hown, -, hgo⟩
      · rw [hset] at hout
        simp at hout
      · rw [hgo] at hset
        have ha1 : a < (h ++ [Obj.empty]).length := by simp; omega
        have hne : h.length ≠ a := by omega
        have hfresh : Heap.obj ((h ++ [Obj.empty]).set a o') h.length = Obj.empty := by
          rw [Heap.obj_set_ne _ a _ o' hne, Heap.obj_append_new]
        have hst := steps_fresh ((h ++ [Obj.empty]).set a o') h.length k' ks hfresh
        obtain ⟨hgetn, hle, hframe⟩ := ih k' ((h ++ [Obj.empty]).set a o') h' h.length v old
          (by rw [hst]; simp)
          (by rw [hst]; intro p hp; simp at hp; subst hp; simp)
          hset hlast
          (by
            rw [hst]
            intro q hq harr
            simp only [List.getLast?_singleton, Option.some.injEq] at hq
            subst hq
            rw [hfresh] at harr
            simp [Obj.empty] at harr)
        have hobj2 : Heap.obj ((h ++ [Obj.empty]).set a o') a = o' :=
          Heap.obj_set_same _ a o' ha1
        refine ⟨?_, ?_, ?_⟩
        · have hobj : h'.obj a = o' := by
            rw [hframe a (by simpa using ha1) (by rw [hst]; simp; omega), hobj2]
          rw [getNav_step h' a h.length k (k' :: ks) (by rw [hobj]; exact Obj.get_of_own _ _ _ hown)]
          exact hgetn
        · have : ((h ++ [Obj.empty]).set a o').length = h.length + 1 := by simp
          omega
        · intro b hb hnb
          have hba : b ≠ a := by simpa using hnb
          rw [hframe b (by simp; omega) (by rw [hst]; simp; omega),
            Heap.obj_set_ne _ a b o' hba, Heap.obj_append_lt h _ b hb]

/-- The navigation of `set` from an object raises `RangeError` only for an
invalid length assigned to the `length` of the array the path ends in; every
other failure is a step that is not described. -/
theorem setNav_error (ks : List String) :
    ∀ (k : String) (h h' : Heap) (a : Nat) (v : Val) (e : Err),
    (∀ p ∈ steps h (Val.ref a) (k :: ks), p.1 < h.length) →
    setNav h (Val.ref a) (k :: ks) v = (h', Except.error e) →
    e = Err.outside ∨
      (e = Err.rangeError ∧ toLength v = Except.error Err.rangeError ∧
        ∃ q, (steps h (Val.ref a) (k :: ks)).getLast? = some q ∧
          (h.obj q.1).isArray = true ∧ q.2 = "length") := by
  induction ks with
  | nil =>
    intro k h h' a v e _ hset
    rw [setNav_leaf] at hset
    cases hput : (h.obj a).put k v with
    | ok o' => rw [hput] at hset; simp at hset
    | error e' =>
      rw [hput] at hset
      simp only [Prod.mk.injEq, Except.error.injEq] at hset
      obtain ⟨-, rfl⟩ := hset
      rcases Obj.put_error _ _ _ _ hput with h1 | ⟨h1, h2, h3, h4⟩
      · exact Or.inl h1
      · exact Or.inr ⟨h1, h4, (a, k), by simp [steps_single], h2, h3⟩
  | cons k' ks ih =>
    intro k h h' a v e hlt hset
    have ha : a < h.length := hlt (a, k) (by rw [steps_cons]; simp)
    by_cases hc : (truthy ((h.obj a).get k) && typeofObject ((h.obj a).get k)) = true
    · rcases truthy_object_cases _ hc with ⟨c, hcr⟩ | ⟨q, hq⟩
      · rw [steps_enter h a c k k' ks hcr] at hlt ⊢
        rw [setNav_enter h a c k k' ks v hcr] at hset
        rw [getLast_cons_ne_nil _ _ (steps_ne_nil h c k' ks)]
        exact ih k' h h' c v e (fun p hp => hlt p (List.mem_cons_of_mem _ hp)) hset
      · have := setNav_enter_proto h a q k k' ks v hq
        rw [hset] at this
        exact Or.inl (Except.error.inj this)
    · rcases setNav_create h a k k' ks v ha hc with ⟨-, -, hout⟩ | ⟨o', -, hown, -, hgo⟩
      · rw [hset] at hout
        simp only [Prod.mk.injEq, Except.error.injEq] at hout
        exact Or.inl hout.2
      · rw [hgo] at hset
        have hne : h.length ≠ a := by omega
        have hfresh : Heap.obj ((h ++ [Obj.empty]).set a o') h.length = Obj.empty := by
          rw [Heap.obj_set_ne _ a _ o' hne, Heap.obj_append_new]
        have hst := steps_fresh ((h ++ [Obj.empty]).set a o') h.length k' ks hfresh
        rcases ih k' ((h ++ [Obj.empty]).set a o') h' h.length v e
          (by rw [hst]; intro p hp; simp at hp; subst hp; simp) hset with h1 | ⟨-, -, q, hq, harr, -⟩
        · exact Or.inl h1
        · rw [hst] at hq
          simp only [List.getLast?_singleton, Option.some.injEq] at hq
          subst hq
          rw [hfresh] at harr
          simp [Obj.empty] at harr

theorem isLength_num (v : Val) (h : isLength v = true) :
    ∃ n : Int, v = Val.num n ∧ 0 ≤ n ∧ n < 4294967296 := by
  cases v <;> simp [isLength] at h
  exact ⟨_, rfl, h⟩

/-- A call of `set` with a non-empty path, on a document that is an object of
distinct allocated objects along the path, returns `true` unless it ends at a
step that is not described or assigns an invalid length to the array the path
ends in; when the last segment is neither `__proto__` nor the `length` of an
array assigned something else than a valid length, `get` then returns the
assigned value. -/
theorem set_get (s : State) (p : String) (v : Val) (a : Nat)
    (hp : p ≠ "")
    (hdata : s.data = Val.ref a)
    (hnodup : ((steps s.heap s.data (split p)).map Prod.fst).Nodup)
    (halloc : ∀ q ∈ steps s.heap s.data (split p), q.1 < s.heap.length)
    (hlast : (split p).getLast? ≠ some "__proto__")
    (hlen : ∀ q ∈ (steps s.heap s.data (split p)).getLast?,
      (s.heap.obj q.1).isArray = true → q.2 = "length" → isLength v = true)
    (hin : (set s p v).2 ≠ Except.error Err.outside) :
    ∃ h' old, setNav s.heap s.data (split p) v = (h', Except.ok old) ∧
      getNav h' s.data (split p) = Except.ok v ∧
      s.heap.length ≤ h'.length ∧
      (∀ b, b < s.heap.length → b ∉ (steps s.heap s.data (split p)).map Prod.fst →
        h'.obj b = s.heap.obj b) := by
  obtain ⟨k, ks, hsplit⟩ := split_cons p
  rw [hsplit] at hnodup halloc hlen hlast ⊢
  rw [hdata] at hnodup halloc hlen ⊢
  have hlen' : ∀ q, (steps s.heap (Val.ref a) (k :: ks)).getLast? = some q →
      (s.heap.obj q.1).isArray = true → q.2 = "length" →
      ∃ n : Int, v = Val.num n ∧ 0 ≤ n ∧ n < 4294967296 :=
    fun q hq h1 h2 => isLength_num v (hlen q hq h1 h2)
  cases hnav : setNav s.heap (Val.ref a) (k :: ks) v with
  | mk h' r =>
    cases r with
    | ok old =>
      exact ⟨h', old, rfl,
        setNav_getNav ks k s.heap h' a v old hnodup halloc hnav hlast hlen'⟩
    | error e =>
      exfalso
      rcases setNav_error ks k s.heap h' a v e halloc hnav with h1 | ⟨-, h2, q, hq, h3, h4⟩
      · apply hin
        simp [set, hp, hsplit, hdata, hnav, h1]
      · obtain ⟨n, rfl, h5, h6⟩ := hlen' q hq h3 h4
        simp [toLength, h5, h6] at h2

/-- C4 (fails as stated): on a new store, `set('visitedApps.length', -1)` does
not return `true`: the assignment to the `length` of the array raises
`RangeError`. `set('visitedApps.length', '3')` returns `true`, and
`get('visitedApps.length')` then returns the number 3, not the string.
`set('__proto__', 5)` returns `true`, and `get('__proto__')` then returns
`Object.prototype`: the inherited setter has ignored the number. -/
theorem C4_set_then_get_fails :
    (set (freshStore 0) "visitedApps.length" (Val.num (-1))).2 = Except.error Err.rangeError ∧
    ((set (freshStore 0) "visitedApps.length" (Val.str "3")).2 = Except.ok true ∧
      get (set (freshStore 0) "visitedApps.length" (Val.str "3")).1 (some "visitedApps.length")
        = Except.ok (Val.num 3)) ∧
    ((set (freshStore 0) "__proto__" (Val.num 5)).2 = Except.ok true ∧
      get (set (freshStore 0) "__proto__" (Val.num 5)).1 (some "__proto__")
        = Except.ok (Val.proto Proto.object)) := by
  decide

/-- C4 (amended): when the document is an object, the objects that the
navigation passes through are allocated and pairwise distinct, the last
segment of the non-empty path `p` is not `__proto__`, `v` is a valid length if
the path ends in the `length` of an array, and the call does not end at a step
that is not described (an assignment to a builtin prototype object, a change
of a prototype, a length that is not a number), then `set(p, v)` returns `true`
and `get(p)` then returns `v`, whatever is stored along the path. -/
theorem C4_set_then_get (s : State) (p : String) (v : Val) (a : Nat)
    (hp : p ≠ "")
    (hdata : s.data = Val.ref a)
    (hnodup : ((steps s.heap s.data (split p)).map Prod.fst).Nodup)
    (halloc : ∀ q ∈ steps s.heap s.data (split p), q.1 < s.heap.length)
    (hlast : (split p).getLast? ≠ some "__proto__")
    (hlen : ∀ q ∈ (steps s.heap s.data (split p)).getLast?,
      (s.heap.obj q.1).isArray = true → q.2 = "length" → isLength v = true)
    (hin : (set s p v).2 ≠ Except.error Err.outside) :
    (set s p v).2 = Except.ok true ∧ get (set s p v).1 (some p) = Except.ok v := by
  obtain ⟨h', old, hset, hget, -, -⟩ := set_get s p v a hp hdata hnodup halloc hlast hlen hin
  simp [set, get, hp, hset, notifyListeners_eq, hget]

/-- Witness for C4: on a new store, a path through missing segments
(`settings.theme.name`), a path through a string (`currentState.x`), a path
through an array (`visitedApps.first.name`), a path through an inherited
method (`settings.toString.x`) and the `length` of an array. -/
theorem C4_set_then_get_witness :
    ((set (freshStore 0) "settings.theme.name" (Val.str "dark")).2 = Except.ok true ∧
      get (set (freshStore 0) "settings.theme.name" (Val.str "dark")).1
        (some "settings.theme.name") = Except.ok (Val.str "dark")) ∧
    ((set (freshStore 0) "currentState.x" (Val.num 3)).2 = Except.ok true ∧
      get (set (freshStore 0) "currentState.x" (Val.num 3)).1
        (some "currentState.x") = Except.ok (Val.num 3)) ∧
    ((set (freshStore 0) "visitedApps.first.name" Val.null).2 = Except.ok true ∧
      get (set (freshStore 0) "visitedApps.first.name" Val.null).1
        (some "visitedApps.first.name") = Except.ok Val.null) ∧
    ((set (freshStore 0) "settings.toString.x" (Val.num 1)).2 = Except.ok true ∧
      get (set (freshStore 0) "settings.toString.x" (Val.num 1)).1
        (some "settings.toString.x") = Except.ok (Val.num 1)) ∧
    ((set (freshStore 0) "visitedApps.length" (Val.num 3)).2 = Except.ok true ∧
      get (set (freshStore 0) "visitedApps.length" (Val.num 3)).1
        (some "visitedApps.length") = Except.ok (Val.num 3)) :=
  ⟨C4_set_then_get (freshStore 0) "settings.theme.name" (Val.str "dark") 17
      (by decide) (by decide) (by decide) (by decide) (by decide) (by decide) (by decide),
    C4_set_then_get (freshStore 0) "currentState.x" (Val.num 3) 17
      (by decide) (by decide) (by decide) (by decide) (by decide) (by decide) (by decide),
    C4_set_then_get (freshStore 0) "visitedApps.first.name" Val.null 17
      (by decide) (by decide) (by decide) (by decide) (by decide) (by decide) (by decide),
    C4_set_then_get (freshStore 0) "settings.toString.x" (Val.num 1) 17
      (by decide) (by decide) (by decide) (by decide) (by decide) (by decide) (by decide),
    C4_set_then_get (freshStore 0) "visitedApps.length" (Val.num 3) 17
      (by decide) (by decide) (by decide) (by decide) (by decide) (by decide) (by decide)⟩

theorem foldl_bind_none (h : Heap) (ks : List String) :
    ks.foldl (fun reached k => reached.bind (fun x => member h x k)) none = none := by
  induction ks with
  | nil => rfl
  | cons k ks ih => simpa using ih

theorem follow_cons (h : Heap) (v : Val) (k : String) (ks : List String) :
    follow h v (k :: ks) = (member h v k).bind (fun w => follow h w ks) := by
  unfold follow
  simp only [List.foldl_cons, Option.some_bind]
  cases member h v k with
  | none => simp [foldl_bind_none]
  | some w => rfl

/-- The loop of `get` returns what following the segments reaches, and
`undefined` when they reach nothing. -/
theorem getNav_eq_follow (h : Heap) (ks : List String) :
    ∀ v, getNav h v ks = Except.ok ((follow h v ks).getD Val.undefined) := by
  induction ks with
  | nil => intro v; simp [getNav, follow]
  | cons k ks ih =>
    intro v
    rw [follow_cons]
    cases v with
    | ref a =>
      cases hh : (h.obj a).has k with
      | true => simp [getNav, member, truthy, typeofObject, inOp, readProp, hh, ih]
      | false => simp [getNav, member, truthy, typeofObject, inOp, hh]
    | proto p =>
      cases hg : p.get k with
      | none => simp [getNav, member, truthy, typeofObject, inOp, hg]
      | some w => simp [getNav, member, truthy, typeofObject, inOp, readProp, hg, ih]
    | _ => simp [getNav, member, truthy, typeofObject]

/-- The segments of `split`, joined by dots, give the key back, and none of
them holds a dot. -/
theorem splitAux_spec (cs : List Char) :
    ∀ acc : List Char,
      List.intercalate ['.'] ((splitAux cs acc).map String.data) = acc.reverse ++ cs ∧
      ((∀ c ∈ acc, c ≠ '.') → ∀ k ∈ splitAux cs acc, ∀ c ∈ k.data, c ≠ '.') := by
  induction cs with
  | nil =>
    intro acc
    refine ⟨by simp [splitAux, List.intercalate], ?_⟩
    intro hacc k hk c hc
    simp only [splitAux, List.mem_singleton] at hk
    subst hk
    exact hacc c (by simpa using hc)
  | cons c cs ih =>
    intro acc
    by_cases hdot : c = '.'
    · obtain ⟨k', ks', hks⟩ := splitAux_cons cs []
      obtain ⟨h1, h2⟩ := ih []
      refine ⟨?_, ?_⟩
      · rw [hks] at h1
        simp only [splitAux, hdot, if_true, hks, List.map_cons, List.intercalate,
          List.intersperse_cons_cons, List.flatten_cons] at h1 ⊢
        simp only [List.reverse_nil, List.nil_append] at h1
        rw [← h1]
        simp
      · intro hacc k hk x hx
        simp only [splitAux, hdot, if_true, List.mem_cons] at hk
        rcases hk with rfl | hk
        · exact hacc x (by simpa using hx)
        · exact h2 (by simp) k hk x hx
    · obtain ⟨h1, h2⟩ := ih (c :: acc)
      refine ⟨?_, ?_⟩
      · simp only [splitAux, hdot, if_false]
        rw [h1]
        simp
      · intro hacc k hk x hx
        simp only [splitAux, hdot, if_false] at hk
        refine h2 ?_ k hk x hx
        intro y hy
        rcases List.mem_cons.mp hy with rfl | hy
        · exact hdot
        · exact hacc y hy

/-- C5: `get` never raises. Without a path, or with the empty path, it returns
the document itself; otherwise it returns the value reached by following the
segments of the path one property after the other, and `undefined` as soon as
a segment is missing or the value reached so far is `null` or not an object.
The segments are the pieces of the path between its dots. A property that an
object inherits exists: on a new store, `toString` and `visitedApps.push` are
builtin functions, while `currentState.length` is `undefined`, the value at
`currentState` being a string. -/
theorem C5_get_never_raises (s : State) (key : String) :
    get s none = Except.ok s.data ∧
    get s (some key) = Except.ok
      (if key = "" then s.data else (follow s.heap s.data (split key)).getD Val.undefined) ∧
    List.intercalate ['.'] ((split key).map String.data) = key.data ∧
    (∀ k ∈ split key, ∀ c ∈ k.data, c ≠ '.') ∧
    split "story.currentChapter" = ["story", "currentChapter"] ∧
    get (freshStore 0) (some "story.currentChapter") = Except.ok (Val.num 1) ∧
    get (freshStore 0) (some "settings.soundEnabled") = Except.ok (Val.bool true) ∧
    get (freshStore 0) (some "settings") = Except.ok (Val.ref 15) ∧
    get (freshStore 0) (some "settings.theme") = Except.ok Val.undefined ∧
    get (freshStore 0) (some "settings.theme.name") = Except.ok Val.undefined ∧
    get (freshStore 0) (some "settings..soundEnabled") = Except.ok Val.undefined ∧
    get (freshStore 0) (some "currentState") = Except.ok (Val.str "lock_screen") ∧
    get (freshStore 0) (some "currentState.length") = Except.ok Val.undefined ∧
    get (freshStore 0) (some "visitedApps.length") = Except.ok (Val.num 0) ∧
    get (freshStore 0) (some "visitedApps.0") = Except.ok Val.undefined ∧
    get (freshStore 0) (some "toString") = Except.ok (Val.fn "Object.prototype.toString") ∧
    get (freshStore 0) (some "toString.name") = Except.ok Val.undefined ∧
    get (freshStore 0) (some "visitedApps.push") = Except.ok (Val.fn "Array.prototype.push") ∧
    get (freshStore 0) (some "__proto__") = Except.ok (Val.proto Proto.object) ∧
    get (freshStore 0) (some "__proto__.__proto__") = Except.ok Val.null ∧
    get (freshStore 0) (some "__proto__.__proto__.x") = Except.ok Val.undefined := by
  refine ⟨rfl, ?_, (splitAux_spec key.data []).1, ?_, ?_⟩
  · by_cases hk : key = ""
    · simp [get, hk]
    · simp [get, hk, getNav_eq_follow]
  · exact (splitAux_spec key.data []).2 (by simp)
  · decide

theorem callBuiltin_self (f : String) : callBuiltin (Val.fn f) f = Except.ok () := by
  simp [callBuiltin]

/-- `addToArray` on an array that holds the item changes nothing. -/
theorem addToArray_present (s : State) (p : String) (x : Val) (a : Nat)
    (hget : get s (some p) = Except.ok (Val.ref a))
    (harr : (s.heap.obj a).isArray = true)
    (hincl : (s.heap.obj a).get "includes" = Val.fn "Array.prototype.includes")
    (hinc : includes (s.heap.obj a) x = true) :
    addToArray s p x = (s, Except.ok ()) := by
  simp [addToArray, hget, isArray, harr, hincl, callBuiltin_self, hinc]

/-- `addToArray` on an array that lacks the item and is not full pushes it and
notifies. -/
theorem addToArray_absent (s : State) (p : String) (x : Val) (a : Nat)
    (hget : get s (some p) = Except.ok (Val.ref a))
    (harr : (s.heap.obj a).isArray = true)
    (hincl : (s.heap.obj a).get "includes" = Val.fn "Array.prototype.includes")
    (hpush : (s.heap.obj a).get "push" = Val.fn "Array.prototype.push")
    (hroom : (s.heap.obj a).elems.length < 4294967295)
    (hinc : includes (s.heap.obj a) x = false) :
    addToArray s p x =
      (notifyListeners { s with heap := s.heap.set a (push (s.heap.obj a) x) }
        "change" (Payload.arrayChange p (Val.ref a) "add" x), Except.ok ()) := by
  simp [addToArray, hget, isArray, harr, hincl, hpush, callBuiltin_self, hinc, hroom]

/-- After `push`, a property that is not an element reads as before, `length`
apart. -/
theorem push_get_name (o : Obj) (x : Val) (k : String) (hidx : arrayIndex k = none)
    (hk : k ≠ "length") : (push o x).get k = o.get k := by
  simp [Obj.get, Obj.own, push, hidx, hk, Obj.proto]

/-- A new array has the methods of `Array.prototype`. -/
theorem newArray_methods (es : List (Option Val)) :
    ({ isArray := true, elems := es, props := [] } : Obj).get "includes"
      = Val.fn "Array.prototype.includes" ∧
    ({ isArray := true, elems := es, props := [] } : Obj).get "push"
      = Val.fn "Array.prototype.push" ∧
    ({ isArray := true, elems := es, props := [] } : Obj).get "indexOf"
      = Val.fn "Array.prototype.indexOf" ∧
    ({ isArray := true, elems := es, props := [] } : Obj).get "splice"
      = Val.fn "Array.prototype.splice" :=
  ⟨rfl, rfl, rfl, rfl⟩

/-- `addToArray` on a value that is not an array hands a new array to `set`. -/
theorem addToArray_other (s : State) (p : String) (x v : Val)
    (hget : get s (some p) = Except.ok v)
    (harr : isArray s.heap v = false) :
    (addToArray s p x).1 =
      (set { s with heap := s.heap ++ [{ isArray := true, elems := [some x], props := [] }] }
        p (Val.ref s.heap.length)).1 := by
  simp only [addToArray, hget, harr, Heap.alloc]
  simp only [Bool.not_false, if_true]
  split <;> simp_all

/-- C6 (fails as stated): a stored payload whose `visitedApps` holds "mail"
twice is loaded as it is, and after two calls of `addToArray('visitedApps',
'mail')` the array at `visitedApps` still holds "mail" twice. And on a new
store, after `set('visitedApps.includes', 1)` has given the array a property
`includes` of its own, both calls of `addToArray('visitedApps', 'mail')` raise
`TypeError`, and the array holds "mail" not once. -/
theorem C6_addToArray_twice_fails :
    (get (addToArray (addToArray
        (load Env.sample
          (moduleStart 0 ⟨some "\x7b\"visitedApps\":[\"mail\",\"mail\"]\x7d", false, false⟩))
        "visitedApps" (Val.str "mail")).1 "visitedApps" (Val.str "mail")).1
      (some "visitedApps") = Except.ok (Val.ref 17) ∧
    occurrences ((addToArray (addToArray
        (load Env.sample
          (moduleStart 0 ⟨some "\x7b\"visitedApps\":[\"mail\",\"mail\"]\x7d", false, false⟩))
        "visitedApps" (Val.str "mail")).1 "visitedApps" (Val.str "mail")).1.heap.obj 17)
      (Val.str "mail") = 2) ∧
    ((set (freshStore 0) "visitedApps.includes" (Val.num 1)).2 = Except.ok true ∧
    (addToArray (set (freshStore 0) "visitedApps.includes" (Val.num 1)).1
      "visitedApps" (Val.str "mail")).2 = Except.error Err.typeError ∧
    (addToArray (addToArray (set (freshStore 0) "visitedApps.includes" (Val.num 1)).1
      "visitedApps" (Val.str "mail")).1 "visitedApps" (Val.str "mail")).2
        = Except.error Err.typeError ∧
    get (addToArray (addToArray (set (freshStore 0) "visitedApps.includes" (Val.num 1)).1
      "visitedApps" (Val.str "mail")).1 "visitedApps" (Val.str "mail")).1
        (some "visitedApps") = Except.ok (Val.ref 1) ∧
    occurrences ((addToArray (addToArray (set (freshStore 0) "visitedApps.includes" (Val.num 1)).1
      "visitedApps" (Val.str "mail")).1 "visitedApps" (Val.str "mail")).1.heap.obj 1)
      (Val.str "mail") = 0) := by
  decide

/-- C6 (amended): for a non-empty path at which an array is stored that holds
`x` at most once, has the builtin methods `includes` and `push` and is not
full, or at which no array is stored while the path can be set (the document
is an object, the objects on the way are allocated and pairwise distinct, the
path ends neither in `__proto__` nor in the `length` of an array, and the call
does not end at a step that is not described), after two calls of
`addToArray(path, x)` the value at the path is an array that contains `x`
exactly once. -/
theorem C6_addToArray_twice (s : State) (p : String) (x : Val)
    (hp : p ≠ "")
    (hcase :
      (∃ a, get s (some p) = Except.ok (Val.ref a) ∧ (s.heap.obj a).isArray = true ∧
        (s.heap.obj a).get "includes" = Val.fn "Array.prototype.includes" ∧
        (s.heap.obj a).get "push" = Val.fn "Array.prototype.push" ∧
        (s.heap.obj a).elems.length < 4294967295 ∧
        occurrences (s.heap.obj a) x ≤ 1) ∨
      (∃ v a, get s (some p) = Except.ok v ∧ isArray s.heap v = false ∧
        s.data = Val.ref a ∧
        ((steps s.heap s.data (split p)).map Prod.fst).Nodup ∧
        (∀ q ∈ steps s.heap s.data (split p), q.1 < s.heap.length) ∧
        (split p).getLast? ≠ some "__proto__" ∧
        (∀ q ∈ (steps s.heap s.data (split p)).getLast?,
          ¬ ((s.heap.obj q.1).isArray = true ∧ q.2 = "length")) ∧
        (addToArray s p x).2 ≠ Except.error Err.outside)) :
    ∃ b, get (addToArray (addToArray s p x).1 p x).1 (some p) = Except.ok (Val.ref b) ∧
      ((addToArray (addToArray s p x).1 p x).1.heap.obj b).isArray = true ∧
      occurrences ((addToArray (addToArray s p x).1 p x).1.heap.obj b) x = 1 := by
  rcases hcase with ⟨a, hget, harr, hincl, hpush, hroom, hocc⟩ |
    ⟨v, a, hget, harr, hdata, hnd, hlt, hlast, hlen, hin⟩
  · by_cases hinc : includes (s.heap.obj a) x = true
    · have h1 : occurrences (s.heap.obj a) x = 1 := by
        have := (includes_iff _ _).mp hinc
        omega
      rw [addToArray_present s p x a hget harr hincl hinc]
      simp only
      rw [addToArray_present s p x a hget harr hincl hinc]
      exact ⟨a, hget, harr, h1⟩
    · have hinc' : includes (s.heap.obj a) x = false := by simpa using hinc
      have h0 : occurrences (s.heap.obj a) x = 0 := by
        have := (includes_iff (s.heap.obj a) x).not.mp hinc
        omega
      have ha := isArray_lt _ _ harr
      rw [addToArray_absent s p x a hget harr hincl hpush hroom hinc']
      simp only
      have hobj : Heap.obj (s.heap.set a (push (s.heap.obj a) x)) a = push (s.heap.obj a) x :=
        Heap.obj_set_same _ _ _ ha
      have hget1 : get (notifyListeners { s with heap := s.heap.set a (push (s.heap.obj a) x) }
          "change" (Payload.arrayChange p (Val.ref a) "add" x)) (some p)
          = Except.ok (Val.ref a) := by
        simp only [get, hp, if_false, notifyListeners_eq] at hget ⊢
        exact getNav_push s.heap a x harr _ _ hget
      have harr1 : ((notifyListeners { s with heap := s.heap.set a (push (s.heap.obj a) x) }
          "change" (Payload.arrayChange p (Val.ref a) "add" x)).heap.obj a).isArray = true := by
        simp only [notifyListeners_eq, hobj]
        simpa [push] using harr
      have hincl1 : ((notifyListeners { s with heap := s.heap.set a (push (s.heap.obj a) x) }
          "change" (Payload.arrayChange p (Val.ref a) "add" x)).heap.obj a).get "includes"
            = Val.fn "Array.prototype.includes" := by
        simp only [notifyListeners_eq, hobj]
        rw [push_get_name _ _ _ (by decide) (by decide)]
        exact hincl
      have hocc1 : occurrences ((notifyListeners
          { s with heap := s.heap.set a (push (s.heap.obj a) x) }
          "change" (Payload.arrayChange p (Val.ref a) "add" x)).heap.obj a) x = 1 := by
        simp only [notifyListeners_eq, hobj, occurrences_push, h0]
      have hinc1 : includes ((notifyListeners
          { s with heap := s.heap.set a (push (s.heap.obj a) x) }
          "change" (Payload.arrayChange p (Val.ref a) "add" x)).heap.obj a) x = true := by
        rw [includes_iff, hocc1]; exact Nat.one_pos
      rw [addToArray_present _ p x a hget1 harr1 hincl1 hinc1]
      exact ⟨a, hget1, harr1, hocc1⟩
  · have hst := steps_append s.heap { isArray := true, elems := [some x], props := [] }
      (split p) s.data hlt
    have hsetres : (addToArray s p x).2 = Except.error Err.outside ↔
        (set { s with heap := s.heap ++ [{ isArray := true, elems := [some x], props := [] }] }
          p (Val.ref s.heap.length)).2 = Except.error Err.outside := by
      simp only [addToArray, hget, harr, Heap.alloc, Bool.not_false, if_true]
      generalize set { s with heap := s.heap ++ [{ isArray := true, elems := [some x], props := [] }] }
        p (Val.ref s.heap.length) = r
      obtain ⟨s1, r1⟩ := r
      cases r1 <;> simp
    obtain ⟨h', old, hset, hgetn, -, hframe⟩ := set_get
      { s with heap := s.heap ++ [{ isArray := true, elems := [some x], props := [] }] }
      p (Val.ref s.heap.length) a hp hdata
      (by simp only [hst]; exact hnd)
      (by simp only [hst]; intro q hq; have := hlt q hq; simp; omega)
      hlast
      (by
        simp only [hst]
        intro q hq h1 h2
        have hq' : q ∈ steps s.heap s.data (split p) := List.mem_of_mem_getLast? hq
        rw [Heap.obj_append_lt _ _ _ (hlt q hq')] at h1
        exact absurd ⟨h1, h2⟩ (hlen q hq))
      (fun h => hin (hsetres.mpr h))
    simp only [hst] at hframe
    have hnew : h'.obj s.heap.length = { isArray := true, elems := [some x], props := [] } := by
      rw [hframe s.heap.length (by simp) ?_, Heap.obj_append_new]
      intro hmem
      obtain ⟨q, hq, hq'⟩ := List.mem_map.mp hmem
      have := hlt q hq
      omega
    have hs1 : (addToArray s p x).1 =
        notifyListeners { s with heap := h' } "change"
          (Payload.change p (Val.ref s.heap.length) old) := by
      rw [addToArray_other s p x v hget harr]
      simp only [set, hp, if_false]
      simp only [] at hset
      rw [hset]
    have hget1 : get (addToArray s p x).1 (some p) = Except.ok (Val.ref s.heap.length) := by
      rw [hs1]
      simp only [get, hp, if_false, notifyListeners_eq]
      exact hgetn
    have harr1 : ((addToArray s p x).1.heap.obj s.heap.length).isArray = true := by
      rw [hs1]; simp only [notifyListeners_eq, hnew]
    have hincl1 : ((addToArray s p x).1.heap.obj s.heap.length).get "includes"
        = Val.fn "Array.prototype.includes" := by
      rw [hs1]; simp only [notifyListeners_eq, hnew]
      rfl
    have hocc1 : occurrences ((addToArray s p x).1.heap.obj s.heap.length) x = 1 := by
      rw [hs1]; simp only [notifyListeners_eq, hnew]
      simp [occurrences]
    have hinc1 : includes ((addToArray s p x).1.heap.obj s.heap.length) x = true := by
      rw [includes_iff, hocc1]; exact Nat.one_pos
    rw [addToArray_present _ p x _ hget1 harr1 hincl1 hinc1]
    exact ⟨_, hget1, harr1, hocc1⟩

/-- Witness for C6: on a new store, `visitedApps` is an empty array, and
`settings.tags` holds no array. -/
theorem C6_addToArray_twice_witness :
    (∃ b, get (addToArray (addToArray (freshStore 0) "visitedApps" (Val.str "mail")).1
          "visitedApps" (Val.str "mail")).1 (some "visitedApps") = Except.ok (Val.ref b) ∧
        ((addToArray (addToArray (freshStore 0) "visitedApps" (Val.str "mail")).1
          "visitedApps" (Val.str "mail")).1.heap.obj b).isArray = true ∧
        occurrences ((addToArray (addToArray (freshStore 0) "visitedApps" (Val.str "mail")).1
          "visitedApps" (Val.str "mail")).1.heap.obj b) (Val.str "mail") = 1) ∧
    (∃ b, get (addToArray (addToArray (freshStore 0) "settings.tags" (Val.str "mail")).1
          "settings.tags" (Val.str "mail")).1 (some "settings.tags") = Except.ok (Val.ref b) ∧
        ((addToArray (addToArray (freshStore 0) "settings.tags" (Val.str "mail")).1
          "settings.tags" (Val.str "mail")).1.heap.obj b).isArray = true ∧
        occurrences ((addToArray (addToArray (freshStore 0) "settings.tags" (Val.str "mail")).1
          "settings.tags" (Val.str "mail")).1.heap.obj b) (Val.str "mail") = 1) :=
  ⟨C6_addToArray_twice (freshStore 0) "visitedApps" (Val.str "mail") (by decide)
      (Or.inl ⟨1, by decide, by decide, by decide, by decide, by decide, by decide⟩),
    C6_addToArray_twice (freshStore 0) "settings.tags" (Val.str "mail") (by decide)
      (Or.inr ⟨Val.undefined, 17, by decide, by decide, by decide, by decide, by decide,
        by decide, by decide, by decide⟩)⟩

/-- The example of the specification: defaults `{a:{b:1,c:2}}` and saved
`{a:{b:5}}` merge to `{a:{b:5,c:2}}`: the merged document is object 4, whose
`a` is object 0. -/
theorem mergeWithDefaults_example :
    mergeJson Env.sample
        (Json.obj [("a", Json.obj [("b", Json.num 1), ("c", Json.num 2)])])
        (Json.obj [("a", Json.obj [("b", Json.num 5)])]) =
      ([ { isArray := false, elems := [], props := [("b", Val.num 5), ("c", Val.num 2)] },
         { isArray := false, elems := [], props := [("a", Val.ref 0)] },
         { isArray := false, elems := [], props := [("b", Val.num 5)] },
         { isArray := false, elems := [], props := [("a", Val.ref 2)] },
         { isArray := false, elems := [], props := [("a", Val.ref 0)] } ],
        Except.ok (Val.ref 4)) := by
  decide

/-- C7 (fails on the code): with the defaults of the program, a payload
`{"currentState":{"a":1}}` makes `mergeWithDefaults` raise `TypeError` (the
default is a string), and for a payload `{"visitedApps":{"0":"mail"}}` the
merged `visitedApps` is not the saved object but the array of the defaults,
into which "mail" was merged as element 0. -/
theorem C7_object_merged_into_default_string_or_array :
    (mergeParsed Env.sample 0
      (Json.obj [("currentState", Json.obj [("a", Json.num 1)])])).2
        = Except.error Err.typeError ∧
    (mergeParsed Env.sample 0
      (Json.obj [("visitedApps", Json.obj [("0", Json.str "mail")])])).2
        = Except.ok (Val.ref 19) ∧
    readProp (mergeParsed Env.sample 0
      (Json.obj [("visitedApps", Json.obj [("0", Json.str "mail")])])).1
        (Val.ref 19) "visitedApps" = Except.ok (Val.ref 1) ∧
    readProp (moduleStart 0 ⟨none, false, false⟩).heap
        (moduleStart 0 ⟨none, false, false⟩).defaultProgress "visitedApps"
        = Except.ok (Val.ref 1) ∧
    (mergeParsed Env.sample 0
      (Json.obj [("visitedApps", Json.obj [("0", Json.str "mail")])])).1.obj 1
        = { isArray := true, elems := [some (Val.str "mail")], props := [] } := by
  decide

theorem assocSet_append_new (k : String) (v : Val) (l : List (String × Val))
    (hk : k ∉ l.map Prod.fst) : assocSet k v l = l ++ [(k, v)] := by
  induction l with
  | nil => rfl
  | cons p l ih =>
    obtain ⟨k', v'⟩ := p
    simp only [List.map_cons, List.mem_cons, not_or] at hk
    have hne : k' ≠ k := fun h => hk.1 h.symm
    simp [assocSet, hne, ih hk.2]

theorem foldl_assocSet_nodup (l : List (String × Val)) :
    ∀ acc : List (String × Val), ((acc ++ l).map Prod.fst).Nodup →
      l.foldl (fun ps kv => assocSet kv.1 kv.2 ps) acc = acc ++ l := by
  induction l with
  | nil => intro acc _; simp
  | cons p l ih =>
    intro acc hnd
    have hk : p.1 ∉ acc.map Prod.fst := by
      simp only [List.map_append, List.map_cons] at hnd
      have := (List.nodup_append.mp hnd).2.2
      intro hmem
      exact this hmem (List.mem_cons_self _ _)
    simp only [List.foldl_cons]
    rw [assocSet_append_new _ _ _ hk, ih _ (by simpa using hnd)]
    simp

theorem indexNamed_unindexed (l : List (String × Val))
    (hl : ∀ kv ∈ l, arrayIndex kv.1 = none) : indexNamed l = [] := by
  induction l with
  | nil => rfl
  | cons kv l ih =>
    simp only [indexNamed, hl kv (List.mem_cons_self _ _)]
    exact ih (fun x hx => hl x (List.mem_cons_of_mem _ hx))

/-- A plain object without properties named by an array index is enumerated
in the order of `props`. -/
theorem entries_plain (o : Obj) (harr : o.isArray = false) (hu : o.Unindexed) :
    o.entries = o.props := by
  unfold Obj.entries
  rw [if_neg (by simp [harr]), indexNamed_unindexed _ hu]
  simp only [List.map_nil, List.nil_append, List.filter_eq_self]
  intro kv hkv
  simp [hu kv hkv]

/-- The object literal built from the entries of a plain object has the same
properties in the same order. -/
theorem fromEntries_plain (o : Obj) (ho : o.Plain) (hu : o.Unindexed) :
    fromEntries o.entries = o.props := by
  obtain ⟨harr, -, hnd⟩ := ho
  rw [entries_plain o harr hu]
  simpa [fromEntries] using foldl_assocSet_nodup o.props [] (by simpa using hnd)

/-- The spread of a plain object allocates an equal object. -/
theorem spread_plain (h : Heap) (d : Nat) (ho : (h.obj d).Plain) (hu : (h.obj d).Unindexed) :
    spread h (Val.ref d) = (h ++ [h.obj d], Val.ref h.length) := by
  have h1 := fromEntries_plain _ ho hu
  obtain ⟨harr, hel, -⟩ := ho
  simp only [spread, spreadEntries, Heap.alloc, h1]
  have : ({ isArray := false, elems := [], props := (h.obj d).props } : Obj) = h.obj d := by
    cases hobj : h.obj d with
    | mk ia es ps => rw [hobj] at harr hel; simp at harr hel; simp [harr, hel]
  rw [this]

/-- When reading the storage raises, when there is no persisted value, or when
the persisted value does not parse, `load()` returns normally and `this.data`
is a new object equal to the object `defaultProgress` as it is at that time:
the same properties with the same values, nested objects included by
reference. -/
theorem load_copies_defaultProgress (env : Env) (s : State) (d : Nat)
    (hd : s.defaultProgress = Val.ref d)
    (hplain : (s.heap.obj d).Plain)
    (hu : (s.heap.obj d).Unindexed)
    (hbad : s.storage.getThrows = true ∨ s.storage.item = none ∨
      ∃ t, s.storage.item = some t ∧ env.parse t = none) :
    load env s = { s with heap := s.heap ++ [s.heap.obj d], data := Val.ref s.heap.length } ∧
    (load env s).heap.obj s.heap.length = s.heap.obj d := by
  have hu : useDefaults s s.heap
      = { s with heap := s.heap ++ [s.heap.obj d], data := Val.ref s.heap.length } := by
    simp [useDefaults, hd, spread_plain s.heap d hplain hu]
  have hl : load env s = useDefaults s s.heap := by
    unfold load
    rcases hbad with h | h | ⟨t, h1, h2⟩
    · simp [h]
    · simp [h]
    · simp [h1, h2]
  rw [hl, hu]
  exact ⟨rfl, Heap.obj_append_new _ _⟩

/-- C8 (fails on the code): `{ ...defaultProgress }` copies only the top level,
so the document `load()` falls back to shares its nested objects with
`defaultProgress` and with the document that was in memory before. On a new
store, after `addToArray('visitedApps', 'mail')` and
`set('settings.soundEnabled', false)`, a `load()` that finds no persisted
value, one that finds a text that does not parse, and one for which reading
the storage raises, each leave a document whose `visitedApps` is still the
array holding "mail" and whose `soundEnabled` is still `false`, while the
literal defaults are an empty array and `true`. -/
theorem C8_fallback_document_keeps_earlier_changes :
    (freshStore 0).heap.obj 1 = { isArray := true, elems := [], props := [] } ∧
    get (freshStore 0) (some "visitedApps") = Except.ok (Val.ref 1) ∧
    get (freshStore 0) (some "settings.soundEnabled") = Except.ok (Val.bool true) ∧
    (get (load Env.sample
        (set (addToArray (freshStore 0) "visitedApps" (Val.str "mail")).1
          "settings.soundEnabled" (Val.bool false)).1) (some "visitedApps")
      = Except.ok (Val.ref 1) ∧
    (load Env.sample
        (set (addToArray (freshStore 0) "visitedApps" (Val.str "mail")).1
          "settings.soundEnabled" (Val.bool false)).1).heap.obj 1
      = { isArray := true, elems := [some (Val.str "mail")], props := [] } ∧
    get (load Env.sample
        (set (addToArray (freshStore 0) "visitedApps" (Val.str "mail")).1
          "settings.soundEnabled" (Val.bool false)).1) (some "settings.soundEnabled")
      = Except.ok (Val.bool false)) ∧
    ((load Env.sample
        { (addToArray (freshStore 0) "visitedApps" (Val.str "mail")).1 with
          storage := ⟨some "\x7bbroken", false, false⟩ }).heap.obj 1
      = { isArray := true, elems := [some (Val.str "mail")], props := [] } ∧
    get (load Env.sample
        { (addToArray (freshStore 0) "visitedApps" (Val.str "mail")).1 with
          storage := ⟨some "\x7bbroken", false, false⟩ }) (some "visitedApps")
      = Except.ok (Val.ref 1)) ∧
    ((load Env.sample
        { (addToArray (freshStore 0) "visitedApps" (Val.str "mail")).1 with
          storage := ⟨none, true, false⟩ }).heap.obj 1
      = { isArray := true, elems := [some (Val.str "mail")], props := [] } ∧
    get (load Env.sample
        { (addToArray (freshStore 0) "visitedApps" (Val.str "mail")).1 with
          storage := ⟨none, true, false⟩ }) (some "visitedApps")
      = Except.ok (Val.ref 1)) := by
  decide

/-- When the payload does not parse, `import` returns `false` and the whole
state is as before the call: the document with its timestamp, the storage and
the log of listener calls. -/
theorem importData_unparsable (env : Env) (now : Int) (s : State) (payload : String)
    (hbad : env.parse payload = none) :
    (importData env now s payload) = (s, false) := by
  simp [importData, hbad]

/-- C9 (fails on the code): the merge writes into the objects the document
shares with `defaultProgress` before it fails. On a new store with one
listener, `import` of the payload
`{"settings":{"soundEnabled":false},"currentState":{"a":1}}` returns `false`
(merging an object into the string at `currentState` raises `TypeError`),
writes nothing to the storage and calls no listener, but
`settings.soundEnabled`, which was `true`, is `false` afterwards. -/
theorem C9_failed_import_changes_the_document :
    Env.sample.parse
        "\x7b\"settings\":\x7b\"soundEnabled\":false\x7d,\"currentState\":\x7b\"a\":1\x7d\x7d"
      = some (Json.obj [("settings", Json.obj [("soundEnabled", Json.bool false)]),
          ("currentState", Json.obj [("a", Json.num 1)])]) ∧
    (mergeParsed Env.sample 0
      (Json.obj [("settings", Json.obj [("soundEnabled", Json.bool false)]),
          ("currentState", Json.obj [("a", Json.num 1)])])).2 = Except.error Err.typeError ∧
    get (addListener (freshStore 0) ⟨1, false⟩) (some "settings.soundEnabled")
      = Except.ok (Val.bool true) ∧
    (importData Env.sample 7 (addListener (freshStore 0) ⟨1, false⟩)
        "\x7b\"settings\":\x7b\"soundEnabled\":false\x7d,\"currentState\":\x7b\"a\":1\x7d\x7d").2
      = false ∧
    (importData Env.sample 7 (addListener (freshStore 0) ⟨1, false⟩)
        "\x7b\"settings\":\x7b\"soundEnabled\":false\x7d,\"currentState\":\x7b\"a\":1\x7d\x7d").1.storage
      = (freshStore 0).storage ∧
    (importData Env.sample 7 (addListener (freshStore 0) ⟨1, false⟩)
        "\x7b\"settings\":\x7b\"soundEnabled\":false\x7d,\"currentState\":\x7b\"a\":1\x7d\x7d").1.log
      = [] ∧
    get (importData Env.sample 7 (addListener (freshStore 0) ⟨1, false⟩)
        "\x7b\"settings\":\x7b\"soundEnabled\":false\x7d,\"currentState\":\x7b\"a\":1\x7d\x7d").1
      (some "settings.soundEnabled") = Except.ok (Val.bool false) :=
  ⟨rfl, by decide⟩

theorem arrayIndex_timestamp : arrayIndex "timestamp" = none := by decide

/-- The assignment of `timestamp` always succeeds on an object and touches no
other property. -/
theorem put_timestamp (o : Obj) (v : Val) :
    o.put "timestamp" v = Except.ok { o with props := assocSet "timestamp" v o.props } := by
  unfold Obj.put
  rw [if_neg (fun h => absurd h.1 (by decide))]
  split
  · simp [arrayIndex_timestamp]
  · rfl

theorem get_put_timestamp (o : Obj) (v : Val) (k : String) (hk : k ≠ "timestamp") :
    ({ o with props := assocSet "timestamp" v o.props } : Obj).get k = o.get k ∧
    ({ o with props := assocSet "timestamp" v o.props } : Obj).has k = o.has k := by
  simp [Obj.get, Obj.has, Obj.own, Obj.proto, assocGet_assocSet_ne "timestamp" k v o.props hk]

/-- C10 (fails as stated): on a store whose document has the timestamp 0 and
whose storage rejects writes, `save()` at time 5 returns `false`, and the
timestamp of the document in memory is 5 afterwards. -/
theorem C10_failed_save_stamps_the_document :
    get (load Env.sample (moduleStart 0 ⟨none, false, true⟩)) (some "timestamp")
      = Except.ok (Val.num 0) ∧
    (save Env.sample 5 (load Env.sample (moduleStart 0 ⟨none, false, true⟩))).2 = false ∧
    get (save Env.sample 5 (load Env.sample (moduleStart 0 ⟨none, false, true⟩))).1
      (some "timestamp") = Except.ok (Val.num 5) := by
  decide

/-- C10 (amended): when the write to the storage fails, `save()` returns
`false` without raising, calls no listener and leaves the storage as it was;
in memory nothing changes but the property `timestamp` of the document: every
other object of the heap, and every other property of the document, is as
before the call. -/
theorem C10_failed_save_keeps_the_other_fields (env : Env) (now : Int) (s : State)
    (hfail : s.storage.setThrows = true) :
    (save env now s).2 = false ∧
    (save env now s).1.log = s.log ∧
    (save env now s).1.storage = s.storage ∧
    (save env now s).1.listeners = s.listeners ∧
    (save env now s).1.data = s.data ∧
    (save env now s).1.defaultProgress = s.defaultProgress ∧
    (∀ a, Val.ref a ≠ s.data → (save env now s).1.heap.obj a = s.heap.obj a) ∧
    (∀ a k, k ≠ "timestamp" →
      ((save env now s).1.heap.obj a).get k = (s.heap.obj a).get k ∧
      ((save env now s).1.heap.obj a).has k = (s.heap.obj a).has k) := by
  cases hdata : s.data with
  | ref d =>
    have hw : writeProp s.heap (Val.ref d) "timestamp" (Val.num now)
        = (s.heap.set d { s.heap.obj d with
            props := assocSet "timestamp" (Val.num now) (s.heap.obj d).props }, Except.ok ()) := by
      simp [writeProp, put_timestamp]
    have hs : (save env now s).1 = { s with heap := s.heap.set d { s.heap.obj d with
            props := assocSet "timestamp" (Val.num now) (s.heap.obj d).props } } ∧
        (save env now s).2 = false := by
      simp only [save, hdata, hw, hfail, if_true]
      split <;> exact ⟨rfl, rfl⟩
    rw [hs.1, hs.2]
    refine ⟨rfl, rfl, rfl, rfl, hdata, rfl, ?_, ?_⟩
    · intro a ha
      have : a ≠ d := fun h => ha (by rw [h])
      exact Heap.obj_set_ne _ _ _ _ this
    · intro a k hk
      by_cases had : a = d
      · subst had
        by_cases hlt : a < s.heap.length
        · simp only [Heap.obj_set_same _ _ _ hlt]
          exact get_put_timestamp _ _ _ hk
        · have : s.heap.set a { s.heap.obj a with
              props := assocSet "timestamp" (Val.num now) (s.heap.obj a).props } = s.heap := by
            apply List.ext_getElem?
            intro i
            rw [List.getElem?_set]
            split
            · rename_i hai; subst hai
              simp [List.getElem?_eq_none (Nat.le_of_not_lt hlt)]
            · rfl
          simp only [this, and_self]
      · simp only [Heap.obj_set_ne _ _ _ _ had, and_self]
  | _ =>
    simp [save, writeProp, hdata]

/-- Witness for C10: a new store whose storage rejects writes. -/
theorem C10_failed_save_keeps_the_other_fields_witness :
    (save Env.sample 5 (load Env.sample (moduleStart 0 ⟨none, false, true⟩))).2 = false ∧
    (save Env.sample 5 (load Env.sample (moduleStart 0 ⟨none, false, true⟩))).1.log
      = (load Env.sample (moduleStart 0 ⟨none, false, true⟩)).log :=
  ⟨(C10_failed_save_keeps_the_other_fields Env.sample 5
      (load Env.sample (moduleStart 0 ⟨none, false, true⟩)) (by decide)).1,
    (C10_failed_save_keeps_the_other_fields Env.sample 5
      (load Env.sample (moduleStart 0 ⟨none, false, true⟩)) (by decide)).2.1⟩

end Store

/-! ## The gesture recognizer: registrations, timers, multi-touch -/

namespace Touch

theorem timerInv_startLongPress (now : Nat) (w : World) (h : w.TimerInv) :
    (startLongPress now w).TimerInv ∧
    (startLongPress now w).pending = [⟨w.nextId, now + w.handler.config.threshold⟩] := by
  obtain ⟨hn, hp⟩ := h
  rcases hp with hp | ⟨tm, hp, ht, h0, hlt⟩
  · have e : (startLongPress now w).pending = [⟨w.nextId, now + w.handler.config.threshold⟩] ∧
        (startLongPress now w).handler.timer = some w.nextId ∧
        (startLongPress now w).nextId = w.nextId + 1 := by
      unfold startLongPress clearTimeout
      split
      · split <;> simp [hp]
      · simp [hp]
    refine ⟨⟨by rw [e.2.2]; omega, Or.inr ⟨_, e.1, e.2.1, hn, by rw [e.2.2]; simp⟩⟩, e.1⟩
  · have e : (startLongPress now w).pending = [⟨w.nextId, now + w.handler.config.threshold⟩] ∧
        (startLongPress now w).handler.timer = some w.nextId ∧
        (startLongPress now w).nextId = w.nextId + 1 := by
      unfold startLongPress clearTimeout
      simp [ht, timerTruthy, h0, hp]
    refine ⟨⟨by rw [e.2.2]; omega, Or.inr ⟨_, e.1, e.2.1, hn, by rw [e.2.2]; simp⟩⟩, e.1⟩

theorem timerInv_cancelLongPress (w : World) (h : w.TimerInv) : (cancelLongPress w).TimerInv := by
  obtain ⟨hn, hp⟩ := h
  rcases hp with hp | ⟨tm, hp, ht, h0, hlt⟩
  · refine ⟨?_, Or.inl ?_⟩
    · unfold cancelLongPress clearTimeout
      split
      · split <;> simpa using hn
      · simpa using hn
    · unfold cancelLongPress clearTimeout
      split
      · split <;> simp [hp]
      · simp [hp]
  · refine ⟨?_, Or.inl ?_⟩
    · unfold cancelLongPress clearTimeout
      simp [ht, timerTruthy, h0, hn]
    · unfold cancelLongPress clearTimeout
      simp [ht, timerTruthy, h0, hp]

theorem timerInv_congr (w w' : World) (h : w.TimerInv) (h1 : w'.pending = w.pending)
    (h2 : w'.handler.timer = w.handler.timer) (h3 : w'.nextId = w.nextId) : w'.TimerInv := by
  unfold World.TimerInv at *
  rw [h1, h2, h3]
  exact h

theorem timerInv_endInteraction (w : World) (h : w.TimerInv) : (endInteraction w).TimerInv := by
  have hc := timerInv_cancelLongPress w h
  apply timerInv_congr (cancelLongPress w) _ hc
  · unfold endInteraction; simp only []; split <;> rfl
  · unfold endInteraction; simp only []; split <;> rfl
  · unfold endInteraction; simp only []; split <;> rfl

theorem timerInv_fire (now id : Nat) (w : World) (h : w.TimerInv) : (fire now id w).TimerInv := by
  unfold fire
  split
  · have hw : ({ w with pending := w.pending.filter (fun tm => tm.id != id) } : World).TimerInv := by
      obtain ⟨hn, hp⟩ := h
      rcases hp with hp | ⟨tm, hp, ht, h0, hlt⟩
      · exact ⟨hn, Or.inl (by simp [hp])⟩
      · by_cases hid : tm.id = id
        · exact ⟨hn, Or.inl (by simp [hp, hid])⟩
        · exact ⟨hn, Or.inr ⟨tm, by simp [hp, hid], ht, h0, hlt⟩⟩
    apply timerInv_congr _ _ hw
    · unfold onTimeout; split <;> rfl
    · unfold onTimeout; split <;> rfl
    · unfold onTimeout; split <;> rfl
  · exact h

theorem timerInv_step (w : World) (e : Ev) (h : w.TimerInv) : (step w e).TimerInv := by
  have hset : ∀ (p : Pos), ({ w with handler := { w.handler with startPos := some p, isActive := true } } : World).TimerInv :=
    fun p => timerInv_congr w _ h rfl rfl rfl
  cases hi : e.inp with
  | touchstart ts =>
    simp only [step, hi, handleTouchStart]
    split
    · exact h
    · split
      · exact h
      · exact (timerInv_startLongPress _ _ (hset _)).1
  | touchmove ts =>
    simp only [step, hi, handleTouchMove]
    split
    · exact h
    · split
      · split
        · exact timerInv_cancelLongPress w h
        · exact h
      · exact h
  | touchend => simpa [step, hi] using timerInv_endInteraction w h
  | touchcancel => simpa [step, hi] using timerInv_endInteraction w h
  | mousedown p =>
    simp only [step, hi, handleMouseDown]
    exact (timerInv_startLongPress _ _ (hset _)).1
  | mousemove p =>
    simp only [step, hi, handleMouseMove]
    split
    · exact h
    · split
      · exact h
      · split
        · exact timerInv_cancelLongPress w h
        · exact h
  | mouseup => simpa [step, hi] using timerInv_endInteraction w h
  | mouseleave => simpa [step, hi] using timerInv_endInteraction w h
  | timeout id => simpa [step, hi] using timerInv_fire e.t id w h

theorem timerInv_run (es : List Ev) (w : World) (h : w.TimerInv) : (run w es).TimerInv := by
  induction es generalizing w with
  | nil => exact h
  | cons e es ih => exact ih _ (timerInv_step w e h)

theorem timerInv_start (o : Options) : (addLongPressListener o).TimerInv :=
  ⟨by simp [addLongPressListener], Or.inl rfl⟩

theorem timerInv_length (w : World) (h : w.TimerInv) : w.pending.length ≤ 1 := by
  rcases h.2 with hp | ⟨tm, hp, -⟩ <;> simp [hp]

/-- C16 (fails on the code): after `destroy()` the listeners are still on the
element: a press-start at t=1000 and the expiry of its timer at t=1700 invoke
the callback with `longpress`. And for an element registered twice and pressed
at t=0, `destroy()` clears only the timer of the handler that is in the `Map`:
the timer of the first handler expires at t=700 and invokes its callback. -/
theorem C16_callbacks_fire_after_destroy :
    ((((TouchHandler.create.addLongPressListener 0 0 ⟨some 600, some 10⟩).destroy).dispatch 0
        ⟨1000, Input.touchstart [⟨5, 5⟩]⟩).expire 0 1700 1).callsTo 0
      = [⟨Kind.longpress, some ⟨5, 5⟩⟩] ∧
    ((((((TouchHandler.create.addLongPressListener 0 0 ⟨some 600, some 10⟩).addLongPressListener
        0 1 ⟨some 600, some 10⟩).dispatch 0 ⟨0, Input.touchstart [⟨5, 5⟩]⟩).destroy).expire
        0 700 1).callsTo 0) = [⟨Kind.longpress, some ⟨5, 5⟩⟩] := by
  decide

/-- C17 (fails on the code): after two registrations of element 0, with
callbacks 0 and 1, the `Map` holds one handler for the element, the second;
but the listeners of the first handler are still on the element, and a long
press on it invokes callback 0 as well as callback 1. -/
theorem C17_first_handler_still_receives_events :
    ((TouchHandler.create.addLongPressListener 0 0 ⟨some 600, some 10⟩).addLongPressListener
        0 1 ⟨some 600, some 10⟩).activeElements = [(0, 1)] ∧
    ((((((TouchHandler.create.addLongPressListener 0 0 ⟨some 600, some 10⟩).addLongPressListener
        0 1 ⟨some 600, some 10⟩).dispatch 0 ⟨0, Input.touchstart [⟨5, 5⟩]⟩).expire
        0 650 1).expire 1 650 1).callsTo 0) = [⟨Kind.longpress, some ⟨5, 5⟩⟩] ∧
    ((((((TouchHandler.create.addLongPressListener 0 0 ⟨some 600, some 10⟩).addLongPressListener
        0 1 ⟨some 600, some 10⟩).dispatch 0 ⟨0, Input.touchstart [⟨5, 5⟩]⟩).expire
        0 650 1).expire 1 650 1).callsTo 1) = [⟨Kind.longpress, some ⟨5, 5⟩⟩] := by
  decide

/-- C19: in every state a handler reaches from its registration, whatever the
sequence of press-start, press-move, press-end, press-cancel and timer-expiry
inputs, at most one countdown timer is pending, and it is the one
`handler.timer` names. A press-start (mouse, or touch with one contact)
delivered in such a state leaves exactly the timer it schedules in the queue:
a timer that was pending has been cancelled. -/
theorem C19_at_most_one_timer_pending (o : Options) (es : List Ev) (t : Nat) (p : Pos) :
    (run (addLongPressListener o) es).TimerInv ∧
    (run (addLongPressListener o) es).pending.length ≤ 1 ∧
    (step (run (addLongPressListener o) es) ⟨t, Input.mousedown p⟩).pending
      = [⟨(run (addLongPressListener o) es).nextId,
          t + (run (addLongPressListener o) es).handler.config.threshold⟩] ∧
    (step (run (addLongPressListener o) es) ⟨t, Input.touchstart [p]⟩).pending
      = [⟨(run (addLongPressListener o) es).nextId,
          t + (run (addLongPressListener o) es).handler.config.threshold⟩] ∧
    (∀ tm ∈ (run (addLongPressListener o) es).pending,
      tm.id ≠ (run (addLongPressListener o) es).nextId) := by
  have hinv := timerInv_run es _ (timerInv_start o)
  have hset : ({ run (addLongPressListener o) es with
      handler := { (run (addLongPressListener o) es).handler with
        startPos := some p, isActive := true } } : World).TimerInv :=
    timerInv_congr _ _ hinv rfl rfl rfl
  refine ⟨hinv, timerInv_length _ hinv, ?_, ?_, ?_⟩
  · simpa [step, handleMouseDown] using (timerInv_startLongPress t _ hset).2
  · simpa [step, handleTouchStart] using (timerInv_startLongPress t _ hset).2
  · intro tm htm
    rcases hinv.2 with hp | ⟨tm', hp, -, -, hlt⟩
    · simp [hp] at htm
    · rw [hp] at htm
      simp at htm
      subst htm
      omega

/-- C20: a `touchstart` that reports more than one contact returns at once: the
handler, its timers and the log of calls are left as they are, so the start
position, `isActive`, `wasLongPress` and the pending timer of an interaction in
progress are kept and no callback is invoked. -/
theorem C20_multi_touch_start_is_ignored (w : World) (now : Nat) (touches : List Pos)
    (hmulti : touches.length > 1) :
    handleTouchStart now touches w = w ∧ step w ⟨now, Input.touchstart touches⟩ = w := by
  simp [step, handleTouchStart, hmulti]

/-- Witness for C20: a second contact at t=100 during a press started at t=0. -/
theorem C20_multi_touch_start_is_ignored_witness :
    handleTouchStart 100 [⟨5, 5⟩, ⟨40, 40⟩]
        (run (addLongPressListener ⟨some 600, some 10⟩) [⟨0, Input.touchstart [⟨5, 5⟩]⟩])
      = run (addLongPressListener ⟨some 600, some 10⟩) [⟨0, Input.touchstart [⟨5, 5⟩]⟩] ∧
    step (run (addLongPressListener ⟨some 600, some 10⟩) [⟨0, Input.touchstart [⟨5, 5⟩]⟩])
        ⟨100, Input.touchstart [⟨5, 5⟩, ⟨40, 40⟩]⟩
      = run (addLongPressListener ⟨some 600, some 10⟩) [⟨0, Input.touchstart [⟨5, 5⟩]⟩] :=
  C20_multi_touch_start_is_ignored
    (run (addLongPressListener ⟨some 600, some 10⟩) [⟨0, Input.touchstart [⟨5, 5⟩]⟩])
    100 [⟨5, 5⟩, ⟨40, 40⟩] (by decide)

end Touch

/-! ## The progress store: reset, listeners, arrays, migration, invariant -/

namespace Store

/-- C11 (fails on the code): `{ ...defaultProgress }` copies only the top level,
so the document shares its nested objects with `defaultProgress`. After
`addToArray('visitedApps', 'mail')` on a new store, `reset()` leaves a document
whose `visitedApps` is the same array, still holding "mail"; after
`set('settings.soundEnabled', false)`, `reset()` leaves `soundEnabled` false,
while the literal default is `true`. -/
theorem C11_reset_keeps_earlier_changes :
    get (reset Env.sample 9 (addToArray (freshStore 0) "visitedApps" (Val.str "mail")).1)
      (some "visitedApps") = Except.ok (Val.ref 1) ∧
    (reset Env.sample 9 (addToArray (freshStore 0) "visitedApps" (Val.str "mail")).1).heap.obj 1
      = { isArray := true, elems := [some (Val.str "mail")], props := [] } ∧
    (freshStore 0).heap.obj 1 = { isArray := true, elems := [], props := [] } ∧
    get (reset Env.sample 9 (set (freshStore 0) "settings.soundEnabled" (Val.bool false)).1)
      (some "settings.soundEnabled") = Except.ok (Val.bool false) ∧
    get (freshStore 0) (some "settings.soundEnabled") = Except.ok (Val.bool true) := by
  decide

theorem withThrows_notify (f : Nat → Bool) (s : State) (event : String) (data : Payload) :
    notifyListeners (withThrows f s) event data = withThrows f (notifyListeners s event data) := by
  simp [notifyListeners_eq, withThrows, List.map_map, Function.comp_def]

theorem withThrows_useDefaults (f : Nat → Bool) (s : State) (h : Heap) :
    useDefaults (withThrows f s) h = withThrows f (useDefaults s h) := rfl

theorem withThrows_fields (f : Nat → Bool) (s : State) :
    (withThrows f s).heap = s.heap ∧ (withThrows f s).data = s.data ∧
    (withThrows f s).defaultProgress = s.defaultProgress ∧
    (withThrows f s).storage = s.storage ∧ (withThrows f s).log = s.log :=
  ⟨rfl, rfl, rfl, rfl, rfl⟩

theorem withThrows_save (f : Nat → Bool) (env : Env) (now : Int) (s : State) :
    save env now (withThrows f s) = (withThrows f (save env now s).1, (save env now s).2) := by
  obtain ⟨e1, e2, -, e4, -⟩ := withThrows_fields f s
  unfold save
  rw [e1, e2, e4]
  rcases writeProp s.heap s.data "timestamp" (Val.num now) with ⟨h, r⟩
  cases r with
  | error e => rfl
  | ok u =>
    simp only []
    cases stringify env.render h s.data with
    | error e => rfl
    | ok text =>
      simp only []
      by_cases hst : s.storage.setThrows = true
      · rw [if_pos hst, if_pos hst]
        rfl
      · rw [if_neg hst, if_neg hst]
        exact Prod.ext (withThrows_notify f
          { s with heap := h, storage := { s.storage with item := some text } } "save"
          (Payload.doc s.data)) rfl

theorem withThrows_set (f : Nat → Bool) (s : State) (key : String) (value : Val) :
    set (withThrows f s) key value = (withThrows f (set s key value).1, (set s key value).2) := by
  obtain ⟨e1, e2, -, -, -⟩ := withThrows_fields f s
  unfold set
  rw [e1, e2]
  by_cases hk : key = ""
  · simp only [hk, if_true]
  · simp only [hk, if_false]
    rcases setNav s.heap s.data (split key) value with ⟨h, r⟩
    cases r with
    | error e => rfl
    | ok old =>
      exact Prod.ext (withThrows_notify f { s with heap := h } "change"
        (Payload.change key value old)) rfl

theorem withThrows_reset (f : Nat → Bool) (env : Env) (now : Int) (s : State) :
    reset env now (withThrows f s) = withThrows f (reset env now s) := by
  unfold reset
  have h1 : useDefaults (withThrows f s) (withThrows f s).heap
      = withThrows f (useDefaults s s.heap) := rfl
  simp only [h1, withThrows_save]
  exact withThrows_notify f _ _ _

theorem withThrows_validateData (f : Nat → Bool) (env : Env) (s : State) :
    validateData env (withThrows f s)
      = (withThrows f (validateData env s).1, (validateData env s).2) := by
  obtain ⟨e1, e2, e3, -, -⟩ := withThrows_fields f s
  unfold validateData migrateVersion
  rw [e1, e2, e3]
  cases (!truthy s.data || !typeofObject s.data) with
  | true => rfl
  | false =>
    simp only [Bool.false_eq_true, if_false]
    cases readProp s.heap s.data "version" with
    | error e => rfl
    | ok version =>
      simp only []
      cases (version != Val.str STORAGE_VERSION) with
      | false => rfl
      | true =>
        simp only [if_true]
        rcases mergeWithDefaults env s.heap s.defaultProgress s.data with ⟨h, r⟩
        cases r with
        | error e => rfl
        | ok migrated =>
          simp only []
          rcases writeProp h migrated "version" (Val.str STORAGE_VERSION) with ⟨h1, r1⟩
          cases r1 <;> rfl

theorem withThrows_importData (f : Nat → Bool) (env : Env) (now : Int) (s : State)
    (payload : String) :
    importData env now (withThrows f s) payload
      = (withThrows f (importData env now s payload).1, (importData env now s payload).2) := by
  obtain ⟨e1, -, e3, -, -⟩ := withThrows_fields f s
  unfold importData
  rw [e1, e3]
  cases env.parse payload with
  | none => rfl
  | some imported =>
    simp only []
    rcases mergeWithDefaults env (imported.build s.heap).1 s.defaultProgress
        (imported.build s.heap).2 with ⟨h, r⟩
    cases r with
    | error e => rfl
    | ok merged =>
      simp only []
      have hs : State.mk h s.defaultProgress merged (withThrows f s).listeners
            (withThrows f s).storage (withThrows f s).log
          = withThrows f { s with heap := h, data := merged } := rfl
      rw [hs, withThrows_validateData f env { s with heap := h, data := merged }]
      rcases validateData env { s with heap := h, data := merged } with ⟨s1, r1⟩
      cases r1 with
      | error e => rfl
      | ok b =>
        simp only [withThrows_save]
        exact Prod.ext (withThrows_notify f _ _ _) rfl

/-- C12: `notifyListeners` returns normally whichever listeners raise, having
called every registered listener once, in order, with the event and the
payload, and changes nothing else. Hence `save`, `set`, `reset` and `import`
return the same value and leave the same state whichever listeners raise. -/
theorem C12_listeners_are_isolated (env : Env) (now : Int) (s : State) (event key payload : String)
    (data : Payload) (value : Val) (f : Nat → Bool) :
    notifyListeners s event data
      = { s with log := s.log ++ s.listeners.map (fun l => ⟨l.id, event, data⟩) } ∧
    save env now (withThrows f s) = (withThrows f (save env now s).1, (save env now s).2) ∧
    set (withThrows f s) key value = (withThrows f (set s key value).1, (set s key value).2) ∧
    reset env now (withThrows f s) = withThrows f (reset env now s) ∧
    (importData env now (withThrows f s) payload)
      = (withThrows f (importData env now s payload).1, (importData env now s payload).2) :=
  ⟨notifyListeners_eq s event data, withThrows_save f env now s, withThrows_set f s key value,
    withThrows_reset f env now s, withThrows_importData f env now s payload⟩

/-- C15 (fails on the code): `load()` itself never calls `validateData()`. With
a persisted document `{"version":"0.9"}`, the `load()` of `loadProgress()`
leaves the version "0.9" in memory; only the constructor, which calls
`validateData()` after `load()`, stamps "1.0". -/
theorem C15_loadProgress_does_not_migrate :
    get (loadProgress Env.sample
        { freshStore 0 with storage := ⟨some "\x7b\"version\":\"0.9\"\x7d", false, false⟩ })
      (some "version") = Except.ok (Val.str "0.9") ∧
    get (construct Env.sample 0 ⟨some "\x7b\"version\":\"0.9\"\x7d", false, false⟩).1
      (some "version") = Except.ok (Val.str "1.0") := by
  decide

theorem setNav_leaf_ok (h h' : Heap) (a : Nat) (v old : Val) (k : String)
    (hset : setNav h (Val.ref a) [k] v = (h', Except.ok old)) : old = (h.obj a).get k := by
  rw [setNav_leaf] at hset
  cases hput : (h.obj a).put k v with
  | error e => rw [hput] at hset; simp at hset
  | ok o =>
    rw [hput] at hset
    simp only [Prod.mk.injEq, Except.ok.injEq] at hset
    exact hset.2.symm

/-- In a new empty object `set` finds as old value what an empty object has
under the last segment. -/
theorem setNav_fresh (ks : List String) :
    ∀ (k : String) (h h' : Heap) (n : Nat) (v old : Val),
      h.obj n = Obj.empty → n < h.length →
      setNav h (Val.ref n) (k :: ks) v = (h', Except.ok old) →
      ∀ l ∈ (k :: ks).getLast?, old = Obj.empty.get l := by
  induction ks with
  | nil =>
    intro k h h' n v old hn _ hset l hl
    simp only [List.getLast?_singleton, Option.mem_def, Option.some.injEq] at hl
    subst hl
    rw [setNav_leaf_ok h h' n v old k hset, hn]
  | cons k' ks ih =>
    intro k h h' n v old hn hlt hset l hl
    rw [getLast_cons_cons] at hl
    by_cases hc : (truthy ((h.obj n).get k) && typeofObject ((h.obj n).get k)) = true
    · rw [hn] at hc
      have hq := (Obj.empty_get_cases k hc).2
      rw [← hn] at hq
      have := setNav_enter_proto h n _ k k' ks v hq
      rw [hset] at this
      exact absurd this (by simp)
    · rcases setNav_create h n k k' ks v hlt hc with ⟨-, -, hout⟩ | ⟨o', -, -, -, hgo⟩
      · rw [hset] at hout
        simp at hout
      · rw [hgo] at hset
        refine ih k' _ h' h.length v old ?_ (by simp) hset l hl
        rw [Heap.obj_set_ne _ n _ _ (by omega), Heap.obj_append_new]

/-- When `set` returns, the old value it reports is what `get` returned before
if every object on the way existed; if `set` had to create an object, `get`
returned `undefined` and the old value is what a new empty object has under
the last segment. -/
theorem setNav_old (ks : List String) :
    ∀ (k : String) (h h' : Heap) (a : Nat) (v old : Val),
      (∀ q ∈ steps h (Val.ref a) (k :: ks), q.1 < h.length) →
      setNav h (Val.ref a) (k :: ks) v = (h', Except.ok old) →
      if (steps h (Val.ref a) (k :: ks)).length = (k :: ks).length then
        getNav h (Val.ref a) (k :: ks) = Except.ok old
      else
        getNav h (Val.ref a) (k :: ks) = Except.ok Val.undefined ∧
          ∀ l ∈ (k :: ks).getLast?, old = Obj.empty.get l := by
  induction ks with
  | nil =>
    intro k h h' a v old _ hset
    rw [steps_single]
    simp only [List.length_singleton, if_true]
    rw [getNav_leaf, setNav_leaf_ok h h' a v old k hset]
  | cons k' ks ih =>
    intro k h h' a v old hlt hset
    have ha : a < h.length := hlt (a, k) (by rw [steps_cons]; simp)
    by_cases hc : (truthy ((h.obj a).get k) && typeofObject ((h.obj a).get k)) = true
    · rcases truthy_object_cases _ hc with ⟨c, hcr⟩ | ⟨q, hq⟩
      · rw [steps_enter h a c k k' ks hcr] at hlt ⊢
        rw [setNav_enter h a c k k' ks v hcr] at hset
        rw [getNav_step h a c k (k' :: ks) hcr, getLast_cons_cons]
        have := ih k' h h' c v old (fun q hq => hlt q (List.mem_cons_of_mem _ hq)) hset
        simp only [List.length_cons, Nat.add_right_cancel_iff] at this ⊢
        exact this
      · have := setNav_enter_proto h a q k k' ks v hq
        rw [hset] at this
        exact absurd this (by simp)
    · rw [steps_stop h a k k' ks hc, if_neg (by simp)]
      have hc' : (truthy ((h.obj a).get k) && typeofObject ((h.obj a).get k)) = false := by
        simpa using hc
      refine ⟨?_, ?_⟩
      · cases hh : (h.obj a).has k with
        | true =>
          simp only [getNav, truthy, typeofObject, inOp, hh, readProp, Bool.and_self, if_true]
          exact getNav_not_object h _ k' ks hc'
        | false => simp [getNav, truthy, typeofObject, inOp, hh]
      · rcases setNav_create h a k k' ks v ha hc with ⟨-, -, hout⟩ | ⟨o', -, -, -, hgo⟩
        · rw [hset] at hout
          simp at hout
        · rw [hgo, ] at hset
          rw [getLast_cons_cons]
          refine setNav_fresh ks k' _ h' h.length v old ?_ (by simp) hset
          rw [Heap.obj_set_ne _ a _ o' (by omega), Heap.obj_append_new]

/-- When `set` returns on a non-empty path, it returns `true`, the navigation
has returned an old value, and every listener was called once with it. -/
theorem set_ok (s : State) (p : String) (v : Val) (b : Bool) (hp : p ≠ "")
    (hok : (set s p v).2 = Except.ok b) :
    b = true ∧ ∃ h' old, setNav s.heap s.data (split p) v = (h', Except.ok old) ∧
      (set s p v).1 = { s with
        heap := h'
        log := s.log ++ s.listeners.map (fun l => ⟨l.id, "change", Payload.change p v old⟩) } := by
  unfold set at hok ⊢
  rw [if_neg hp] at hok ⊢
  generalize setNav s.heap s.data (split p) v = q at hok ⊢
  obtain ⟨h', r⟩ := q
  cases r with
  | error e => simp at hok
  | ok old =>
    simp only [Except.ok.injEq] at hok
    exact ⟨hok.symm, h', old, rfl, by simp [notifyListeners_eq]⟩

/-- C13 (fails as stated): with one listener registered on a new store,
`set('visitedApps.length', -1)` raises `RangeError` and no listener is called.
And `set('theme.toString', 1)` returns `true` and calls the listener with the
old value `Object.prototype.toString`, which the new object created at `theme`
inherits, while `get('theme.toString')` returned `undefined` before the call. -/
theorem C13_set_notification_fails :
    ((set (addListener (freshStore 0) ⟨1, false⟩) "visitedApps.length" (Val.num (-1))).2
      = Except.error Err.rangeError ∧
    (set (addListener (freshStore 0) ⟨1, false⟩) "visitedApps.length" (Val.num (-1))).1.log
      = [] ∧
    (addListener (freshStore 0) ⟨1, false⟩).listeners = [⟨1, false⟩]) ∧
    (get (addListener (freshStore 0) ⟨1, false⟩) (some "theme.toString")
      = Except.ok Val.undefined ∧
    (set (addListener (freshStore 0) ⟨1, false⟩) "theme.toString" (Val.num 1)).2
      = Except.ok true ∧
    (set (addListener (freshStore 0) ⟨1, false⟩) "theme.toString" (Val.num 1)).1.log
      = [⟨1, "change", Payload.change "theme.toString" (Val.num 1)
          (Val.fn "Object.prototype.toString")⟩]) := by
  decide

/-- C13 (amended): on a document that is an object, for a non-empty path `p`
through allocated objects, whenever `set(p, v)` returns it returns `true` and
has called each registered listener exactly once, in order, with the event
`change` and a payload made of `p`, of `v` and of the old value. The old value
is the value `get(p)` returned before the call when every object on the way
existed; when `set` had to create an object on the way, `get(p)` returned
`undefined` and the old value is what a new empty object has under the last
segment: `undefined`, or what it inherits. With the empty path `set` returns
`false`, changes nothing and calls no listener. -/
theorem C13_set_notifies_change (s : State) (p : String) (v : Val) (b : Bool) (a : Nat)
    (hp : p ≠ "")
    (hdata : s.data = Val.ref a)
    (halloc : ∀ q ∈ steps s.heap s.data (split p), q.1 < s.heap.length)
    (hok : (set s p v).2 = Except.ok b) :
    b = true ∧
    (∃ old,
      (set s p v).1.log
        = s.log ++ s.listeners.map (fun l => ⟨l.id, "change", Payload.change p v old⟩) ∧
      if (steps s.heap s.data (split p)).length = (split p).length then
        get s (some p) = Except.ok old
      else
        get s (some p) = Except.ok Val.undefined ∧
          ∀ l ∈ (split p).getLast?, old = Obj.empty.get l) ∧
    (set s p v).1.listeners = s.listeners ∧
    set s "" v = (s, Except.ok false) := by
  obtain ⟨k, ks, hsplit⟩ := split_cons p
  obtain ⟨hb, h', old, hnav, hst⟩ := set_ok s p v b hp hok
  rw [hsplit, hdata] at halloc hnav
  refine ⟨hb, ⟨old, ?_, ?_⟩, ?_, ?_⟩
  · rw [hst]
  · simp only [get, hp, if_false, hsplit, hdata]
    exact setNav_old ks k s.heap h' a v old halloc hnav
  · rw [hst]
  · simp [set]

/-- Witness for C13: a new store with one listener, the path
`settings.soundEnabled`, whose objects exist, and the path `theme.name`, for
which `set` creates an object. -/
theorem C13_set_notifies_change_witness :
    (true = true ∧
    (∃ old,
      (set (addListener (freshStore 0) ⟨1, false⟩) "settings.soundEnabled" (Val.bool false)).1.log
        = (addListener (freshStore 0) ⟨1, false⟩).log ++
          (addListener (freshStore 0) ⟨1, false⟩).listeners.map
            (fun l => ⟨l.id, "change",
              Payload.change "settings.soundEnabled" (Val.bool false) old⟩) ∧
      if (steps (addListener (freshStore 0) ⟨1, false⟩).heap
            (addListener (freshStore 0) ⟨1, false⟩).data (split "settings.soundEnabled")).length
          = (split "settings.soundEnabled").length then
        get (addListener (freshStore 0) ⟨1, false⟩) (some "settings.soundEnabled")
          = Except.ok old
      else
        get (addListener (freshStore 0) ⟨1, false⟩) (some "settings.soundEnabled")
            = Except.ok Val.undefined ∧
          ∀ l ∈ (split "settings.soundEnabled").getLast?, old = Obj.empty.get l) ∧
    (set (addListener (freshStore 0) ⟨1, false⟩) "settings.soundEnabled"
        (Val.bool false)).1.listeners = (addListener (freshStore 0) ⟨1, false⟩).listeners ∧
    set (addListener (freshStore 0) ⟨1, false⟩) "" (Val.bool false)
      = (addListener (freshStore 0) ⟨1, false⟩, Except.ok false)) ∧
    (true = true ∧
    (∃ old,
      (set (addListener (freshStore 0) ⟨1, false⟩) "theme.name" (Val.str "dark")).1.log
        = (addListener (freshStore 0) ⟨1, false⟩).log ++
          (addListener (freshStore 0) ⟨1, false⟩).listeners.map
            (fun l => ⟨l.id, "change", Payload.change "theme.name" (Val.str "dark") old⟩) ∧
      if (steps (addListener (freshStore 0) ⟨1, false⟩).heap
            (addListener (freshStore 0) ⟨1, false⟩).data (split "theme.name")).length
          = (split "theme.name").length then
        get (addListener (freshStore 0) ⟨1, false⟩) (some "theme.name") = Except.ok old
      else
        get (addListener (freshStore 0) ⟨1, false⟩) (some "theme.name")
            = Except.ok Val.undefined ∧
          ∀ l ∈ (split "theme.name").getLast?, old = Obj.empty.get l) ∧
    (set (addListener (freshStore 0) ⟨1, false⟩) "theme.name"
        (Val.str "dark")).1.listeners = (addListener (freshStore 0) ⟨1, false⟩).listeners ∧
    set (addListener (freshStore 0) ⟨1, false⟩) "" (Val.str "dark")
      = (addListener (freshStore 0) ⟨1, false⟩, Except.ok false)) :=
  ⟨C13_set_notifies_change (addListener (freshStore 0) ⟨1, false⟩) "settings.soundEnabled"
      (Val.bool false) true 17 (by decide) (by decide) (by decide) (by decide),
    C13_set_notifies_change (addListener (freshStore 0) ⟨1, false⟩) "theme.name"
      (Val.str "dark") true 17 (by decide) (by decide) (by decide) (by decide)⟩

theorem removeFromArray_other (s : State) (p : String) (x v : Val)
    (hget : get s (some p) = Except.ok v) (harr : isArray s.heap v = false) :
    removeFromArray s p x = (s, Except.ok ()) := by
  simp [removeFromArray, hget, harr]

theorem removeFromArray_absent (s : State) (p : String) (x : Val) (a : Nat)
    (hget : get s (some p) = Except.ok (Val.ref a))
    (harr : (s.heap.obj a).isArray = true)
    (hindexOf : (s.heap.obj a).get "indexOf" = Val.fn "Array.prototype.indexOf")
    (hidx : indexOf (s.heap.obj a) x = none) :
    removeFromArray s p x = (s, Except.ok ()) := by
  simp [removeFromArray, hget, isArray, harr, hindexOf, callBuiltin_self, hidx]

theorem removeFromArray_present (s : State) (p : String) (x : Val) (a i : Nat)
    (hget : get s (some p) = Except.ok (Val.ref a))
    (harr : (s.heap.obj a).isArray = true)
    (hindexOf : (s.heap.obj a).get "indexOf" = Val.fn "Array.prototype.indexOf")
    (hsplice : (s.heap.obj a).get "splice" = Val.fn "Array.prototype.splice")
    (hidx : indexOf (s.heap.obj a) x = some i) :
    removeFromArray s p x =
      (notifyListeners { s with heap := s.heap.set a (splice1 (s.heap.obj a) i) }
        "change" (Payload.arrayChange p (Val.ref a) "remove" x), Except.ok ()) := by
  simp [removeFromArray, hget, isArray, harr, hindexOf, hsplice, callBuiltin_self, hidx]

/-- `addToArray` on a value that is not an array is `set` of a new array. -/
theorem addToArray_other_eq (s : State) (p : String) (x v : Val)
    (hget : get s (some p) = Except.ok v)
    (harr : isArray s.heap v = false) :
    addToArray s p x =
      ((set { s with heap := s.heap ++ [{ isArray := true, elems := [some x], props := [] }] }
          p (Val.ref s.heap.length)).1,
        (set { s with heap := s.heap ++ [{ isArray := true, elems := [some x], props := [] }] }
          p (Val.ref s.heap.length)).2.map (fun _ => ())) := by
  simp only [addToArray, hget, harr, Heap.alloc, Bool.not_false, if_true]
  split <;> (rename_i heq; rw [heq]; rfl)

/-- `addToArray` on a value that is not an array, with a path that can be set:
`set` stores a new array that holds the item alone, and calls every listener
once. -/
theorem addToArray_new (s : State) (p : String) (x v : Val) (a : Nat)
    (hp : p ≠ "")
    (hget : get s (some p) = Except.ok v)
    (harr : isArray s.heap v = false)
    (hdata : s.data = Val.ref a)
    (hnd : ((steps s.heap s.data (split p)).map Prod.fst).Nodup)
    (hlt : ∀ q ∈ steps s.heap s.data (split p), q.1 < s.heap.length)
    (hlast : (split p).getLast? ≠ some "__proto__")
    (hlen : ∀ q ∈ (steps s.heap s.data (split p)).getLast?,
      ¬ ((s.heap.obj q.1).isArray = true ∧ q.2 = "length"))
    (hin : (addToArray s p x).2 ≠ Except.error Err.outside) :
    (addToArray s p x).2 = Except.ok () ∧
    get (addToArray s p x).1 (some p) = Except.ok (Val.ref s.heap.length) ∧
    (addToArray s p x).1.heap.obj s.heap.length
      = { isArray := true, elems := [some x], props := [] } ∧
    ∃ old, (addToArray s p x).1.log = s.log ++ s.listeners.map
      (fun l => ⟨l.id, "change", Payload.change p (Val.ref s.heap.length) old⟩) := by
  have hst := steps_append s.heap { isArray := true, elems := [some x], props := [] }
    (split p) s.data hlt
  have hres := addToArray_other_eq s p x v hget harr
  have hin' : (set { s with heap := s.heap ++ [{ isArray := true, elems := [some x], props := [] }] }
      p (Val.ref s.heap.length)).2 ≠ Except.error Err.outside := by
    intro h
    apply hin
    rw [hres, h]
    rfl
  obtain ⟨h', old, hset, hgetn, -, hframe⟩ := set_get
    { s with heap := s.heap ++ [{ isArray := true, elems := [some x], props := [] }] }
    p (Val.ref s.heap.length) a hp hdata
    (by simp only [hst]; exact hnd)
    (by simp only [hst]; intro q hq; have := hlt q hq; simp; omega)
    hlast
    (by
      simp only [hst]
      intro q hq h1 h2
      have hq' : q ∈ steps s.heap s.data (split p) := List.mem_of_mem_getLast? hq
      rw [Heap.obj_append_lt _ _ _ (hlt q hq')] at h1
      exact absurd ⟨h1, h2⟩ (hlen q hq))
    hin'
  simp only [hst] at hframe
  have hnew : h'.obj s.heap.length = { isArray := true, elems := [some x], props := [] } := by
    rw [hframe s.heap.length (by simp) ?_, Heap.obj_append_new]
    intro hmem
    obtain ⟨q, hq, hq'⟩ := List.mem_map.mp hmem
    have := hlt q hq
    omega
  have hs1 : addToArray s p x =
      (notifyListeners { s with heap := h' } "change"
        (Payload.change p (Val.ref s.heap.length) old), Except.ok ()) := by
    rw [hres]
    simp only [set, hp, if_false]
    simp only [] at hset
    rw [hset]
    rfl
  rw [hs1]
  refine ⟨rfl, ?_, ?_, old, ?_⟩
  · simp only [get, hp, if_false, notifyListeners_eq]
    exact hgetn
  · simp only [notifyListeners_eq, hnew]
  · simp only [notifyListeners_eq]

/-- C14 (fails as stated): on a new store with one listener, the value at the
empty path is the document, which is not an array; `addToArray('', 'x')` hands
a new array to `set`, which refuses the empty path: no listener is called and
the document object is as before. And after `set('visitedApps.indexOf', 1)` has
given the array a property `indexOf` of its own, `removeFromArray('visitedApps',
'mail')` raises `TypeError` where the array does not hold the item. -/
theorem C14_array_calls_fail :
    (get (addListener (freshStore 0) ⟨1, false⟩) (some "") = Except.ok (Val.ref 17) ∧
    isArray (addListener (freshStore 0) ⟨1, false⟩).heap (Val.ref 17) = false ∧
    (addToArray (addListener (freshStore 0) ⟨1, false⟩) "" (Val.str "x")).1.log = [] ∧
    (addToArray (addListener (freshStore 0) ⟨1, false⟩) "" (Val.str "x")).1.heap.obj 17
      = (freshStore 0).heap.obj 17 ∧
    (addToArray (addListener (freshStore 0) ⟨1, false⟩) "" (Val.str "x")).1.data
      = Val.ref 17) ∧
    ((set (freshStore 0) "visitedApps.indexOf" (Val.num 1)).2 = Except.ok true ∧
    get (set (freshStore 0) "visitedApps.indexOf" (Val.num 1)).1 (some "visitedApps")
      = Except.ok (Val.ref 1) ∧
    indexOf ((set (freshStore 0) "visitedApps.indexOf" (Val.num 1)).1.heap.obj 1) (Val.str "mail")
      = none ∧
    (removeFromArray (set (freshStore 0) "visitedApps.indexOf" (Val.num 1)).1
      "visitedApps" (Val.str "mail")).2 = Except.error Err.typeError) := by
  decide

/-- C14 (amended): on an array that has the builtin methods the call looks up,
`addToArray` when the array holds the item, and `removeFromArray` when
`indexOf` finds no element equal to the item, return the state unchanged, as
`removeFromArray` does on a value that is not an array. `addToArray` on an
array without the item that is not full pushes it, `removeFromArray` on an
array with the item removes the element at its first position, and each then
calls every listener once with `change`. `addToArray` on a value that is not
an array, with a non-empty path that can be set (the document is an object,
the objects on the way are allocated and pairwise distinct, the path ends
neither in `__proto__` nor in the `length` of an array, and the call does not
end at a step that is not described), stores at the path a new array that
holds the item alone and calls every listener once with `change` through
`set`. -/
theorem C14_array_calls_notify_on_mutation_only (s : State) (p : String) (x : Val) :
    (∀ a, get s (some p) = Except.ok (Val.ref a) → (s.heap.obj a).isArray = true →
      (s.heap.obj a).get "includes" = Val.fn "Array.prototype.includes" →
      includes (s.heap.obj a) x = true → addToArray s p x = (s, Except.ok ())) ∧
    (∀ v, get s (some p) = Except.ok v → isArray s.heap v = false →
      removeFromArray s p x = (s, Except.ok ())) ∧
    (∀ a, get s (some p) = Except.ok (Val.ref a) → (s.heap.obj a).isArray = true →
      (s.heap.obj a).get "indexOf" = Val.fn "Array.prototype.indexOf" →
      indexOf (s.heap.obj a) x = none →
      removeFromArray s p x = (s, Except.ok ())) ∧
    (∀ a, get s (some p) = Except.ok (Val.ref a) → (s.heap.obj a).isArray = true →
      (s.heap.obj a).get "includes" = Val.fn "Array.prototype.includes" →
      (s.heap.obj a).get "push" = Val.fn "Array.prototype.push" →
      (s.heap.obj a).elems.length < 4294967295 →
      includes (s.heap.obj a) x = false →
      addToArray s p x =
        ({ s with
            heap := s.heap.set a (push (s.heap.obj a) x)
            log := s.log ++ s.listeners.map
              (fun l => ⟨l.id, "change", Payload.arrayChange p (Val.ref a) "add" x⟩) },
          Except.ok ())) ∧
    (∀ a i, get s (some p) = Except.ok (Val.ref a) → (s.heap.obj a).isArray = true →
      (s.heap.obj a).get "indexOf" = Val.fn "Array.prototype.indexOf" →
      (s.heap.obj a).get "splice" = Val.fn "Array.prototype.splice" →
      indexOf (s.heap.obj a) x = some i →
      removeFromArray s p x =
        ({ s with
            heap := s.heap.set a (splice1 (s.heap.obj a) i)
            log := s.log ++ s.listeners.map
              (fun l => ⟨l.id, "change", Payload.arrayChange p (Val.ref a) "remove" x⟩) },
          Except.ok ())) ∧
    (∀ v a, get s (some p) = Except.ok v → isArray s.heap v = false → p ≠ "" →
      s.data = Val.ref a →
      ((steps s.heap s.data (split p)).map Prod.fst).Nodup →
      (∀ q ∈ steps s.heap s.data (split p), q.1 < s.heap.length) →
      (split p).getLast? ≠ some "__proto__" →
      (∀ q ∈ (steps s.heap s.data (split p)).getLast?,
        ¬ ((s.heap.obj q.1).isArray = true ∧ q.2 = "length")) →
      (addToArray s p x).2 ≠ Except.error Err.outside →
      (addToArray s p x).2 = Except.ok () ∧
      get (addToArray s p x).1 (some p) = Except.ok (Val.ref s.heap.length) ∧
      (addToArray s p x).1.heap.obj s.heap.length
        = { isArray := true, elems := [some x], props := [] } ∧
      ∃ old, (addToArray s p x).1.log = s.log ++ s.listeners.map
        (fun l => ⟨l.id, "change", Payload.change p (Val.ref s.heap.length) old⟩)) := by
  refine ⟨fun a h1 h2 h3 h4 => addToArray_present s p x a h1 h2 h3 h4,
    fun v h1 h2 => removeFromArray_other s p x v h1 h2,
    fun a h1 h2 h3 h4 => removeFromArray_absent s p x a h1 h2 h3 h4, ?_, ?_, ?_⟩
  · intro a h1 h2 h3 h4 h5 h6
    rw [addToArray_absent s p x a h1 h2 h3 h4 h5 h6, notifyListeners_eq]
  · intro a i h1 h2 h3 h4 h5
    rw [removeFromArray_present s p x a i h1 h2 h3 h4 h5, notifyListeners_eq]
  · intro v a h1 h2 hp h3 h4 h5 h6 h7 h8
    exact addToArray_new s p x v a hp h1 h2 h3 h4 h5 h6 h7 h8

/-- Witness for C14: on a new store with one listener, `visitedApps` is an
empty array: removing "mail" changes nothing, adding "mail" pushes it and
notifies; `settings.tags` holds no array, and adding "mail" stores a new array
there. -/
theorem C14_array_calls_notify_on_mutation_only_witness :
    removeFromArray (addListener (freshStore 0) ⟨1, false⟩) "visitedApps" (Val.str "mail")
      = (addListener (freshStore 0) ⟨1, false⟩, Except.ok ()) ∧
    addToArray (addListener (freshStore 0) ⟨1, false⟩) "visitedApps" (Val.str "mail") =
      ({ addListener (freshStore 0) ⟨1, false⟩ with
          heap := (addListener (freshStore 0) ⟨1, false⟩).heap.set 1
            (push ((addListener (freshStore 0) ⟨1, false⟩).heap.obj 1) (Val.str "mail"))
          log := (addListener (freshStore 0) ⟨1, false⟩).log ++
            (addListener (freshStore 0) ⟨1, false⟩).listeners.map
              (fun l => ⟨l.id, "change",
                Payload.arrayChange "visitedApps" (Val.ref 1) "add" (Val.str "mail")⟩) },
        Except.ok ()) ∧
    ((addToArray (addListener (freshStore 0) ⟨1, false⟩) "settings.tags" (Val.str "mail")).2
        = Except.ok () ∧
      get (addToArray (addListener (freshStore 0) ⟨1, false⟩) "settings.tags"
        (Val.str "mail")).1 (some "settings.tags")
        = Except.ok (Val.ref (addListener (freshStore 0) ⟨1, false⟩).heap.length) ∧
      (addToArray (addListener (freshStore 0) ⟨1, false⟩) "settings.tags"
        (Val.str "mail")).1.heap.obj (addListener (freshStore 0) ⟨1, false⟩).heap.length
        = { isArray := true, elems := [some (Val.str "mail")], props := [] } ∧
      ∃ old, (addToArray (addListener (freshStore 0) ⟨1, false⟩) "settings.tags"
          (Val.str "mail")).1.log
        = (addListener (freshStore 0) ⟨1, false⟩).log ++
          (addListener (freshStore 0) ⟨1, false⟩).listeners.map
            (fun l => ⟨l.id, "change", Payload.change "settings.tags"
              (Val.ref (addListener (freshStore 0) ⟨1, false⟩).heap.length) old⟩)) :=
  ⟨(C14_array_calls_notify_on_mutation_only (addListener (freshStore 0) ⟨1, false⟩)
      "visitedApps" (Val.str "mail")).2.2.1 1 (by decide) (by decide) (by decide) (by decide),
    (C14_array_calls_notify_on_mutation_only (addListener (freshStore 0) ⟨1, false⟩)
      "visitedApps" (Val.str "mail")).2.2.2.1 1 (by decide) (by decide) (by decide) (by decide)
      (by decide) (by decide),
    (C14_array_calls_notify_on_mutation_only (addListener (freshStore 0) ⟨1, false⟩)
      "settings.tags" (Val.str "mail")).2.2.2.2.2 Val.undefined 17 (by decide) (by decide)
      (by decide) (by decide) (by decide) (by decide) (by decide) (by decide) (by decide)⟩

theorem Keeps.refl (h : Heap) : Keeps h h :=
  ⟨Nat.le_refl _, fun _ _ => ⟨rfl, fun _ _ hk => hk⟩⟩

theorem Keeps.trans {h₁ h₂ h₃ : Heap} (h12 : Keeps h₁ h₂) (h23 : Keeps h₂ h₃) : Keeps h₁ h₃ := by
  refine ⟨Nat.le_trans h12.1 h23.1, fun a ha => ?_⟩
  obtain ⟨e1, k1⟩ := h12.2 a ha
  obtain ⟨e2, k2⟩ := h23.2 a (Nat.lt_of_lt_of_le ha h12.1)
  refine ⟨e2.trans e1, fun hna k hk => k2 (e1.trans hna) k (k1 hna k hk)⟩

theorem Keeps.append (h l : Heap) : Keeps h (h ++ l) := by
  refine ⟨by simp, fun a ha => ?_⟩
  have : Heap.obj (h ++ l) a = h.obj a := by
    simp [Heap.obj, List.getD, List.getElem?_append_left ha]
  rw [this]
  exact ⟨rfl, fun _ _ hk => hk⟩

theorem Keeps.set (h : Heap) (a : Nat) (o : Obj)
    (harr : o.isArray = (h.obj a).isArray)
    (hkeys : (h.obj a).isArray = false → ∀ k, (h.obj a).has k = true → o.has k = true) :
    Keeps h (h.set a o) := by
  refine ⟨by simp, fun b hb => ?_⟩
  by_cases hba : b = a
  · subst hba
    rw [Heap.obj_set_same h b o hb]
    exact ⟨harr, hkeys⟩
  · rw [Heap.obj_set_ne h a b o hba]
    exact ⟨rfl, fun _ _ hk => hk⟩

/-- An assignment keeps the kind of the object and, on a plain object, every
property. -/
theorem Obj.put_keeps (o o' : Obj) (k : String) (v : Val) (hput : o.put k v = Except.ok o') :
    o'.isArray = o.isArray ∧
    (o.isArray = false → ∀ k', o.has k' = true → o'.has k' = true) := by
  unfold Obj.put at hput
  split at hput
  · split at hput
    · cases hput
      exact ⟨rfl, fun _ _ h => h⟩
    · exact Except.noConfusion hput
  · by_cases harr : o.isArray = true
    · refine ⟨?_, fun hna => by rw [harr] at hna; cases hna⟩
      simp only [harr, if_true] at hput
      split at hput
      · split at hput <;> (simp only [Except.ok.injEq] at hput; subst hput; exact harr.symm)
      · split at hput
        · split at hput
          · simp only [Except.ok.injEq] at hput; subst hput; exact harr.symm
          · simp at hput
        · simp only [Except.ok.injEq] at hput; subst hput; exact harr.symm
    · have hf : o.isArray = false := by simpa using harr
      rw [if_neg harr] at hput
      cases hput
      refine ⟨rfl, fun _ k' hk' => ?_⟩
      by_cases hkk : k' = k
      · subst hkk
        exact Obj.has_of_own _ _ v (by simp [Obj.own, hf, assocGet_assocSet_same])
      · have hown : ({ o with props := assocSet k v o.props } : Obj).own k' = o.own k' := by
          simp [Obj.own, hf, assocGet_assocSet_ne k k' v o.props hkk]
        unfold Obj.has at hk' ⊢
        rw [hown]
        exact hk'

theorem writeProp_keeps (h : Heap) (v : Val) (k : String) (x : Val) :
    Keeps h (writeProp h v k x).1 := by
  cases v with
  | ref a =>
    simp only [writeProp]
    cases hput : (h.obj a).put k x with
    | error e => exact Keeps.refl h
    | ok o =>
      obtain ⟨h1, h2⟩ := Obj.put_keeps _ _ _ _ hput
      exact Keeps.set h a o h1 h2
  | _ =>
    simp only [writeProp]
    first
    | exact Keeps.refl h
    | (split <;> exact Keeps.refl h)

theorem setNav_keeps (ks : List String) :
    ∀ (h : Heap) (cur v : Val), Keeps h (setNav h cur ks v).1 := by
  induction ks with
  | nil =>
    intro h cur v
    simp only [setNav]
    split
    · exact Keeps.refl h
    · have := writeProp_keeps h cur "undefined" v
      split <;> rename_i heq <;> rw [heq] at this <;> exact this
  | cons k ks ih =>
    intro h cur v
    cases ks with
    | nil =>
      simp only [setNav]
      split
      · exact Keeps.refl h
      · have := writeProp_keeps h cur k v
        split <;> rename_i heq <;> rw [heq] at this <;> exact this
    | cons k' ks =>
      simp only [setNav]
      split
      · exact Keeps.refl h
      · split
        · have hw := writeProp_keeps (h.alloc Obj.empty).1 cur k (Val.ref (h.alloc Obj.empty).2)
          have ha : Keeps h (h.alloc Obj.empty).1 := Keeps.append h [Obj.empty]
          split
          · rename_i heq; rw [heq] at hw; exact ha.trans hw
          · rename_i heq; rw [heq] at hw
            split
            · exact ha.trans hw
            · exact (ha.trans hw).trans (ih _ _ _)
        · exact ih _ _ _

theorem foldl_invariant {α β : Type} (P : β → Prop) (f : β → α → β)
    (hf : ∀ acc x, P acc → P (f acc x)) (l : List α) : ∀ init, P init → P (l.foldl f init) := by
  induction l with
  | nil => intro init h; exact h
  | cons x l ih => intro init h; exact ih _ (hf _ _ h)

/-- `deepMerge` only allocates and assigns, and what it returns is its target. -/
theorem deepMerge_keeps (n : Nat) :
    ∀ (h : Heap) (target source : Val),
      Keeps h (deepMerge n h target source).1 ∧
      ∀ r, (deepMerge n h target source).2 = Except.ok r → r = target := by
  induction n with
  | zero => intro h t s; exact ⟨Keeps.refl h, fun r hr => by simp [deepMerge] at hr⟩
  | succ n ih =>
    intro h t s
    simp only [deepMerge]
    generalize hres : List.foldl _ (h, Except.ok ()) (forInKeys h s) = res
    have hfold : Keeps h res.1 := by
      rw [← hres]
      refine foldl_invariant (fun acc : Heap × Except Err Unit => Keeps h acc.1) _ ?_ _ _
        (Keeps.refl h)
      intro acc key hacc
      obtain ⟨h0, r0⟩ := acc
      cases r0 with
      | error e => exact hacc
      | ok u =>
        simp only []
        split
        · exact hacc
        · exact hacc
        · split
          · exact hacc
          · rename_i sv _
            split
            · split
              · exact hacc
              · rename_i tv _
                have hstart : Keeps h0 (if truthy tv = true then (h0, tv)
                    else ((h0.alloc Obj.empty).1, Val.ref (h0.alloc Obj.empty).2)).1 := by
                  split
                  · exact Keeps.refl h0
                  · exact Keeps.append h0 [Obj.empty]
                have hrec := (ih (if truthy tv = true then (h0, tv)
                    else ((h0.alloc Obj.empty).1, Val.ref (h0.alloc Obj.empty).2)).1
                  (if truthy tv = true then (h0, tv)
                    else ((h0.alloc Obj.empty).1, Val.ref (h0.alloc Obj.empty).2)).2 sv).1
                split
                · rename_i heq
                  rw [heq] at hrec
                  exact hacc.trans (hstart.trans hrec)
                · rename_i heq
                  rw [heq] at hrec
                  exact (hacc.trans (hstart.trans hrec)).trans (writeProp_keeps _ _ _ _)
            · exact hacc.trans (writeProp_keeps _ _ _ _)
    obtain ⟨h', r⟩ := res
    cases r with
    | error e => exact ⟨hfold, fun r hr => by simp at hr⟩
    | ok u => exact ⟨hfold, fun r hr => by simpa using hr.symm⟩

/-- `JSON.parse` only allocates: the heap it leaves extends the heap it found. -/
theorem build_append (j : Json) : ∀ h : Heap, ∃ l, (j.build h).1 = h ++ l := by
  refine Json.rec
    (motive_1 := fun j => ∀ h : Heap, ∃ l, (j.build h).1 = h ++ l)
    (motive_2 := fun js => ∀ h : Heap, ∃ l, (Json.buildItems js h).1 = h ++ l)
    (motive_3 := fun fs => ∀ h : Heap, ∃ l, (Json.buildFields fs h).1 = h ++ l)
    (motive_4 := fun p => ∀ h : Heap, ∃ l, (p.2.build h).1 = h ++ l)
    ?_ ?_ ?_ ?_ ?_ ?_ ?_ ?_ ?_ ?_ ?_ j
  · intro h; exact ⟨[], by simp [Json.build]⟩
  · intro b h; exact ⟨[], by simp [Json.build]⟩
  · intro n h; exact ⟨[], by simp [Json.build]⟩
  · intro s h; exact ⟨[], by simp [Json.build]⟩
  · intro items ih h
    obtain ⟨l, hl⟩ := ih h
    refine ⟨l ++ [Obj.mk true (List.map some (Json.buildItems items h).2) []], ?_⟩
    simp only [Json.build, Heap.alloc, hl, List.append_assoc]
  · intro fields ih h
    obtain ⟨l, hl⟩ := ih h
    refine ⟨l ++ [Obj.mk false [] (fromEntries (Json.buildFields fields h).2)], ?_⟩
    simp only [Json.build, Heap.alloc, hl, List.append_assoc]
  · intro h; exact ⟨[], by simp [Json.buildItems]⟩
  · intro head tail ih1 ih2 h
    obtain ⟨l1, hl1⟩ := ih1 h
    obtain ⟨l2, hl2⟩ := ih2 (head.build h).1
    exact ⟨l1 ++ l2, by rw [Json.buildItems, hl2, hl1, List.append_assoc]⟩
  · intro h; exact ⟨[], by simp [Json.buildFields]⟩
  · intro head tail ih1 ih2 h
    obtain ⟨k, j⟩ := head
    obtain ⟨l1, hl1⟩ := ih1 h
    obtain ⟨l2, hl2⟩ := ih2 (j.build h).1
    exact ⟨l1 ++ l2, by rw [Json.buildFields, hl2, hl1, List.append_assoc]⟩
  · intro k j ih h; exact ih h

theorem build_keeps (j : Json) (h : Heap) : Keeps h (j.build h).1 := by
  obtain ⟨l, hl⟩ := build_append j h
  rw [hl]
  exact Keeps.append h l

theorem assocGet_isSome_iff (k : String) (l : List (String × Val)) :
    (assocGet k l).isSome = true ↔ k ∈ l.map Prod.fst := by
  induction l with
  | nil => simp [assocGet]
  | cons p l ih =>
    obtain ⟨k', v⟩ := p
    by_cases hk : k' = k
    · simp [assocGet, hk]
    · simp only [assocGet, hk, if_false, ih, List.map_cons, List.mem_cons]
      constructor
      · exact Or.inr
      · rintro (h | h)
        · exact absurd h.symm hk
        · exact h

theorem assocSet_keys (k k' : String) (v : Val) (l : List (String × Val)) :
    k' ∈ (assocSet k v l).map Prod.fst ↔ k' = k ∨ k' ∈ l.map Prod.fst := by
  rw [← assocGet_isSome_iff, ← assocGet_isSome_iff]
  by_cases hkk : k' = k
  · subst hkk; simp [assocGet_assocSet_same]
  · rw [assocGet_assocSet_ne k k' v l hkk]; simp [hkk]

theorem Obj.has_plain (o : Obj) (k : String) (harr : o.isArray = false) :
    o.has k = true ↔ k ∈ o.props.map Prod.fst ∨ (inherited Proto.object k).isSome = true := by
  rw [← assocGet_isSome_iff]
  simp [Obj.has, Obj.own, Obj.proto, harr]

theorem mem_insertByIndex (i : Nat) (kv : String × Val) (l : List (Nat × String × Val))
    (x : Nat × String × Val) : x ∈ insertByIndex i kv l ↔ x = (i, kv) ∨ x ∈ l := by
  induction l with
  | nil => simp [insertByIndex]
  | cons y l ih =>
    obtain ⟨j, kv'⟩ := y
    simp only [insertByIndex]
    split
    · simp
    · simp only [List.mem_cons, ih]
      tauto

theorem mem_indexNamed (l : List (String × Val)) (i : Nat) (kv : String × Val) :
    (i, kv) ∈ indexNamed l ↔ kv ∈ l ∧ arrayIndex kv.1 = some i := by
  induction l with
  | nil => simp [indexNamed]
  | cons y l ih =>
    simp only [indexNamed]
    cases hy : arrayIndex y.1 with
    | none =>
      simp only [ih, List.mem_cons]
      constructor
      · rintro ⟨h1, h2⟩; exact ⟨Or.inr h1, h2⟩
      · rintro ⟨h1 | h1, h2⟩
        · subst h1; rw [hy] at h2; cases h2
        · exact ⟨h1, h2⟩
    | some j =>
      simp only [mem_insertByIndex, ih, List.mem_cons, Prod.mk.injEq]
      constructor
      · rintro (⟨h1, h2⟩ | ⟨h1, h2⟩)
        · subst h1 h2; exact ⟨Or.inl rfl, hy⟩
        · exact ⟨Or.inr h1, h2⟩
      · rintro ⟨h1 | h1, h2⟩
        · subst h1
          rw [hy] at h2
          exact Or.inl ⟨(Option.some.inj h2).symm, rfl⟩
        · exact Or.inr ⟨h1, h2⟩

/-- The enumeration of a plain object visits exactly its properties. -/
theorem mem_entries (o : Obj) (harr : o.isArray = false) (kv : String × Val) :
    kv ∈ o.entries ↔ kv ∈ o.props := by
  unfold Obj.entries
  rw [if_neg (by simp [harr])]
  simp only [List.mem_append, List.mem_map, List.mem_filter, Option.isNone_iff_eq_none]
  constructor
  · rintro (⟨⟨i, kv'⟩, h1, h2⟩ | ⟨h1, -⟩)
    · simp only at h2
      subst h2
      exact ((mem_indexNamed _ _ _).mp h1).1
    · exact h1
  · intro h
    cases hi : arrayIndex kv.1 with
    | none => exact Or.inr ⟨h, rfl⟩
    | some i => exact Or.inl ⟨(i, kv), (mem_indexNamed _ _ _).mpr ⟨h, hi⟩, rfl⟩

theorem fromEntries_keys (es : List (String × Val)) (k : String)
    (hk : k ∈ es.map Prod.fst) : k ∈ (fromEntries es).map Prod.fst := by
  unfold fromEntries
  have : ∀ (l acc : List (String × Val)), (k ∈ l.map Prod.fst ∨ k ∈ acc.map Prod.fst) →
      k ∈ (l.foldl (fun ps kv => assocSet kv.1 kv.2 ps) acc).map Prod.fst := by
    intro l
    induction l with
    | nil => intro acc h; simpa using h
    | cons p l ih =>
      intro acc h
      simp only [List.foldl_cons]
      apply ih
      simp only [List.map_cons, List.mem_cons] at h
      rcases h with (h | h) | h
      · exact Or.inr ((assocSet_keys _ _ _ _).mpr (Or.inl h))
      · exact Or.inl h
      · exact Or.inr ((assocSet_keys _ _ _ _).mpr (Or.inr h))
  exact this es [] (Or.inl hk)

/-- The spread of a plain object is a new plain object with at least the
properties of the original. -/
theorem spread_spec (h : Heap) (d : Nat) (hd : (h.obj d).isArray = false) :
    (spread h (Val.ref d)).2 = Val.ref h.length ∧
    (∃ o, (spread h (Val.ref d)).1 = h ++ [o] ∧ o.isArray = false ∧
      ∀ k, (h.obj d).has k = true → o.has k = true) := by
  refine ⟨rfl, _, rfl, rfl, fun k hk => ?_⟩
  rw [Obj.has_plain _ _ hd] at hk
  rw [Obj.has_plain _ _ rfl]
  rcases hk with hk | hk
  · left
    apply fromEntries_keys
    obtain ⟨kv, h1, h2⟩ := List.mem_map.mp hk
    exact List.mem_map.mpr ⟨kv, (mem_entries _ hd kv).mpr h1, h2⟩
  · exact Or.inr hk

theorem defaultsInv_keeps (s s' : State) (hinv : DefaultsInv s) (hk : Keeps s.heap s'.heap)
    (hd : s'.defaultProgress = s.defaultProgress) : DefaultsInv s' := by
  obtain ⟨d, h1, h2, h3, h4⟩ := hinv
  obtain ⟨e1, e2⟩ := hk.2 d h2
  exact ⟨d, hd.trans h1, Nat.lt_of_lt_of_le h2 hk.1, e1.trans h3,
    fun k hkk => e2 h3 k (h4 k hkk)⟩

theorem storeInv_keeps (s s' : State) (hinv : StoreInv s) (hk : Keeps s.heap s'.heap)
    (hd : s'.defaultProgress = s.defaultProgress) (hdata : s'.data = s.data) : StoreInv s' := by
  obtain ⟨hdef, m, h1, h2, h3, h4⟩ := hinv
  obtain ⟨e1, e2⟩ := hk.2 m h2
  exact ⟨defaultsInv_keeps s s' hdef hk hd, m, hdata.trans h1, Nat.lt_of_lt_of_le h2 hk.1,
    e1.trans h3, fun k hkk => e2 h3 k (h4 k hkk)⟩

/-- The assignment `this.data = { ...defaultProgress }` establishes the
invariant on any heap that keeps the current one. -/
theorem useDefaults_inv (s : State) (h : Heap) (hinv : DefaultsInv s) (hk : Keeps s.heap h) :
    StoreInv (useDefaults s h) ∧ Keeps s.heap (useDefaults s h).heap := by
  obtain ⟨d, h1, h2, h3, h4⟩ := hinv
  obtain ⟨e1, e2⟩ := hk.2 d h2
  have hd : (h.obj d).isArray = false := e1.trans h3
  obtain ⟨hv, o, ho, hoarr, hokeys⟩ := spread_spec h d hd
  have hheap : (useDefaults s h).heap = h ++ [o] := by
    simp only [useDefaults, h1]; exact ho
  have hdata : (useDefaults s h).data = Val.ref h.length := by
    simp only [useDefaults, h1]; exact hv
  have hk' : Keeps s.heap (useDefaults s h).heap := by
    rw [hheap]; exact hk.trans (Keeps.append h [o])
  refine ⟨⟨defaultsInv_keeps s _ ⟨d, h1, h2, h3, h4⟩ hk' rfl, h.length, hdata, ?_, ?_, ?_⟩, hk'⟩
  · rw [hheap]; simp
  · rw [hheap, Heap.obj_append_new]; exact hoarr
  · intro k hkk
    rw [hheap, Heap.obj_append_new]
    exact hokeys k (e2 h3 k (h4 k hkk))

/-- What `mergeWithDefaults` returns is a new plain object with the top-level
properties of `defaultProgress`, on a heap that keeps the current one. -/
theorem mergeWithDefaults_inv (env : Env) (s : State) (h : Heap) (saved : Val)
    (hinv : DefaultsInv s) (hk : Keeps s.heap h) :
    Keeps s.heap (mergeWithDefaults env h s.defaultProgress saved).1 ∧
    ∀ merged, (mergeWithDefaults env h s.defaultProgress saved).2 = Except.ok merged →
      ∃ m, merged = Val.ref m ∧
        m < (mergeWithDefaults env h s.defaultProgress saved).1.length ∧
        ((mergeWithDefaults env h s.defaultProgress saved).1.obj m).isArray = false ∧
        ∀ k ∈ defaultKeys,
          ((mergeWithDefaults env h s.defaultProgress saved).1.obj m).has k = true := by
  obtain ⟨d, h1, h2, h3, h4⟩ := hinv
  obtain ⟨e1, e2⟩ := hk.2 d h2
  have hd : (h.obj d).isArray = false := e1.trans h3
  obtain ⟨hv, o, ho, hoarr, hokeys⟩ := spread_spec h d hd
  unfold mergeWithDefaults
  rw [h1, hv, ho]
  obtain ⟨hkm, hres⟩ := deepMerge_keeps env.stackLimit (h ++ [o]) (Val.ref h.length) saved
  refine ⟨(hk.trans (Keeps.append h [o])).trans hkm, fun merged hm => ?_⟩
  have hlt : h.length < (h ++ [o]).length := by simp
  obtain ⟨k1, k2⟩ := hkm.2 h.length hlt
  rw [Heap.obj_append_new] at k1 k2
  refine ⟨h.length, hres merged hm, Nat.lt_of_lt_of_le hlt hkm.1, k1.trans hoarr, ?_⟩
  intro k hkk
  exact k2 hoarr k (hokeys k (e2 h3 k (h4 k hkk)))

theorem storeInv_newData (s : State) (h : Heap) (merged : Val) (hinv : DefaultsInv s)
    (hk : Keeps s.heap h)
    (hm : ∃ m, merged = Val.ref m ∧ m < h.length ∧ (h.obj m).isArray = false ∧
      ∀ k ∈ defaultKeys, (h.obj m).has k = true) :
    StoreInv { s with heap := h, data := merged } :=
  ⟨defaultsInv_keeps s _ hinv hk rfl, hm⟩

theorem load_inv (env : Env) (s : State) (hinv : DefaultsInv s) : StoreInv (load env s) := by
  unfold load
  split
  · exact (useDefaults_inv s s.heap hinv (Keeps.refl _)).1
  · split
    · exact (useDefaults_inv s s.heap hinv (Keeps.refl _)).1
    · split
      · exact (useDefaults_inv s s.heap hinv (Keeps.refl _)).1
      · split
        · exact (useDefaults_inv s s.heap hinv (Keeps.refl _)).1
        · rename_i parsed _
          obtain ⟨hk, hm⟩ := mergeWithDefaults_inv env s (parsed.build s.heap).1
            (parsed.build s.heap).2 hinv (build_keeps parsed s.heap)
          split
          · rename_i heq
            rw [heq] at hk
            exact (useDefaults_inv s _ hinv hk).1
          · rename_i heq
            rw [heq] at hk hm
            exact storeInv_newData s _ _ hinv hk (hm _ rfl)

theorem save_fields (env : Env) (now : Int) (s : State) :
    Keeps s.heap (save env now s).1.heap ∧ (save env now s).1.data = s.data ∧
    (save env now s).1.defaultProgress = s.defaultProgress := by
  have hw := writeProp_keeps s.heap s.data "timestamp" (Val.num now)
  unfold save
  split
  · rename_i heq; rw [heq] at hw; exact ⟨hw, rfl, rfl⟩
  · rename_i heq; rw [heq] at hw
    split
    · exact ⟨hw, rfl, rfl⟩
    · split
      · exact ⟨hw, rfl, rfl⟩
      · rw [notifyListeners_eq]; exact ⟨hw, rfl, rfl⟩

theorem save_inv (env : Env) (now : Int) (s : State) (hinv : StoreInv s) :
    StoreInv (save env now s).1 := by
  obtain ⟨h1, h2, h3⟩ := save_fields env now s
  exact storeInv_keeps s _ hinv h1 h3 h2

theorem validateData_inv (env : Env) (s : State) (hinv : StoreInv s) :
    StoreInv (validateData env s).1 := by
  unfold validateData migrateVersion
  split
  · exact (useDefaults_inv s s.heap hinv.1 (Keeps.refl _)).1
  · split
    · exact hinv
    · split
      · obtain ⟨hk, hm⟩ := mergeWithDefaults_inv env s s.heap s.data hinv.1 (Keeps.refl _)
        split
        · rename_i heq
          split at heq
          · rename_i heq2
            rw [heq2] at hk
            simp only [Prod.mk.injEq] at heq
            rw [← heq.1]
            exact storeInv_keeps s _ hinv hk rfl rfl
          · rename_i heq2
            rw [heq2] at hk
            have hw := writeProp_keeps ‹Heap› ‹Val› "version" (Val.str STORAGE_VERSION)
            split at heq
            · rename_i heq3
              rw [heq3] at hw
              simp only [Prod.mk.injEq] at heq
              rw [← heq.1]
              exact storeInv_keeps s _ hinv (hk.trans hw) rfl rfl
            · simp at heq
        · rename_i heq
          split at heq
          · simp at heq
          · rename_i hmid migrated heq2
            rw [heq2] at hk hm
            have hw := writeProp_keeps hmid migrated "version" (Val.str STORAGE_VERSION)
            split at heq
            · simp at heq
            · rename_i heq3
              rw [heq3] at hw
              simp only [Prod.mk.injEq, Except.ok.injEq] at heq
              rw [← heq.1, ← heq.2]
              obtain ⟨m, hm1, hm2, hm3, hm4⟩ := hm migrated rfl
              obtain ⟨e1, e2⟩ := hw.2 m hm2
              exact storeInv_newData s _ _ hinv.1 (hk.trans hw)
                ⟨m, hm1, Nat.lt_of_lt_of_le hm2 hw.1, e1.trans hm3,
                  fun k hkk => e2 hm3 k (hm4 k hkk)⟩
      · exact hinv

theorem notify_inv (s : State) (event : String) (data : Payload) (hinv : StoreInv s) :
    StoreInv (notifyListeners s event data) := by
  rw [notifyListeners_eq]
  exact storeInv_keeps s _ hinv (Keeps.refl _) rfl rfl

theorem importData_inv (env : Env) (now : Int) (s : State) (payload : String)
    (hinv : StoreInv s) : StoreInv (importData env now s payload).1 := by
  unfold importData
  split
  · exact hinv
  · rename_i imported _
    obtain ⟨hk, hm⟩ := mergeWithDefaults_inv env s (imported.build s.heap).1
      (imported.build s.heap).2 hinv.1 (build_keeps imported s.heap)
    split
    · rename_i heq
      rw [heq] at hk
      exact storeInv_keeps s _ hinv hk rfl rfl
    · rename_i h merged heq
      rw [heq] at hk hm
      have h1 : StoreInv { s with heap := h, data := merged } :=
        storeInv_newData s _ _ hinv.1 hk (hm _ rfl)
      have h2 := validateData_inv env _ h1
      split
      · rename_i heq2; rw [heq2] at h2; exact h2
      · rename_i heq2; rw [heq2] at h2
        exact notify_inv _ _ _ (save_inv env now _ h2)

theorem reset_inv (env : Env) (now : Int) (s : State) (hinv : StoreInv s) :
    StoreInv (reset env now s) := by
  unfold reset
  exact notify_inv _ _ _ (save_inv env now _ (useDefaults_inv s s.heap hinv.1 (Keeps.refl _)).1)

theorem set_fields (s : State) (key : String) (value : Val) :
    Keeps s.heap (set s key value).1.heap ∧ (set s key value).1.data = s.data ∧
    (set s key value).1.defaultProgress = s.defaultProgress := by
  unfold set
  split
  · exact ⟨Keeps.refl _, rfl, rfl⟩
  · have hk := setNav_keeps (split key) s.heap s.data value
    split
    · rename_i heq; rw [heq] at hk; exact ⟨hk, rfl, rfl⟩
    · rename_i heq; rw [heq] at hk; rw [notifyListeners_eq]; exact ⟨hk, rfl, rfl⟩

theorem set_inv (s : State) (key : String) (value : Val) (hinv : StoreInv s) :
    StoreInv (set s key value).1 := by
  obtain ⟨h1, h2, h3⟩ := set_fields s key value
  exact storeInv_keeps s _ hinv h1 h3 h2

theorem Keeps.setElems (h : Heap) (a : Nat) (es : List (Option Val)) :
    Keeps h (h.set a { h.obj a with elems := es }) := by
  refine Keeps.set h a { h.obj a with elems := es } rfl ?_
  intro hna k hk
  simp only [Obj.has, Obj.own, Obj.proto, hna, Bool.false_eq_true, if_false] at hk ⊢
  exact hk

theorem Keeps.setProps (h : Heap) (a : Nat) (k : String) (v : Val) :
    Keeps h (h.set a { h.obj a with props := assocSet k v (h.obj a).props }) := by
  refine Keeps.set h a _ rfl ?_
  intro hna k' hk'
  rw [Obj.has_plain _ _ hna] at hk'
  apply (Obj.has_plain { h.obj a with props := assocSet k v (h.obj a).props } k' hna).mpr
  rcases hk' with hk' | hk'
  · exact Or.inl ((assocSet_keys _ _ _ _).mpr (Or.inr hk'))
  · exact Or.inr hk'

theorem addToArray_inv (s : State) (key : String) (item : Val) (hinv : StoreInv s) :
    StoreInv (addToArray s key item).1 := by
  unfold addToArray
  split
  · exact hinv
  · split
    · have hs : StoreInv { s with heap :=
          (s.heap.alloc { isArray := true, elems := [some item], props := [] }).1 } :=
        storeInv_keeps s _ hinv (Keeps.append _ _) rfl rfl
      have := set_inv _ key
        (Val.ref (s.heap.alloc { isArray := true, elems := [some item], props := [] }).2) hs
      split <;> (rename_i heq; rw [heq] at this; exact this)
    · split
      · split
        · exact hinv
        · split
          · split
            · exact hinv
            · split
              · rw [notifyListeners_eq]
                exact storeInv_keeps s _ hinv (Keeps.setElems s.heap _ _) rfl rfl
              · exact storeInv_keeps s _ hinv (Keeps.setProps s.heap _ _ _) rfl rfl
          · exact hinv
      · exact hinv

theorem removeFromArray_inv (s : State) (key : String) (item : Val) (hinv : StoreInv s) :
    StoreInv (removeFromArray s key item).1 := by
  unfold removeFromArray
  split
  · exact hinv
  · split
    · split
      · split
        · exact hinv
        · split
          · split
            · exact hinv
            · rw [notifyListeners_eq]
              exact storeInv_keeps s _ hinv (Keeps.setElems s.heap _ _) rfl rfl
          · exact hinv
      · exact hinv
    · exact hinv

theorem buildFields_keys (fs : List (String × Json)) :
    ∀ h : Heap, (Json.buildFields fs h).2.map Prod.fst = fs.map Prod.fst := by
  induction fs with
  | nil => intro h; simp [Json.buildFields]
  | cons p fs ih =>
    intro h
    obtain ⟨k, j⟩ := p
    rw [Json.buildFields]
    simp [ih]

theorem build_obj (fs : List (String × Json)) (h : Heap) :
    (Json.obj fs).build h =
      ((Json.buildFields fs h).1 ++ [Obj.mk false [] (fromEntries (Json.buildFields fs h).2)],
        Val.ref (Json.buildFields fs h).1.length) := by
  rw [Json.build]
  rfl

theorem moduleStart_inv (t0 : Int) (storage : LocalStorage) :
    DefaultsInv (moduleStart t0 storage) := by
  unfold DefaultsInv moduleStart defaultProgressJson
  simp only [build_obj]
  refine ⟨_, rfl, by simp, ?_, ?_⟩
  · rw [Heap.obj_append_new]
  · intro k hk
    rw [Heap.obj_append_new, Obj.has_plain _ _ rfl]
    left
    apply fromEntries_keys
    rw [buildFields_keys]
    simpa [defaultKeys] using hk

theorem construct_inv (env : Env) (t0 : Int) (storage : LocalStorage) :
    StoreInv (construct env t0 storage).1 := by
  have h := validateData_inv env _ (load_inv env _ (moduleStart_inv t0 storage))
  unfold construct
  split <;> (rename_i heq; rw [heq] at h; exact h)

/-- Every reachable state of the store satisfies the invariant. -/
theorem reachable_inv (env : Env) (s : State) (hr : Reachable env s) : StoreInv s := by
  induction hr with
  | construct t0 storage _ => exact construct_inv env t0 storage
  | storage s storage _ ih => exact storeInv_keeps s _ ih (Keeps.refl _) rfl rfl
  | load s _ ih => exact load_inv env s ih.1
  | save s now _ ih => exact save_inv env now s ih
  | importData s now payload _ ih => exact importData_inv env now s payload ih
  | reset s now _ ih => exact reset_inv env now s ih
  | set s key value _ ih => exact set_inv s key value ih
  | addToArray s key item _ ih => exact addToArray_inv s key item ih
  | removeFromArray s key item _ ih => exact removeFromArray_inv s key item ih
  | addListener s l _ ih =>
    unfold addListener
    split
    · exact ih
    · exact storeInv_keeps s _ ih (Keeps.refl _) rfl rfl
  | removeListener s id _ ih => exact storeInv_keeps s _ ih (Keeps.refl _) rfl rfl

/-- C18 (fails as stated): the state after `set('settings', 5)` on a new store is
reachable, and so is the state after `load()` of a persisted `{"settings":5}`;
in both the path `settings.soundEnabled` of the default document no longer
exists in the document in memory. -/
theorem C18_nested_default_paths_can_vanish :
    Reachable Env.sample
      (set (construct Env.sample 0 ⟨none, false, false⟩).1 "settings" (Val.num 5)).1 ∧
    follow (set (construct Env.sample 0 ⟨none, false, false⟩).1 "settings" (Val.num 5)).1.heap
      (set (construct Env.sample 0 ⟨none, false, false⟩).1 "settings" (Val.num 5)).1.data
      ["settings", "soundEnabled"] = none ∧
    Reachable Env.sample
      (load Env.sample { (construct Env.sample 0 ⟨none, false, false⟩).1 with
        storage := ⟨some "\x7b\"settings\":5\x7d", false, false⟩ }) ∧
    follow (load Env.sample { (construct Env.sample 0 ⟨none, false, false⟩).1 with
        storage := ⟨some "\x7b\"settings\":5\x7d", false, false⟩ }).heap
      (load Env.sample { (construct Env.sample 0 ⟨none, false, false⟩).1 with
        storage := ⟨some "\x7b\"settings\":5\x7d", false, false⟩ }).data
      ["settings", "soundEnabled"] = none ∧
    follow (moduleStart 0 ⟨none, false, false⟩).heap
      (moduleStart 0 ⟨none, false, false⟩).defaultProgress
      ["settings", "soundEnabled"] = some (Val.bool true) :=
  ⟨Reachable.set _ _ _ (Reachable.construct 0 _ (by decide)), by decide,
    Reachable.load _ (Reachable.storage _ _ (Reachable.construct 0 _ (by decide))), by decide,
    by decide⟩

/-- C18 (amended): in every reachable state (after construction, and after any
sequence of load, save, import, reset, set, addToArray and removeFromArray
with arbitrary payloads and arguments) the document in memory is an object
that has every top-level property of the default document. -/
theorem C18_top_level_default_keys_stay (env : Env) (s : State) (hr : Reachable env s) :
    HasDefaultKeys s := by
  obtain ⟨-, m, h1, -, -, h4⟩ := reachable_inv env s hr
  exact ⟨m, h1, h4⟩

/-- Witness for C18: the state after `set('settings', 5)` on a new store. -/
theorem C18_top_level_default_keys_stay_witness :
    HasDefaultKeys
      (set (construct Env.sample 0 ⟨none, false, false⟩).1 "settings" (Val.num 5)).1 :=
  C18_top_level_default_keys_stay Env.sample _
    (Reachable.set _ _ _ (Reachable.construct 0 _ (by decide)))

end Store

/-! ## The gesture recognizer: double-tap suppression -/

namespace Touch

theorem preventDoubleTapZoom_eq (currentTime : Int) :
    (preventDoubleTapZoom currentTime).1 = decide (0 < currentTime ∧ currentTime < 500) := by
  simp only [preventDoubleTapZoom, sub_zero]
  by_cases h1 : currentTime < 500 <;> by_cases h2 : 0 < currentTime <;> simp [h1, h2]

/-- C21: `preventDoubleTapZoom` keeps no state between calls. Whatever
`touchstart` events came earlier, the outcome of a run is that of a run on its
own, and it is decided by the clock alone: `preventDefault` is called exactly
when the clock lies strictly between 0 and 500 ms since the epoch. So with a
clock of at least 500 ms neither the first `touchstart` nor a second one that
follows it, however soon, is suppressed. -/
theorem C21_double_tap_is_never_suppressed (earlier : List Int) (first second : Int)
    (hfirst : 500 ≤ first) (hafter : first ≤ second) :
    (∀ t, touchStarts (earlier ++ [t]) = touchStarts earlier ++ [(preventDoubleTapZoom t).1]) ∧
    (∀ t, (preventDoubleTapZoom t).1 = decide (0 < t ∧ t < 500)) ∧
    (∀ t, 500 ≤ t → (preventDoubleTapZoom t).1 = false) ∧
    touchStarts (earlier ++ [first, second]) = touchStarts earlier ++ [false, false] := by
  have hge : ∀ t, 500 ≤ t → (preventDoubleTapZoom t).1 = false := by
    intro t ht
    rw [preventDoubleTapZoom_eq]
    simp only [decide_eq_false_iff_not, not_and, not_lt]
    intro _
    exact ht
  refine ⟨fun t => by simp [touchStarts], preventDoubleTapZoom_eq, hge, ?_⟩
  have h2 : 500 ≤ second := le_trans hfirst hafter
  simp [touchStarts, hge first hfirst, hge second h2]

theorem C21_double_tap_is_never_suppressed_witness :
    touchStarts ([100, 300] ++ [1000, 1200]) = touchStarts [100, 300] ++ [false, false] :=
  (C21_double_tap_is_never_suppressed [100, 300] 1000 1200 (by decide) (by decide)).2.2.2

end Touch

/-! ## The progress store: what `set` leaves alone -/

namespace Store

theorem commonPrefix_spec : ∀ (l₁ l₂ : List String), ¬ l₁ <+: l₂ → ¬ l₂ <+: l₁ →
    ∃ k ps k' qs, l₁ = commonPrefix l₁ l₂ ++ k :: ps ∧ l₂ = commonPrefix l₁ l₂ ++ k' :: qs ∧
      k ≠ k'
  | [], l₂, h1, _ => absurd (List.nil_prefix) h1
  | _ :: _, [], _, h2 => absurd (List.nil_prefix) h2
  | a :: as, b :: bs, h1, h2 => by
    by_cases hab : a = b
    · subst hab
      have h1' : ¬ as <+: bs := fun h => h1 ((List.prefix_cons_inj a).2 h)
      have h2' : ¬ bs <+: as := fun h => h2 ((List.prefix_cons_inj a).2 h)
      obtain ⟨k, ps, k', qs, e1, e2, hne⟩ := commonPrefix_spec as bs h1' h2'
      refine ⟨k, ps, k', qs, ?_, ?_, hne⟩
      · simp only [commonPrefix, if_true, List.cons_append]; rw [← e1]
      · simp only [commonPrefix, if_true, List.cons_append]; rw [← e2]
    · exact ⟨a, as, b, bs, by simp [commonPrefix, hab], by simp [commonPrefix, hab], hab⟩

/-- A read on a prototype object never returns an object of the heap. -/
theorem Proto.get_ne_ref (p : Proto) (k : String) (a : Nat) :
    (p.get k).getD Val.undefined ≠ Val.ref a := by
  intro h
  have hc : (truthy ((p.get k).getD Val.undefined) &&
      typeofObject ((p.get k).getD Val.undefined)) = true := by rw [h]; rfl
  obtain ⟨q, hq⟩ := Proto.get_cases p k hc
  rw [hq] at h
  exact Val.noConfusion h

/-- The navigation of `get` from a value that is not an object of the heap
does not depend on the heap. -/
theorem getNav_nonref (h h' : Heap) (ks : List String) :
    ∀ cur, (∀ a, cur ≠ Val.ref a) → getNav h' cur ks = getNav h cur ks := by
  induction ks with
  | nil => intro cur _; rfl
  | cons k ks ih =>
    intro cur hcur
    cases cur with
    | ref a => exact absurd rfl (hcur a)
    | proto p =>
      simp only [getNav, truthy, typeofObject, inOp, readProp, Bool.and_self, if_true]
      cases (p.get k).isSome with
      | false => rfl
      | true => exact ih _ (Proto.get_ne_ref p k)
    | _ => simp [getNav, truthy, typeofObject]

/-- The navigation of `get` gives the same result in two heaps that agree on
the properties it reads. -/
theorem getNav_congr (h h' : Heap) (ks : List String) :
    ∀ cur, (∀ r ∈ reads h cur ks, (h'.obj r.1).has r.2 = (h.obj r.1).has r.2 ∧
        (h'.obj r.1).get r.2 = (h.obj r.1).get r.2) →
      getNav h' cur ks = getNav h cur ks := by
  induction ks with
  | nil => intro cur _; rfl
  | cons k ks ih =>
    intro cur hr
    by_cases hcur : ∃ a, cur = Val.ref a
    · obtain ⟨a, rfl⟩ := hcur
      have h0 := hr (a, k) (by simp [reads])
      cases hh : (h.obj a).has k with
      | true =>
        have hh' : (h'.obj a).has k = true := by rw [h0.1, hh]
        simp only [getNav, truthy, typeofObject, inOp, readProp, hh, hh', Bool.and_self, if_true]
        rw [h0.2]
        exact ih _ (fun r hmem => hr r (by simp [reads, hh, hmem]))
      | false =>
        have hh' : (h'.obj a).has k = false := by rw [h0.1, hh]
        simp [getNav, truthy, typeofObject, inOp, hh, hh']
    · exact getNav_nonref h h' (k :: ks) cur (fun a ha => hcur ⟨a, ha⟩)

/-- An assignment to a plain object leaves the other properties alone. -/
theorem Obj.put_other (o o' : Obj) (k kk : String) (v : Val) (hplain : o.isArray = false)
    (hne : k ≠ kk) (hput : o.put k v = Except.ok o') :
    o'.has kk = o.has kk ∧ o'.get kk = o.get kk := by
  unfold Obj.put at hput
  split at hput
  · split at hput
    · cases hput
      exact ⟨rfl, rfl⟩
    · exact Except.noConfusion hput
  · rw [if_neg (by simp [hplain])] at hput
    cases hput
    have hown : ({ o with props := assocSet k v o.props } : Obj).own kk = o.own kk := by
      simp [Obj.own, hplain, assocGet_assocSet_ne k kk v o.props (Ne.symm hne)]
    unfold Obj.has Obj.get
    rw [hown]
    exact ⟨rfl, rfl⟩

/-- What `set` leaves alone among the objects that exist before the call, when
it does not end at a step that is not described: every property other than
the one it assigns, the elements of an array apart. The property assigned is
the last one of `steps`. -/
theorem setNav_frame (ks : List String) :
    ∀ (k : String) (h : Heap) (a : Nat) (v : Val) (b : Nat) (kk : String),
      b < h.length →
      (∀ st ∈ steps h (Val.ref a) (k :: ks), st.1 < h.length) →
      (∀ st, (steps h (Val.ref a) (k :: ks)).getLast? = some st → st.1 = b →
        st.2 ≠ kk ∧ (h.obj b).isArray = false) →
      (setNav h (Val.ref a) (k :: ks) v).2 ≠ Except.error Err.outside →
      ((setNav h (Val.ref a) (k :: ks) v).1.obj b).has kk = (h.obj b).has kk ∧
      ((setNav h (Val.ref a) (k :: ks) v).1.obj b).get kk = (h.obj b).get kk := by
  induction ks with
  | nil =>
    intro k h a v b kk hb _ hlast _
    rw [setNav_leaf]
    cases hput : (h.obj a).put k v with
    | error e => exact ⟨rfl, rfl⟩
    | ok o' =>
      simp only []
      by_cases hba : b = a
      · subst hba
        obtain ⟨hne, hplain⟩ := hlast (b, k) (by simp [steps_single]) rfl
        rw [Heap.obj_set_same h b o' hb]
        exact Obj.put_other _ _ k kk v hplain hne hput
      · rw [Heap.obj_set_ne h a b o' hba]
        exact ⟨rfl, rfl⟩
  | cons k' ks ih =>
    intro k h a v b kk hb hlt hlast hin
    have ha : a < h.length := hlt (a, k) (by rw [steps_cons]; simp)
    by_cases hc : (truthy ((h.obj a).get k) && typeofObject ((h.obj a).get k)) = true
    · rcases truthy_object_cases _ hc with ⟨c, hcr⟩ | ⟨q, hq⟩
      · rw [steps_enter h a c k k' ks hcr] at hlt hlast
        rw [setNav_enter h a c k k' ks v hcr] at hin ⊢
        refine ih k' h c v b kk hb
          (fun st hst => hlt st (List.mem_cons_of_mem _ hst)) ?_ hin
        intro st hst
        apply hlast st
        rw [getLast_cons_ne_nil _ _ (steps_ne_nil h c k' ks)]
        exact hst
      · exact absurd (setNav_enter_proto h a q k k' ks v hq) hin
    · rw [steps_stop h a k k' ks hc] at hlt hlast
      have hb1 : Heap.obj (h ++ [Obj.empty]) b = h.obj b := Heap.obj_append_lt h _ b hb
      rcases setNav_create h a k k' ks v ha hc with ⟨-, -, hout⟩ | ⟨o', hput, -, -, hgo⟩
      · rw [hout] at hin
        exact absurd rfl hin
      · rw [hgo] at hin ⊢
        have ha1 : a < (h ++ [Obj.empty]).length := by simp; omega
        have hfresh : Heap.obj ((h ++ [Obj.empty]).set a o') h.length = Obj.empty := by
          rw [Heap.obj_set_ne _ a _ o' (by omega), Heap.obj_append_new]
        have hb2 : b < ((h ++ [Obj.empty]).set a o').length := by simp; omega
        have hstep := ih k' ((h ++ [Obj.empty]).set a o') h.length v b kk hb2
          (by
            intro st hst
            rw [steps_fresh _ _ _ _ hfresh] at hst
            simp only [List.mem_singleton] at hst
            subst hst
            simp)
          (by
            intro st hst hst1
            rw [steps_fresh _ _ _ _ hfresh] at hst
            simp only [List.getLast?_singleton, Option.some.injEq] at hst
            subst hst
            simp only at hst1
            omega)
          hin
        rw [hstep.1, hstep.2]
        by_cases hba : b = a
        · subst hba
          obtain ⟨hne, hplain⟩ := hlast (b, k) (by simp) rfl
          rw [Heap.obj_set_same _ b o' ha1]
          exact Obj.put_other _ _ k kk _ hplain hne hput
        · rw [Heap.obj_set_ne _ a b o' hba, hb1]
          exact ⟨rfl, rfl⟩

theorem append_cons_ne_nil (pre : List String) (k : String) (ps : List String) :
    ∃ k₁ rest, pre ++ k :: ps = k₁ :: rest := by
  cases pre with
  | nil => exact ⟨k, ps, rfl⟩
  | cons a pre => exact ⟨a, pre ++ k :: ps, rfl⟩

theorem getNav_undefined_of_not_has (h : Heap) (a : Nat) (k : String) (ks : List String)
    (hh : (h.obj a).has k = false) : getNav h (Val.ref a) (k :: ks) = Except.ok Val.undefined := by
  simp [getNav, truthy, typeofObject, inOp, hh]

theorem fresh_after_create (h : Heap) (a : Nat) (o' : Obj) (ha : a < h.length) :
    Heap.obj ((h ++ [Obj.empty]).set a o') h.length = Obj.empty := by
  rw [Heap.obj_set_ne _ a _ o' (by omega), Heap.obj_append_new]

/-- In the objects `set` creates, a path that parts from the path of `set`
with a segment that a new object does not inherit is not there. -/
theorem getNav_created (k k' : String) (ps qs : List String) (v : Val) (hne : k ≠ k')
    (hfree : Obj.empty.has k' = false) :
    ∀ (pre : List String) (h : Heap) (n : Nat), h.obj n = Obj.empty → n < h.length →
      (setNav h (Val.ref n) (pre ++ k :: ps) v).2 ≠ Except.error Err.outside →
      getNav (setNav h (Val.ref n) (pre ++ k :: ps) v).1 (Val.ref n) (pre ++ k' :: qs)
        = Except.ok Val.undefined := by
  intro pre
  induction pre with
  | nil =>
    intro h n hn hlt hin
    simp only [List.nil_append] at hin ⊢
    apply getNav_undefined_of_not_has
    have hf := setNav_frame ps k h n v n k' hlt
      (by
        intro st hst
        rw [steps_fresh _ _ _ _ hn] at hst
        simp only [List.mem_singleton] at hst
        subst hst
        exact hlt)
      (by
        intro st hst _
        rw [steps_fresh _ _ _ _ hn] at hst
        simp only [List.getLast?_singleton, Option.some.injEq] at hst
        subst hst
        exact ⟨hne, by rw [hn]; rfl⟩)
      hin
    rw [hf.1, hn]
    exact hfree
  | cons k₀ pre ih =>
    intro h n hn hlt hin
    obtain ⟨k₁, rest, hrest⟩ := append_cons_ne_nil pre k ps
    simp only [List.cons_append] at hin ⊢
    rw [hrest] at hin ⊢
    by_cases hc : (truthy ((h.obj n).get k₀) && typeofObject ((h.obj n).get k₀)) = true
    · rw [hn] at hc
      have hq := (Obj.empty_get_cases k₀ hc).2
      rw [← hn] at hq
      exact absurd (setNav_enter_proto h n _ k₀ k₁ rest v hq) hin
    · rcases setNav_create h n k₀ k₁ rest v hlt hc with ⟨-, -, hout⟩ | ⟨o', hput, hown, -, hset⟩
      · rw [hout] at hin
        exact absurd rfl hin
      · rw [hset] at hin ⊢
        have hfresh := fresh_after_create h n o' hlt
        have hn2 : n < ((h ++ [Obj.empty]).set n o').length := by simp; omega
        have hf := setNav_frame rest k₁ ((h ++ [Obj.empty]).set n o') h.length v n k₀ hn2
          (by
            intro st hst
            rw [steps_fresh _ _ _ _ hfresh] at hst
            simp only [List.mem_singleton] at hst
            subst hst
            simp)
          (by
            intro st hst hst1
            rw [steps_fresh _ _ _ _ hfresh] at hst
            simp only [List.getLast?_singleton, Option.some.injEq] at hst
            subst hst
            simp only at hst1
            omega)
          hin
        have hlt1 : n < (h ++ [Obj.empty]).length := by simp; omega
        rw [Heap.obj_set_same _ n o' hlt1] at hf
        rw [getNav_step _ n h.length k₀ _ (by rw [hf.2]; exact Obj.get_of_own _ _ _ hown)]
        rw [← hrest] at hin ⊢
        exact ih _ h.length hfresh (by simp) hin

theorem fst_nodup_eq {l : List (Nat × String)} (hnd : (l.map Prod.fst).Nodup)
    {x y : Nat × String} (hx : x ∈ l) (hy : y ∈ l) (hxy : x.1 = y.1) : x = y := by
  induction l with
  | nil => simp at hx
  | cons z l ih =>
    simp only [List.map_cons, List.nodup_cons, List.mem_map, not_exists, not_and] at hnd
    simp only [List.mem_cons] at hx hy
    rcases hx with rfl | hx <;> rcases hy with rfl | hy
    · rfl
    · exact absurd hxy.symm (hnd.1 y hy)
    · exact absurd hxy (hnd.1 x hx)
    · exact ih hnd.2 hx hy

/-- The frame of `set` along two paths that part after the common prefix `pre`. -/
theorem getNav_setNav_parted (k k' : String) (ps qs : List String) (v : Val) (hne : k ≠ k') :
    ∀ (pre : List String) (h : Heap) (a : Nat),
      (∀ st ∈ steps h (Val.ref a) (pre ++ k :: ps), st.1 < h.length) →
      ((steps h (Val.ref a) (pre ++ k :: ps)).map Prod.fst).Nodup →
      (∀ r, (reads h (Val.ref a) (pre ++ k' :: qs)).get? pre.length = some r →
        (h.obj r.1).isArray = false) →
      (∀ r ∈ (reads h (Val.ref a) (pre ++ k' :: qs)).drop (pre.length + 1),
        r.1 < h.length ∧ r.1 ∉ (steps h (Val.ref a) (pre ++ k :: ps)).map Prod.fst) →
      ((steps h (Val.ref a) (pre ++ k :: ps)).length ≤ pre.length → Obj.empty.has k' = false) →
      (setNav h (Val.ref a) (pre ++ k :: ps) v).2 ≠ Except.error Err.outside →
      getNav (setNav h (Val.ref a) (pre ++ k :: ps) v).1 (Val.ref a) (pre ++ k' :: qs)
        = getNav h (Val.ref a) (pre ++ k' :: qs) := by
  intro pre
  induction pre with
  | nil =>
    intro h a hlt hnd hpart hapart _ hin
    simp only [List.nil_append, List.length_nil, Nat.zero_add] at *
    have hhead : (a, k) ∈ steps h (Val.ref a) (k :: ps) := by
      cases ps with
      | nil => simp [steps_single]
      | cons k₁ ps => simp [steps_cons]
    have ha : a < h.length := hlt _ hhead
    apply getNav_congr
    intro r hr
    simp only [reads, List.mem_cons] at hr
    rcases hr with rfl | hr
    · refine setNav_frame ps k h a v a k' ha hlt ?_ hin
      intro st hst hst1
      have hmem : st ∈ steps h (Val.ref a) (k :: ps) := List.mem_of_getLast?_eq_some hst
      have : st = (a, k) := fst_nodup_eq hnd hmem hhead hst1
      subst this
      exact ⟨hne, hpart (a, k') (by simp [reads])⟩
    · have hr' : r ∈ (reads h (Val.ref a) (k' :: qs)).drop 1 := by
        simp only [reads, List.drop_succ_cons, List.drop_zero]
        exact hr
      obtain ⟨hr1, hr2⟩ := hapart r hr'
      refine setNav_frame ps k h a v r.1 r.2 hr1 hlt ?_ hin
      intro st hst hst1
      exfalso
      apply hr2
      rw [← hst1]
      exact List.mem_map_of_mem _ (List.mem_of_getLast?_eq_some hst)
  | cons k₀ pre ih =>
    intro h a hlt hnd hpart hapart hfree hin
    obtain ⟨k₁, rest, hrest⟩ := append_cons_ne_nil pre k ps
    obtain ⟨q₁, qrest, hqrest⟩ := append_cons_ne_nil pre k' qs
    simp only [List.cons_append, List.length_cons] at *
    have ha : a < h.length := hlt (a, k₀) (by rw [hrest, steps_cons]; simp)
    by_cases hc : (truthy ((h.obj a).get k₀) && typeofObject ((h.obj a).get k₀)) = true
    · rcases truthy_object_cases _ hc with ⟨c, hcr⟩ | ⟨q, hq⟩
      · have hhas : (h.obj a).has k₀ = true := Obj.has_of_get_ref _ _ _ hcr
        have hsteps : steps h (Val.ref a) (k₀ :: (pre ++ k :: ps))
            = (a, k₀) :: steps h (Val.ref c) (pre ++ k :: ps) := by
          rw [hrest]
          exact steps_enter h a c k₀ k₁ rest hcr
        rw [hsteps] at hlt hnd hapart hfree
        simp only [List.map_cons, List.nodup_cons] at hnd
        have hset : setNav h (Val.ref a) (k₀ :: (pre ++ k :: ps)) v
            = setNav h (Val.ref c) (pre ++ k :: ps) v := by
          rw [hrest]
          exact setNav_enter h a c k₀ k₁ rest v hcr
        rw [hset] at hin ⊢
        have hreads : reads h (Val.ref a) (k₀ :: (pre ++ k' :: qs))
            = (a, k₀) :: reads h (Val.ref c) (pre ++ k' :: qs) := by
          simp [reads, hhas, hcr]
        rw [hreads] at hpart hapart
        have hf : ((setNav h (Val.ref c) (pre ++ k :: ps) v).1.obj a).has k₀ = (h.obj a).has k₀ ∧
            ((setNav h (Val.ref c) (pre ++ k :: ps) v).1.obj a).get k₀ = (h.obj a).get k₀ := by
          rw [hrest] at hin ⊢
          refine setNav_frame rest k₁ h c v a k₀ ha ?_ ?_ hin
          · intro st hst
            rw [← hrest] at hst
            exact hlt st (List.mem_cons_of_mem _ hst)
          · intro st hst hst1
            exfalso
            apply hnd.1
            rw [← hst1]
            rw [← hrest] at hst
            exact List.mem_map_of_mem _ (List.mem_of_getLast?_eq_some hst)
        rw [getNav_step _ a c k₀ _ (by rw [hf.2, hcr]), getNav_step h a c k₀ _ hcr]
        refine ih h c (fun st hst => hlt st (List.mem_cons_of_mem _ hst)) hnd.2 ?_ ?_ ?_ hin
        · intro r hr
          exact hpart r (by simpa using hr)
        · intro r hr
          obtain ⟨h1, h2⟩ := hapart r (by simpa using hr)
          refine ⟨h1, ?_⟩
          intro hmem
          apply h2
          simp only [List.map_cons, List.mem_cons]
          exact Or.inr hmem
        · intro hle
          exact hfree (by simp only [List.length_cons]; omega)
      · exfalso
        apply hin
        rw [hrest]
        exact setNav_enter_proto h a q k₀ k₁ rest v hq
    · have hc' : (truthy ((h.obj a).get k₀) && typeofObject ((h.obj a).get k₀)) = false := by
        simpa using hc
      have hbefore : getNav h (Val.ref a) (k₀ :: (pre ++ k' :: qs)) = Except.ok Val.undefined := by
        rw [hqrest]
        cases hh : (h.obj a).has k₀ with
        | true =>
          simp only [getNav, truthy, typeofObject, inOp, hh, readProp, Bool.and_self, if_true]
          exact getNav_not_object h _ q₁ qrest hc'
        | false => simp [getNav, truthy, typeofObject, inOp, hh]
      have hk' : Obj.empty.has k' = false := by
        apply hfree
        rw [hrest, steps_stop h a k₀ k₁ rest hc]
        simp
      rw [hbefore]
      rw [hrest] at hin ⊢
      rcases setNav_create h a k₀ k₁ rest v ha hc with ⟨-, -, hout⟩ | ⟨o', hput, hown, -, hset⟩
      · rw [hout] at hin
        exact absurd rfl hin
      · rw [hset] at hin ⊢
        have hfresh := fresh_after_create h a o' ha
        have ha2 : a < ((h ++ [Obj.empty]).set a o').length := by simp; omega
        have hf := setNav_frame rest k₁ ((h ++ [Obj.empty]).set a o') h.length v a k₀
          ha2
          (by
            intro st hst
            rw [steps_fresh _ _ _ _ hfresh] at hst
            simp only [List.mem_singleton] at hst
            subst hst
            simp)
          (by
            intro st hst hst1
            rw [steps_fresh _ _ _ _ hfresh] at hst
            simp only [List.getLast?_singleton, Option.some.injEq] at hst
            subst hst
            simp only at hst1
            omega)
          hin
        have ha1 : a < (h ++ [Obj.empty]).length := by simp; omega
        rw [Heap.obj_set_same _ a o' ha1] at hf
        rw [getNav_step _ a h.length k₀ _ (by rw [hf.2]; exact Obj.get_of_own _ _ _ hown)]
        rw [← hrest] at hin ⊢
        exact getNav_created k k' ps qs v hne hk' pre _ h.length hfresh (by simp) hin

theorem set_heap (s : State) (p : String) (v : Val) (hp : p ≠ "") :
    (set s p v).1.heap = (setNav s.heap s.data (split p) v).1 ∧ (set s p v).1.data = s.data ∧
    (set s p v).2 = (setNav s.heap s.data (split p) v).2.map (fun _ => true) := by
  unfold set
  rw [if_neg hp]
  split
  · rename_i heq; rw [heq]; exact ⟨rfl, rfl, rfl⟩
  · rename_i heq; rw [heq, notifyListeners_eq]; exact ⟨rfl, rfl, rfl⟩

/-- C22 (fails as stated): on the document of a new store the paths
`visitedApps.0` and `visitedApps.length` part at their second segment, yet
`set('visitedApps.0', 'mail')` changes what `get('visitedApps.length')` returns,
from 0 to 1: the object at which the paths part is an array. And the paths
`theme.name` and `theme.toString` part at their second segment, yet
`set('theme.name', 'dark')` changes what `get('theme.toString')` returns, from
`undefined` to `Object.prototype.toString`: the object `set` creates at `theme`
inherits it. -/
theorem C22_set_changes_other_paths :
    (¬ (split "visitedApps.0" <+: split "visitedApps.length") ∧
    ¬ (split "visitedApps.length" <+: split "visitedApps.0") ∧
    get (freshStore 0) (some "visitedApps.length") = Except.ok (Val.num 0) ∧
    (set (freshStore 0) "visitedApps.0" (Val.str "mail")).2 = Except.ok true ∧
    get (set (freshStore 0) "visitedApps.0" (Val.str "mail")).1 (some "visitedApps.length")
      = Except.ok (Val.num 1)) ∧
    (¬ (split "theme.name" <+: split "theme.toString") ∧
    ¬ (split "theme.toString" <+: split "theme.name") ∧
    get (freshStore 0) (some "theme.toString") = Except.ok Val.undefined ∧
    (set (freshStore 0) "theme.name" (Val.str "dark")).2 = Except.ok true ∧
    get (set (freshStore 0) "theme.name" (Val.str "dark")).1 (some "theme.toString")
      = Except.ok (Val.fn "Object.prototype.toString")) := by
  decide

/-- C22 (amended): `set` changes nothing but the addressed path on a document
without sharing. Let neither of the segment sequences of `p` and `q` be a
prefix of the other. If the objects `set(p, v)` passes through exist and are
pairwise distinct, the object at which the two paths part is not an array, the
objects `get(q)` passes through after that point exist and are none of those
`set(p, v)` passes through, the segment with which `q` parts is not one a new
empty object inherits in case `set` creates the object at which the paths
part, and the call does not end at a step that is not described (an
assignment to a builtin prototype object, a change of a prototype), then
`get(q)` after `set(p, v)` returns what it returned before, whether `set`
returned or raised. -/
theorem C22_set_leaves_other_paths (s : State) (p q : String) (v : Val)
    (hpq : ¬ split p <+: split q) (hqp : ¬ split q <+: split p)
    (hlt : ∀ st ∈ steps s.heap s.data (split p), st.1 < s.heap.length)
    (hnd : ((steps s.heap s.data (split p)).map Prod.fst).Nodup)
    (hpart : ∀ r, (reads s.heap s.data (split q)).get?
        (commonPrefix (split p) (split q)).length = some r → (s.heap.obj r.1).isArray = false)
    (hapart : ∀ r ∈ (reads s.heap s.data (split q)).drop
        ((commonPrefix (split p) (split q)).length + 1),
      r.1 < s.heap.length ∧ r.1 ∉ (steps s.heap s.data (split p)).map Prod.fst)
    (hfree : (steps s.heap s.data (split p)).length ≤ (commonPrefix (split p) (split q)).length →
      ∀ k' ∈ (split q).get? (commonPrefix (split p) (split q)).length,
        Obj.empty.has k' = false)
    (hin : (set s p v).2 ≠ Except.error Err.outside) :
    get (set s p v).1 (some q) = get s (some q) := by
  by_cases hp : p = ""
  · subst hp
    simp [set]
  · obtain ⟨hheap, hdata, hres⟩ := set_heap s p v hp
    by_cases hq : q = ""
    · subst hq
      simp [get, hdata]
    · simp only [get, hq, if_false, hheap, hdata]
      by_cases hcur : ∃ a, s.data = Val.ref a
      · obtain ⟨a, ha⟩ := hcur
        have hin' : (setNav s.heap s.data (split p) v).2 ≠ Except.error Err.outside := by
          intro h
          apply hin
          rw [hres, h]
          rfl
        obtain ⟨k, ps, k', qs, e1, e2, hne⟩ := commonPrefix_spec _ _ hpq hqp
        generalize commonPrefix (split p) (split q) = pre at e1 e2 hpart hapart hfree
        have hk' : (split q).get? pre.length = some k' := by
          rw [e2, List.get?_eq_getElem?, List.getElem?_append_right (Nat.le_refl _)]
          simp
        rw [e1] at hlt hnd hapart hfree hin' ⊢
        rw [e2] at hpart hapart ⊢
        rw [ha] at hlt hnd hpart hapart hfree hin' ⊢
        exact getNav_setNav_parted k k' ps qs v hne pre s.heap a hlt hnd hpart hapart
          (fun hle => hfree hle k' hk') hin'
      · exact getNav_nonref _ _ _ _ (fun a ha => hcur ⟨a, ha⟩)

/-- Witness for C22: on a new store, two settings of the existing object
`settings`, and two paths into an object `set` creates. -/
theorem C22_set_leaves_other_paths_witness :
    get (set (freshStore 0) "settings.soundEnabled" (Val.bool false)).1
        (some "settings.debugMode")
      = get (freshStore 0) (some "settings.debugMode") ∧
    get (set (freshStore 0) "theme.name" (Val.str "dark")).1 (some "theme.colour")
      = get (freshStore 0) (some "theme.colour") :=
  ⟨C22_set_leaves_other_paths (freshStore 0) "settings.soundEnabled" "settings.debugMode"
      (Val.bool false) (by decide) (by decide) (by decide) (by decide) (by decide) (by decide)
      (by decide) (by decide),
    C22_set_leaves_other_paths (freshStore 0) "theme.name" "theme.colour"
      (Val.str "dark") (by decide) (by decide) (by decide) (by decide) (by decide) (by decide)
      (by decide) (by decide)⟩

end Store

/-! ## The progress store: removal from an array -/

namespace Store

theorem indexOf_lt_iff_mem {α : Type} [BEq α] [LawfulBEq α] (a : α) (l : List α) :
    l.indexOf a < l.length ↔ a ∈ l := by
  induction l with
  | nil => simp [List.indexOf]
  | cons b l ih =>
    by_cases hb : b = a
    · subst hb; simp [List.indexOf_cons]
    · have hb' : (b == a) = false := by simpa using hb
      rw [List.indexOf_cons, hb']
      simp only [cond_false, List.length_cons, Nat.succ_lt_succ_iff, List.mem_cons, ih]
      constructor
      · exact Or.inr
      · rintro (h | h)
        · exact absurd h.symm hb
        · exact h

theorem eraseIdx_indexOf {α : Type} [BEq α] [LawfulBEq α] (a : α) (l : List α) :
    l.eraseIdx (l.indexOf a) = l.erase a := by
  induction l with
  | nil => simp [List.indexOf]
  | cons b l ih =>
    by_cases hb : b = a
    · subst hb; simp [List.indexOf_cons]
    · have hb' : (b == a) = false := by simpa using hb
      rw [List.indexOf_cons, hb', List.erase_cons_tail (by simpa using hb')]
      simp [ih]

theorem indexOf_spec (o : Obj) (x : Val) (hx : x ≠ Val.nan) :
    (indexOf o x = none ∧ some x ∉ o.elems) ∨
    (indexOf o x = some (o.elems.indexOf (some x)) ∧ some x ∈ o.elems) := by
  unfold indexOf
  rw [if_neg hx]
  by_cases hi : o.elems.indexOf (some x) < o.elems.length
  · right
    simp only [hi, if_true, true_and]
    exact (indexOf_lt_iff_mem _ _).mp hi
  · left
    simp only [hi, if_false, true_and]
    intro hmem
    exact hi ((indexOf_lt_iff_mem _ _).mpr hmem)

theorem stored_erase (es : List (Option Val)) (x : Val) :
    (es.erase (some x)).filterMap id = (es.filterMap id).erase x := by
  induction es with
  | nil => rfl
  | cons e es ih =>
    cases e with
    | none =>
      rw [List.erase_cons_tail (by simp)]
      simp [List.filterMap_cons, ih]
    | some y =>
      by_cases hy : y = x
      · subst hy
        simp [List.filterMap_cons]
      · rw [List.erase_cons_tail (by simpa using hy)]
        simp only [List.filterMap_cons, id]
        rw [List.erase_cons_tail (by simpa using hy), ih]

theorem not_mem_of_not_includes (o : Obj) (x : Val) (hinc : includes o x = false) :
    some x ∉ o.elems ∧ x ∉ stored o := by
  have h : x ∉ o.elems.map (fun e => e.getD Val.undefined) := by
    intro hmem
    have : includes o x = true := by simpa [includes] using hmem
    rw [hinc] at this
    exact Bool.noConfusion this
  constructor
  · intro hmem
    exact h (List.mem_map.mpr ⟨some x, hmem, rfl⟩)
  · intro hmem
    simp only [stored, List.mem_filterMap, id] at hmem
    obtain ⟨e, he, hex⟩ := hmem
    subst hex
    exact h (List.mem_map.mpr ⟨some x, he, rfl⟩)

/-- The elements `removeFromArray` leaves in the array at the path. -/
theorem removeFromArray_elems (s : State) (p : String) (x : Val) (a : Nat)
    (hget : get s (some p) = Except.ok (Val.ref a))
    (harr : (s.heap.obj a).isArray = true)
    (hindexOf : (s.heap.obj a).get "indexOf" = Val.fn "Array.prototype.indexOf")
    (hsplice : (s.heap.obj a).get "splice" = Val.fn "Array.prototype.splice")
    (hx : x ≠ Val.nan) :
    ((removeFromArray s p x).1.heap.obj a).elems = (s.heap.obj a).elems.erase (some x) := by
  rcases indexOf_spec (s.heap.obj a) x hx with ⟨hidx, hmem⟩ | ⟨hidx, -⟩
  · rw [removeFromArray_absent s p x a hget harr hindexOf hidx, List.erase_of_not_mem hmem]
  · rw [removeFromArray_present s p x a _ hget harr hindexOf hsplice hidx]
    simp only [notifyListeners_eq, Heap.obj_set_same _ _ _ (isArray_lt _ _ harr), splice1]
    exact eraseIdx_indexOf _ _

/-- The array `addToArray` leaves at the path, when it is an array already that
has the builtin methods and is not full. -/
theorem addToArray_elems (s : State) (p : String) (x : Val) (a : Nat)
    (hget : get s (some p) = Except.ok (Val.ref a))
    (harr : (s.heap.obj a).isArray = true)
    (hincl : (s.heap.obj a).get "includes" = Val.fn "Array.prototype.includes")
    (hpush : (s.heap.obj a).get "push" = Val.fn "Array.prototype.push")
    (hroom : (s.heap.obj a).elems.length < 4294967295) :
    get (addToArray s p x).1 (some p) = Except.ok (Val.ref a) ∧
    ((addToArray s p x).1.heap.obj a).isArray = true ∧
    (∀ k, arrayIndex k = none → k ≠ "length" →
      ((addToArray s p x).1.heap.obj a).get k = (s.heap.obj a).get k) ∧
    ((addToArray s p x).1.heap.obj a).elems =
      if includes (s.heap.obj a) x then (s.heap.obj a).elems
      else (s.heap.obj a).elems ++ [some x] := by
  by_cases hinc : includes (s.heap.obj a) x = true
  · rw [addToArray_present s p x a hget harr hincl hinc]
    simp [hget, harr, hinc]
  · have hinc' : includes (s.heap.obj a) x = false := by simpa using hinc
    have ha := isArray_lt _ _ harr
    rw [addToArray_absent s p x a hget harr hincl hpush hroom hinc']
    simp only [notifyListeners_eq, Heap.obj_set_same _ _ _ ha, hinc', Bool.false_eq_true,
      if_false]
    refine ⟨?_, by simpa [push] using harr, fun k h1 h2 => push_get_name _ _ _ h1 h2,
      by simp [push]⟩
    by_cases hp : p = ""
    · subst hp
      simpa [get] using hget
    · simp only [get, hp, if_false] at hget ⊢
      exact getNav_push s.heap a x harr _ _ hget

/-- What holds of `removeFromArray` for every item other than `NaN`, on an
array that has the builtin methods and is not full: the call removes exactly
the first element equal to `x` and keeps every other element, holes included,
in its original order. Hence, if no value is stored twice in the array, `x` is
not stored in it afterwards; `removeFromArray` and `addToArray` both leave an
array in which no value is stored twice; and if the array does not contain
`x`, `addToArray(path, x)` followed by `removeFromArray(path, x)` leaves the
elements it had. -/
theorem removeFromArray_first_occurrence (s : State) (p : String) (x : Val)
    (a : Nat) (hget : get s (some p) = Except.ok (Val.ref a))
    (harr : (s.heap.obj a).isArray = true)
    (hincl : (s.heap.obj a).get "includes" = Val.fn "Array.prototype.includes")
    (hpush : (s.heap.obj a).get "push" = Val.fn "Array.prototype.push")
    (hindexOf : (s.heap.obj a).get "indexOf" = Val.fn "Array.prototype.indexOf")
    (hsplice : (s.heap.obj a).get "splice" = Val.fn "Array.prototype.splice")
    (hroom : (s.heap.obj a).elems.length < 4294967295)
    (hx : x ≠ Val.nan) :
    ((removeFromArray s p x).1.heap.obj a).elems = (s.heap.obj a).elems.erase (some x) ∧
    ((stored (s.heap.obj a)).Nodup →
      x ∉ stored ((removeFromArray s p x).1.heap.obj a) ∧
      (stored ((removeFromArray s p x).1.heap.obj a)).Nodup ∧
      (stored ((addToArray s p x).1.heap.obj a)).Nodup) ∧
    (includes (s.heap.obj a) x = false →
      ((removeFromArray (addToArray s p x).1 p x).1.heap.obj a).elems
        = (s.heap.obj a).elems) := by
  have hrem := removeFromArray_elems s p x a hget harr hindexOf hsplice hx
  obtain ⟨hget1, harr1, hsame, hadd⟩ := addToArray_elems s p x a hget harr hincl hpush hroom
  refine ⟨hrem, ?_, ?_⟩
  · intro hnd
    have hst : stored ((removeFromArray s p x).1.heap.obj a)
        = (stored (s.heap.obj a)).erase x := by
      simp only [stored, hrem, stored_erase]
    refine ⟨?_, ?_, ?_⟩
    · rw [hst]
      exact fun hmem => (List.Nodup.mem_erase_iff hnd).mp hmem |>.1 rfl
    · rw [hst]
      exact hnd.erase x
    · by_cases hinc : includes (s.heap.obj a) x = true
      · simp only [stored, hadd, hinc, if_true]
        exact hnd
      · have hinc' : includes (s.heap.obj a) x = false := by simpa using hinc
        simp only [stored, hadd, hinc', Bool.false_eq_true, if_false, List.filterMap_append,
          List.filterMap_cons, List.filterMap_nil, id]
        rw [List.nodup_append]
        refine ⟨hnd, by simp, ?_⟩
        intro y hy hy'
        simp only [List.mem_singleton] at hy'
        subst hy'
        exact (not_mem_of_not_includes _ _ hinc').2 hy
  · intro hinc
    rw [removeFromArray_elems _ p x a hget1 harr1
      (by rw [hsame _ (by decide) (by decide)]; exact hindexOf)
      (by rw [hsame _ (by decide) (by decide)]; exact hsplice) hx, hadd]
    simp only [hinc, Bool.false_eq_true, if_false]
    rw [List.erase_append_right _ (not_mem_of_not_includes _ _ hinc).1]
    simp

/-- C24 (fails on the code): the two methods do not agree on what it is for an
array to contain an item. `addToArray` asks `includes`, which finds `NaN`;
`removeFromArray` asks `indexOf`, which compares with `===` and never finds
`NaN`. On a new store `visitedApps` is an empty array; `addToArray('visitedApps',
NaN)` pushes `NaN`, a second `addToArray('visitedApps', NaN)` finds it there and
adds nothing, and `removeFromArray('visitedApps', NaN)` then removes nothing and
calls no listener: the first occurrence of the item is not removed, it is not
absent afterwards, and adding and removing it does not restore the array. For
the string "mail" the same calls restore the empty array. -/
theorem C24_NaN_is_never_removed :
    get (freshStore 0) (some "visitedApps") = Except.ok (Val.ref 1) ∧
    ((freshStore 0).heap.obj 1).isArray = true ∧
    ((freshStore 0).heap.obj 1).elems = [] ∧
    ((addToArray (freshStore 0) "visitedApps" Val.nan).1.heap.obj 1).elems = [some Val.nan] ∧
    includes ((addToArray (freshStore 0) "visitedApps" Val.nan).1.heap.obj 1) Val.nan = true ∧
    ((addToArray (addToArray (freshStore 0) "visitedApps" Val.nan).1 "visitedApps"
      Val.nan).1.heap.obj 1).elems = [some Val.nan] ∧
    indexOf ((addToArray (freshStore 0) "visitedApps" Val.nan).1.heap.obj 1) Val.nan = none ∧
    (removeFromArray (addToArray (freshStore 0) "visitedApps" Val.nan).1 "visitedApps"
      Val.nan).2 = Except.ok () ∧
    ((removeFromArray (addToArray (freshStore 0) "visitedApps" Val.nan).1 "visitedApps"
      Val.nan).1.heap.obj 1).elems = [some Val.nan] ∧
    (removeFromArray (addToArray (addListener (freshStore 0) ⟨1, false⟩) "visitedApps"
      Val.nan).1 "visitedApps" Val.nan).1.log
      = (addToArray (addListener (freshStore 0) ⟨1, false⟩) "visitedApps" Val.nan).1.log ∧
    ((removeFromArray (addToArray (freshStore 0) "visitedApps" (Val.str "mail")).1 "visitedApps"
      (Val.str "mail")).1.heap.obj 1).elems = [] := by
  decide

end Store

/-! ## The progress store: export and import -/

namespace Store

/-- Induction on a parsed text, the hypothesis given for every item of an
array and every member of an object. -/
theorem Json.induct (M : Json → Prop) (hnull : M Json.null) (hbool : ∀ b, M (Json.bool b))
    (hnum : ∀ n, M (Json.num n)) (hstr : ∀ s, M (Json.str s))
    (harr : ∀ items, (∀ j ∈ items, M j) → M (Json.arr items))
    (hobj : ∀ fields : List (String × Json), (∀ p ∈ fields, M p.2) → M (Json.obj fields)) :
    ∀ j, M j := by
  intro j
  refine Json.rec
    (motive_1 := fun j => M j)
    (motive_2 := fun js => ∀ j ∈ js, M j)
    (motive_3 := fun fs => ∀ p ∈ fs, M p.2)
    (motive_4 := fun p => M p.2)
    hnull hbool hnum hstr harr hobj ?_ ?_ ?_ ?_ ?_ j
  · intro j hj; cases hj
  · intro head tail ih1 ih2 j hj
    rcases List.mem_cons.mp hj with rfl | hj
    · exact ih1
    · exact ih2 j hj
  · intro p hp; cases hp
  · intro head tail ih1 ih2 p hp
    rcases List.mem_cons.mp hp with rfl | hp
    · exact ih1
    · exact ih2 p hp
  · intro k j ih; exact ih

theorem den_arr_iff (P : Nat → Bool) (items : List Json) (h : Heap) (v : Val) :
    (Json.arr items).den P h v = true ↔
      ∃ a, v = Val.ref a ∧ P a = true ∧ (h.obj a).isArray = true ∧ (h.obj a).props = [] ∧
        Json.denItems P items h (h.obj a).elems = true := by
  cases v with
  | ref a => simp [Json.den, List.isEmpty_iff, and_assoc]
  | _ => simp [Json.den]

theorem den_obj_iff (P : Nat → Bool) (fields : List (String × Json)) (h : Heap) (v : Val) :
    (Json.obj fields).den P h v = true ↔
      ∃ a, v = Val.ref a ∧ P a = true ∧ (h.obj a).isArray = false ∧ (h.obj a).elems = [] ∧
        (∀ k, k ∈ (h.obj a).props.map Prod.fst → k ∈ fields.map Prod.fst) ∧
        Json.denFields P fields h (h.obj a).props = true := by
  have hkeys : ∀ ps : List (String × Val),
      ps.all (fun kv => (fields.map Prod.fst).contains kv.1) = true ↔
        ∀ k, k ∈ ps.map Prod.fst → k ∈ fields.map Prod.fst := by
    intro ps
    have hc : ∀ k, (fields.map Prod.fst).contains k = true ↔ k ∈ fields.map Prod.fst :=
      fun k => by simp
    simp only [List.all_eq_true, hc]
    constructor
    · intro hall k hk
      obtain ⟨kv, hkv, rfl⟩ := List.mem_map.mp hk
      exact hall kv hkv
    · intro hall kv hkv
      exact hall kv.1 (List.mem_map.mpr ⟨kv, hkv, rfl⟩)
  cases v with
  | ref a =>
    simp only [Json.den, Bool.and_eq_true, hkeys, Val.ref.injEq, exists_eq_left',
      Bool.not_eq_true', List.isEmpty_iff, and_assoc]
  | _ => simp [Json.den]

theorem denItems_nil_iff (P : Nat → Bool) (h : Heap) (es : List (Option Val)) :
    Json.denItems P [] h es = true ↔ es = [] := by
  simp [Json.denItems, List.isEmpty_iff]

theorem denItems_cons_iff (P : Nat → Bool) (j : Json) (js : List Json) (h : Heap)
    (es : List (Option Val)) :
    Json.denItems P (j :: js) h es = true ↔
      ∃ v rest, es = some v :: rest ∧ j.den P h v = true ∧ Json.denItems P js h rest = true := by
  cases es with
  | nil => simp [Json.denItems]
  | cons e rest =>
    cases e with
    | none => simp [Json.denItems]
    | some v =>
      simp only [Json.denItems, Bool.and_eq_true]
      constructor
      · rintro ⟨h1, h2⟩
        exact ⟨v, rest, rfl, h1, h2⟩
      · rintro ⟨v', rest', heq, h1, h2⟩
        cases heq
        exact ⟨h1, h2⟩

/-- The members of an object, read as a map: the names are distinct and every
member is a property holding its tree. -/
theorem denFields_iff (P : Nat → Bool) (h : Heap) (ps : List (String × Val))
    (fs : List (String × Json)) :
    Json.denFields P fs h ps = true ↔
      (fs.map Prod.fst).Nodup ∧
        ∀ k j, (k, j) ∈ fs → ∃ v, assocGet k ps = some v ∧ j.den P h v = true := by
  induction fs with
  | nil => simp [Json.denFields]
  | cons f fs ih =>
    obtain ⟨k, j⟩ := f
    have hc : (!(fs.map Prod.fst).contains k) = true ↔ k ∉ fs.map Prod.fst := by
      rw [Bool.not_eq_true', ← Bool.not_eq_true]
      simp
    simp only [Json.denFields, Bool.and_eq_true, hc, ih, List.map_cons, List.nodup_cons]
    constructor
    · rintro ⟨⟨h1, h2⟩, h3, h4⟩
      refine ⟨⟨h2, h3⟩, ?_⟩
      intro k' j' hmem
      rcases List.mem_cons.mp hmem with heq | hmem
      · cases heq
        cases hg : assocGet k ps with
        | none => rw [hg] at h1; cases h1
        | some v => rw [hg] at h1; exact ⟨v, rfl, h1⟩
      · exact h4 k' j' hmem
    · rintro ⟨⟨h2, h3⟩, h4⟩
      refine ⟨⟨?_, h2⟩, h3, fun k' j' hmem => h4 k' j' (List.mem_cons_of_mem _ hmem)⟩
      obtain ⟨v, hv, hd⟩ := h4 k j (List.mem_cons_self _ _)
      simp [hv, hd]

theorem denItems_imp (P Q : Nat → Bool) (h h' : Heap) (js : List Json)
    (hall : ∀ j ∈ js, ∀ v, j.den P h v = true → j.den Q h' v = true) :
    ∀ es, Json.denItems P js h es = true → Json.denItems Q js h' es = true := by
  induction js with
  | nil => intro es hes; rw [denItems_nil_iff] at hes ⊢; exact hes
  | cons j js ih =>
    intro es hes
    rw [denItems_cons_iff] at hes ⊢
    obtain ⟨v, rest, rfl, h1, h2⟩ := hes
    exact ⟨v, rest, rfl, hall j (List.mem_cons_self _ _) v h1,
      ih (fun j' hj' => hall j' (List.mem_cons_of_mem _ hj')) rest h2⟩

theorem denFields_imp (P Q : Nat → Bool) (h h' : Heap) (fs : List (String × Json))
    (hall : ∀ p ∈ fs, ∀ v, p.2.den P h v = true → p.2.den Q h' v = true)
    (ps : List (String × Val)) (hps : Json.denFields P fs h ps = true) :
    Json.denFields Q fs h' ps = true := by
  rw [denFields_iff] at hps ⊢
  refine ⟨hps.1, fun k j hmem => ?_⟩
  obtain ⟨v, hv, hd⟩ := hps.2 k j hmem
  exact ⟨v, hv, hall (k, j) hmem v hd⟩

/-- A tree stays what it is when the heap changes outside its objects, and
under a weaker bound on its addresses. -/
theorem den_frame (P Q : Nat → Bool) (h h' : Heap)
    (hPQ : ∀ a, P a = true → Q a = true ∧ h'.obj a = h.obj a) (j : Json) :
    ∀ v, j.den P h v = true → j.den Q h' v = true := by
  induction j using Json.induct with
  | hnull => intro v hv; simpa [Json.den] using hv
  | hbool b => intro v hv; simpa [Json.den] using hv
  | hnum n => intro v hv; simpa [Json.den] using hv
  | hstr s => intro v hv; simpa [Json.den] using hv
  | harr items ih =>
    intro v hv
    rw [den_arr_iff] at hv ⊢
    obtain ⟨a, rfl, hP, harr, hprops, hitems⟩ := hv
    obtain ⟨hQ, hobj⟩ := hPQ a hP
    exact ⟨a, rfl, hQ, by rw [hobj]; exact harr, by rw [hobj]; exact hprops,
      by rw [hobj]; exact denItems_imp P Q h h' items ih _ hitems⟩
  | hobj fields ih =>
    intro v hv
    rw [den_obj_iff] at hv ⊢
    obtain ⟨a, rfl, hP, harr, hel, hkeys, hfields⟩ := hv
    obtain ⟨hQ, hobj⟩ := hPQ a hP
    exact ⟨a, rfl, hQ, by rw [hobj]; exact harr, by rw [hobj]; exact hel,
      by rw [hobj]; exact hkeys, by rw [hobj]; exact denFields_imp P Q h h' fields ih _ hfields⟩

theorem den_mono (P Q : Nat → Bool) (h : Heap) (hPQ : ∀ a, P a = true → Q a = true) (j : Json)
    (v : Val) (hv : j.den P h v = true) : j.den Q h v = true :=
  den_frame P Q h h (fun a ha => ⟨hPQ a ha, rfl⟩) j v hv

end Store

namespace Store

end Store

namespace Store

end Store

namespace Store

end Store

namespace Store

theorem grown_iff (P : Nat → Bool) (lo hi a : Nat) :
    grown P lo hi a = true ↔ (P a = true ∨ lo ≤ a) ∧ a < hi := by
  simp [grown]

theorem Merging.congr (P : Nat → Bool) (fields : List (String × Json)) (h : Heap) (ta : Nat)
    (hc : Heap) (done done' : List String) (hd : ∀ k, k ∈ done ↔ k ∈ done')
    (hm : Merging P fields h ta hc done) : Merging P fields h ta hc done' :=
  { length := hm.length
    plain := hm.plain
    elems := hm.elems
    keys := fun k => by rw [hm.keys k, hd k]
    merged := fun k jk hk hmem => hm.merged k jk ((hd k).mpr hk) hmem
    shared := hm.shared
    frame := hm.frame
    kept := hm.kept }

/-- The loop starts. -/
theorem Merging.init (P : Nat → Bool) (fields : List (String × Json)) (h : Heap) (ta : Nat)
    (hP : ∀ a, P a = true → a < h.length)
    (hplain : (h.obj ta).isArray = false) (hel : (h.obj ta).elems = [])
    (hshared : ∀ k jk, (k, jk) ∈ fields → jk.isObj = true →
      truthy ((h.obj ta).get k) = false ∨ jk.den P h ((h.obj ta).get k) = true) :
    Merging P fields h ta h [] :=
  { length := Nat.le_refl _
    plain := hplain
    elems := hel
    keys := fun k => by simp
    merged := fun k jk hk _ => by cases hk
    shared := fun k jk hmem hobj => by
      rcases hshared k jk hmem hobj with h1 | h1
      · exact Or.inl h1
      · exact Or.inr (den_mono P _ h (fun a ha => (grown_iff _ _ _ _).mpr
          ⟨Or.inl ha, hP a ha⟩) jk _ h1)
    frame := fun _ _ _ _ => rfl
    kept := fun Q _ _ hQb j v hv =>
      den_mono Q _ h (fun a ha => (grown_iff _ _ _ _).mpr ⟨Or.inl ha, hQb a ha⟩) j v hv }

end Store

namespace Store

end Store

namespace Store

end Store

namespace Store

end Store

namespace Store

end Store
